import Mathlib

/-!
# Boarding simulator: a shallow embedding of `src/Main.cpp`

The C++ program simulates passengers boarding a plane through one aisle.
This file embeds its data model and operations and proves properties of them.

Modelling conventions.

* C++ `float` / `double` scalars and clock readings (seconds) are exact rationals `ℚ`;
  rounding is not modelled.
* C++ `int` is `Int`; the one operation that can fault on it here (`/`) is `intDiv`.
* `std::vector` is `List`; a reference or pointer into a vector is an index.
* The SFML base classes contribute the fields `position` (of `sf::Transformable`) and
  `radius` (of `sf::CircleShape`); colours and the render target are not modelled.
* Every call of `std::chrono::system_clock::now()` is an input: `Plane.Draw` receives a
  function `clock` whose value at `i` is the reading taken in the `i`-th passenger's `Draw`.
* `std::sort` is a parameter `stdSort`, of which only the contract of the C++ standard
  (`StdSortContract`) is assumed.
* `std::shuffle` is a parameter `stdShuffle`, of which only the contract of the C++ standard
  (`StdShuffleContract`) is assumed.
* A function that can fault returns `Except Fault`; `Plane.Board` returns `Option Bool`,
  `none` standing for the end of the function reached without a `return`.
* The host loop of `main` is `Host.step`, iterated by `Host.run`; the value it reads from a
  `Board` that returned none is an input of the iteration.
-/

namespace BoardingSimulator

/-! ## Data model -/

/-- The SFML vector `sf::Vector2f`. -/
structure Vector2f where
  x : ℚ
  y : ℚ
deriving DecidableEq

/-- Class `ModelParameters`: the `k`-th value each normal distribution yields. -/
structure ModelParameters where
  passengerSpeedDistribution : Nat → ℚ
  waitDurationDistribution : Nat → ℚ

/-- `ModelParameters::GetScaleFactor`. -/
def ModelParameters.GetScaleFactor : ℚ := 20

/-- `ModelParameters::GetPassengerSpeed`, at the `k`-th draw. -/
def ModelParameters.GetPassengerSpeed (self : ModelParameters) (k : Nat) : ℚ :=
  max 5 (self.passengerSpeedDistribution k) * ModelParameters.GetScaleFactor

/-- `ModelParameters::GetWaitDuration`, at the `k`-th draw. -/
def ModelParameters.GetWaitDuration (self : ModelParameters) (k : Nat) : ℚ :=
  min (max 1 (self.waitDurationDistribution k)) 15 / ModelParameters.GetScaleFactor

/-- Class `Seat`; a default-constructed seat is unoccupied at position (0, 0). -/
structure Seat where
  isOccupied : Bool
  position : Vector2f
deriving DecidableEq

/-- `Seat::Seat()`. -/
def Seat.new : Seat := { isOccupied := false, position := ⟨0, 0⟩ }

/-- `Seat::GetSeatWidth`. -/
def Seat.GetSeatWidth : ℚ := 10

/-- `Seat::GetSeatHeight`. -/
def Seat.GetSeatHeight : ℚ := 10

/-- `Seat::Draw`: places the seat at `(x, y)`. -/
def Seat.Draw (self : Seat) (x y : ℚ) : Seat := { self with position := ⟨x, y⟩ }

/-- `Seat::SetOccupied`. -/
def Seat.SetOccupied (self : Seat) : Seat := { self with isOccupied := true }

/-- Class `Passenger`. `myseat` is the grid index of the seat the C++ pointer refers to. -/
structure Passenger where
  row : Int
  seat : Int
  isleY : ℚ
  yVelocity : ℚ
  hasMovedOnce : Bool
  isSeated : Bool
  isBoarded : Bool
  isMoving : Bool
  myseat : Nat × Nat
  lastMove : ℚ
  waitStart : ℚ
  waitDuration : ℚ
  position : Vector2f
  radius : ℚ
deriving DecidableEq

/-- `Passenger::GetRadius`. -/
def Passenger.GetRadius : ℚ := 5

/-- `Passenger::Passenger`. -/
def Passenger.new (_row _seat : Int) (_yVelocity _waitDuration : ℚ) (_myseat : Nat × Nat) :
    Passenger :=
  { row := _row, seat := _seat, isleY := 0, yVelocity := _yVelocity,
    hasMovedOnce := false, isSeated := false, isBoarded := false, isMoving := true,
    myseat := _myseat, lastMove := 0, waitStart := 0, waitDuration := _waitDuration,
    position := ⟨0, 0⟩, radius := Passenger.GetRadius }

/-- `Passenger::SetBoarded`. -/
def Passenger.SetBoarded (self : Passenger) : Passenger := { self with isBoarded := true }

/-- `Passenger::SetSeated`. -/
def Passenger.SetSeated (self : Passenger) : Passenger := { self with isSeated := true }

/-- `Passenger::InIsle`. -/
def Passenger.InIsle (self : Passenger) : Bool := self.isBoarded && !self.isSeated

/-- `sf::Transformable::setPosition` on a passenger. -/
def Passenger.setPosition (self : Passenger) (v : Vector2f) : Passenger :=
  { self with position := v }

/-- The seat grid `std::vector<std::vector<Seat>>`. -/
abbrev SeatGrid := List (List Seat)

/-- Dereference of a `Seat*` that points at grid cell `cell`. -/
def SeatGrid.deref (seats : SeatGrid) (cell : Nat × Nat) : Seat :=
  (seats.getD cell.1 []).getD cell.2 Seat.new

/-- Call of `SetOccupied` through a `Seat*` that points at grid cell `cell`. -/
def SeatGrid.SetOccupied (seats : SeatGrid) (cell : Nat × Nat) : SeatGrid :=
  seats.modify (fun rowSeats => rowSeats.modify Seat.SetOccupied cell.2) cell.1

/-- The loop "Cap yToMove" of `Passenger::Draw` (lines 132-156), run over the passengers
from index `j` on; `idx` is the index of `self` in the vector. -/
def Passenger.capYToMove (self : Passenger) (idx : Nat) : Nat → List Passenger → ℚ → ℚ
  | _, [], yToMove => yToMove
  | j, passenger :: rest, yToMove =>
    if j = idx then
      Passenger.capYToMove self idx (j + 1) rest yToMove
    else if !passenger.InIsle then
      Passenger.capYToMove self idx (j + 1) rest yToMove
    else
      let distanceToPassenger := passenger.position.y - self.position.y
      if distanceToPassenger < 0 then
        Passenger.capYToMove self idx (j + 1) rest yToMove
      else
        let spaceBetweenUs := distanceToPassenger - self.radius * 2 - 1
        if spaceBetweenUs < yToMove then
          Passenger.capYToMove self idx (j + 1) rest spaceBetweenUs
        else
          Passenger.capYToMove self idx (j + 1) rest yToMove

/-- `Passenger::Draw` for the passenger at index `idx` of `passengers`, with `now` the clock
reading it takes. Returns the passenger and the seat grid after the call. -/
def Passenger.Draw (self : Passenger) (now : ℚ) (isleOrigin : Vector2f) (seats : SeatGrid)
    (idx : Nat) (passengers : List Passenger) : Passenger × SeatGrid :=
  if !self.InIsle then
    (self, seats)
  else if self.isMoving then
    let moved : Passenger :=
      if self.hasMovedOnce then
        let diff := now - self.lastMove
        let yToMove := self.capYToMove idx 0 passengers (diff * self.yVelocity)
        let isleY := self.isleY + yToMove
        if isleOrigin.y + isleY > (seats.deref self.myseat).position.y then
          { self with
            isleY := (seats.deref self.myseat).position.y - isleOrigin.y,
            waitStart := now,
            isMoving := false }
        else
          { self with isleY := isleY }
      else
        self
    ({ moved with
        position := ⟨isleOrigin.x + (16 / 2) - moved.radius, isleOrigin.y + moved.isleY⟩,
        lastMove := now,
        hasMovedOnce := true }, seats)
  else
    let diff := now - self.waitStart
    if diff ≥ self.waitDuration then
      ({ self with isSeated := true }, seats.SetOccupied self.myseat)
    else
      (self, seats)

/-- Class `Plane`. -/
structure Plane where
  params : ModelParameters
  seats : SeatGrid
  noRows : Int
  noSeats : Int
  passengers : List Passenger
  isleOrigin : Vector2f

/-- `Plane::START_Y`. -/
def Plane.START_Y : ℚ := 50

/-- `Plane::ROW_SPACING`. -/
def Plane.ROW_SPACING : ℚ := 10

/-- `Plane::SEAT_SPACING`. -/
def Plane.SEAT_SPACING : ℚ := 6

/-- `Plane::GetIsleWidth`. -/
def Plane.GetIsleWidth : ℚ := 16

/-- `Plane::Plane`. `std::vector<Seat>(noSeats)` throws for a negative `noSeats`, which is
`none`; a non-positive `noRows` runs no iteration. The passenger of cell `(i, j)` is the
`(i * noSeats + j)`-th one constructed and takes the draws of that index. -/
def Plane.new (_params : ModelParameters) (_noRows _noSeats : Int) : Option Plane :=
  if 0 < _noRows ∧ _noSeats < 0 then
    none
  else
    some
      { params := _params,
        seats := List.replicate _noRows.toNat (List.replicate _noSeats.toNat Seat.new),
        noRows := _noRows,
        noSeats := _noSeats,
        passengers :=
          (List.range _noRows.toNat).flatMap fun (i : Nat) =>
            (List.range _noSeats.toNat).map fun (j : Nat) =>
              Passenger.new (i : Int) (j : Int)
                (_params.GetPassengerSpeed (i * _noSeats.toNat + j))
                (_params.GetWaitDuration (i * _noSeats.toNat + j))
                (i, j),
        isleOrigin := ⟨0, 0⟩ }

/-- Inner loop of "Draw seats" in `Plane::Draw` (lines 238-257) from seat `seatNo` on, for a
row of `size` seats. The test `seatNo == rowSeats.size() / 2 - 1` is evaluated in unsigned
64-bit arithmetic, so `size / 2 - 1` wraps for `size < 2`. -/
def Plane.drawRowSeats (row size : Nat) (seatY : ℚ) :
    Nat → List Seat → ℚ → Vector2f → List Seat × Vector2f
  | _, [], _, isleOrigin => ([], isleOrigin)
  | seatNo, seat :: rest, seatX, isleOrigin =>
    let seat := seat.Draw seatX seatY
    let seatX := seatX + Seat.GetSeatWidth
    if seatNo = (size / 2 + 2 ^ 64 - 1) % 2 ^ 64 then
      let isleOrigin : Vector2f :=
        if row = 0 ∧ (isleOrigin.x ≠ seatX ∨ isleOrigin.y ≠ seatY) then ⟨seatX, seatY⟩
        else isleOrigin
      let r := Plane.drawRowSeats row size seatY (seatNo + 1) rest
        (seatX + Plane.GetIsleWidth) isleOrigin
      (seat :: r.1, r.2)
    else
      let r := Plane.drawRowSeats row size seatY (seatNo + 1) rest
        (seatX + Plane.SEAT_SPACING) isleOrigin
      (seat :: r.1, r.2)

/-- Outer loop of "Draw seats" in `Plane::Draw` (lines 233-260) from row `row` on. -/
def Plane.drawSeats : Nat → SeatGrid → ℚ → Vector2f → SeatGrid × Vector2f
  | _, [], _, isleOrigin => ([], isleOrigin)
  | row, rowSeats :: rest, seatY, isleOrigin =>
    let r := Plane.drawRowSeats row rowSeats.length seatY 0 rowSeats 300 isleOrigin
    let rs := Plane.drawSeats (row + 1) rest
      (seatY + (Plane.ROW_SPACING + Seat.GetSeatHeight)) r.2
    (r.1 :: rs.1, rs.2)

/-- One iteration of "Draw passengers" in `Plane::Draw` (lines 265-268): the passenger at
index `i` is drawn in place. -/
def Plane.drawPassenger (clock : Nat → ℚ) (isleOrigin : Vector2f)
    (st : List Passenger × SeatGrid) (i : Nat) : List Passenger × SeatGrid :=
  match st.1[i]? with
  | none => st
  | some passenger =>
    let r := passenger.Draw (clock i) isleOrigin st.2 i st.1
    (st.1.set i r.1, r.2)

/-- `Plane::Draw`. -/
def Plane.Draw (self : Plane) (clock : Nat → ℚ) : Plane :=
  let s := Plane.drawSeats 0 self.seats Plane.START_Y self.isleOrigin
  let r := (List.range self.passengers.length).foldl (Plane.drawPassenger clock s.2)
    (self.passengers, s.1)
  { self with seats := r.2, isleOrigin := s.2, passengers := r.1 }

/-- `std::numeric_limits<float>::max()`. -/
def FLT_MAX : ℚ := 340282346638528859811704183484516925440

/-- The loop of `Plane::CanBoard` (lines 294-311). -/
def Plane.lowestPassengerY (passengers : List Passenger) : ℚ :=
  passengers.foldl
    (fun lowestPassengerY passenger =>
      if !passenger.InIsle then lowestPassengerY
      else min lowestPassengerY passenger.position.y)
    FLT_MAX

/-- `Plane::CanBoard`. -/
def Plane.CanBoard (self : Plane) : Bool :=
  if self.isleOrigin.x = 0 ∧ self.isleOrigin.y = 0 then
    false
  else
    let space := Plane.lowestPassengerY self.passengers - Plane.START_Y
    decide (space ≥ 2 * Passenger.GetRadius + 1)

/-- `Plane::Board` on the passenger at index `passenger` of the plane's vector. The first
component is the value returned: `some false` at the `return false` of line 275, and `none`
where control reaches the closing brace of line 283, no `return` statement having run. -/
def Plane.Board (self : Plane) (passenger : Nat) : Option Bool × Plane :=
  if !self.CanBoard then
    (some false, self)
  else
    (none,
      { self with
        passengers :=
          self.passengers.modify
            (fun p => p.SetBoarded.setPosition ⟨self.isleOrigin.x, self.isleOrigin.y⟩)
            passenger })

/-! ## Boarding order -/

/-- How an operation on C++ `int`s or iterators can fail to produce a result. -/
inductive Fault where
  | divisionByZero
  | overflow
  | invalidRange
  | outOfFuel
deriving DecidableEq

/-- Equality of results is decidable. -/
instance instDecidableEqExcept {ε α : Type} [DecidableEq ε] [DecidableEq α] :
    DecidableEq (Except ε α)
  | .ok a, .ok b => if h : a = b then isTrue (by rw [h]) else isFalse (by simpa using h)
  | .error e, .error f => if h : e = f then isTrue (by rw [h]) else isFalse (by simpa using h)
  | .ok _, .error _ => isFalse (by simp)
  | .error _, .ok _ => isFalse (by simp)

/-- The least value of a 32-bit `int`. -/
def INT_MIN : Int := -2147483648

/-- C++ `a / b` on `int`: truncating, undefined for `b == 0` and for `INT_MIN / -1`. -/
def intDiv (a b : Int) : Except Fault Int :=
  if b = 0 then .error .divisionByZero
  else if a = INT_MIN ∧ b = -1 then .error .overflow
  else .ok (Int.tdiv a b)

/-- The requirement `Compare` of the C++ standard on the comparator given to `std::sort`. -/
def StrictWeakOrdering (comp : Passenger → Passenger → Bool) : Prop :=
  (∀ a, comp a a = false) ∧
  (∀ a b c, comp a b = true → comp b c = true → comp a c = true) ∧
  (∀ a b c, comp a b = false → comp b a = false → comp b c = false → comp c b = false →
    comp a c = false ∧ comp c a = false)

/-- The contract of `std::sort` in the C++ standard: given a comparator that is a strict weak
ordering, the range afterwards holds the same elements and is sorted with respect to it.
The order of equivalent elements is left open. -/
def StdSortContract (stdSort : (Passenger → Passenger → Bool) → List Passenger → List Passenger) :
    Prop :=
  ∀ comp range, StrictWeakOrdering comp →
    (stdSort comp range).Perm range ∧
    (stdSort comp range).Pairwise (fun a b => comp b a = false)

/-- The lambda given to `std::sort` in `SortBySection` (lines 339-343), its divisions being
defined (`sectionSize` is not zero, and no row is `INT_MIN` when it is -1). -/
def sectionComp (sectionSize : Int) (a b : Passenger) : Bool :=
  let aSection := Int.tdiv a.row sectionSize
  let bSection := Int.tdiv b.row sectionSize
  decide (aSection > bSection)

/-- `SortBySection` on the range `[begin, end)` given as a list, with `stdSort` standing for
`std::sort`. A range of two or more elements makes `std::sort` call the comparator on every
element, so its divisions fault as `intDiv` does. -/
def SortBySection (stdSort : (Passenger → Passenger → Bool) → List Passenger → List Passenger)
    (numRows numSections : Int) (range : List Passenger) : Except Fault (List Passenger) :=
  if numSections = 1 then
    .ok range
  else
    match intDiv numRows numSections with
    | .error f => .error f
    | .ok sectionSize =>
      if 2 ≤ range.length ∧ sectionSize = 0 then
        .error .divisionByZero
      else if 2 ≤ range.length ∧ sectionSize = -1 ∧ range.any (fun p => p.row = INT_MIN) then
        .error .overflow
      else
        .ok (stdSort (sectionComp sectionSize) range)

/-- The windowing loop of `main` (lines 373-389); `begin` and the loop's `end` are offsets
into `list`, and `fuel` bounds the number of iterations. `std::sort` on a range whose end
precedes its begin is `invalidRange`. -/
def batchedSortBySection
    (stdSort : (Passenger → Passenger → Bool) → List Passenger → List Passenger)
    (numRows numSections peoplePerSection : Int) :
    Nat → Nat → List Passenger → Except Fault (List Passenger)
  | 0, _, _ => .error .outOfFuel
  | fuel + 1, begin, list =>
    let size := list.length
    let end0 : Int := (begin : Int) + peoplePerSection * numSections
    let end1 : Int := if end0 > (size : Int) then (size : Int) else end0
    if end1 < (begin : Int) then
      .error .invalidRange
    else
      let stop := end1.toNat
      match SortBySection stdSort numRows numSections ((list.drop begin).take (stop - begin)) with
      | .error f => .error f
      | .ok sorted =>
        let list := list.take begin ++ sorted ++ list.drop stop
        if stop = size then .ok list
        else batchedSortBySection stdSort numRows numSections peoplePerSection fuel stop list

/-- Consecutive windows of `w` elements of a list, the last one possibly shorter; the window
`[0, w)` is there for the empty list too. `fuel` bounds the number of windows. -/
def windowsAux (w : Nat) : Nat → List Passenger → List (List Passenger)
  | 0, list => [list.take w]
  | fuel + 1, list =>
    list.take w ::
      (match list.drop w with
       | [] => []
       | p :: rest => windowsAux w fuel (p :: rest))

/-- The consecutive windows `[0, w)`, `[w, 2w)`, ... of a list. -/
def windows (w : Nat) (list : List Passenger) : List (List Passenger) :=
  windowsAux w list.length list

/-- `SortBySection` applied to each window on its own, the results concatenated; the first
fault met is the result. -/
def sortEachWindow
    (stdSort : (Passenger → Passenger → Bool) → List Passenger → List Passenger)
    (numRows numSections : Int) : List (List Passenger) → Except Fault (List Passenger)
  | [] => .ok []
  | window :: rest =>
    match SortBySection stdSort numRows numSections window with
    | .error f => .error f
    | .ok sorted =>
      match sortEachWindow stdSort numRows numSections rest with
      | .error f => .error f
      | .ok tail => .ok (sorted ++ tail)

/-- A sorting routine that meets `StdSortContract` and reverses equivalent elements:
insertion sort of the reversed range. -/
def reversingSort (comp : Passenger → Passenger → Bool) (range : List Passenger) :
    List Passenger :=
  List.insertionSort (fun a b => comp b a = false) range.reverse

/-- The section index `row / sectionSize` of a passenger. -/
def Passenger.sectionIndex (sectionSize : Int) (p : Passenger) : Int :=
  Int.tdiv p.row sectionSize

/-- A passenger of row `r` and seat `s`, as the constructor of `Plane` makes it with
velocity 100 and wait duration 1/4. -/
def Passenger.sample (r s : Nat) : Passenger :=
  Passenger.new (r : Int) (s : Int) 100 (1 / 4) (r, s)

/-- The four states of a passenger in the specification, read off the three flags of the
class; flag combinations outside the state machine have no state. -/
inductive PassengerState where
  | NotBoarded
  | InAisle
  | Waiting
  | Seated
deriving DecidableEq

/-- The specification state of a passenger. -/
def Passenger.state (p : Passenger) : Option PassengerState :=
  match p.isBoarded, p.isSeated, p.isMoving with
  | false, false, true => some .NotBoarded
  | true, false, true => some .InAisle
  | true, false, false => some .Waiting
  | true, true, false => some .Seated
  | _, _, _ => none

/-- The positions of the aisle-resident passengers of a plane. -/
def Plane.aislePositions (self : Plane) : List ℚ :=
  (self.passengers.filter Passenger.InIsle).map (fun p => p.position.y)

/-- Parameters whose every draw is the mean of its distribution. -/
def ModelParameters.sample : ModelParameters :=
  { passengerSpeedDistribution := fun _ => 10, waitDurationDistribution := fun _ => 7 }

/-- Passenger `a` stands before passenger `b` in `range`. -/
def Precedes (a b : Passenger) (range : List Passenger) : Prop :=
  List.Sublist [a, b] range

/-- Six passengers, of rows 3, 15, 0, 19, 14 and 5. -/
def sectionSampleRange : List Passenger :=
  [Passenger.sample 3 0, Passenger.sample 15 0, Passenger.sample 0 0,
   Passenger.sample 19 0, Passenger.sample 14 0, Passenger.sample 5 0]

/-- Five passengers, of rows 0, 1, 2, 3 and 4. -/
def windowSampleList : List Passenger :=
  [Passenger.sample 0 0, Passenger.sample 1 0, Passenger.sample 2 0,
   Passenger.sample 3 0, Passenger.sample 4 0]

/-! ## Reachable states and their invariant -/

/-- Cell `cell` lies within the seat grid. -/
def SeatGrid.InGrid (seats : SeatGrid) (cell : Nat × Nat) : Prop :=
  ∃ rowSeats, seats[cell.1]? = some rowSeats ∧ cell.2 < rowSeats.length

/-- Every seat of the grid stands at the height `Plane::Draw` gives its row. -/
def SeatGrid.Drawn (seats : SeatGrid) : Prop :=
  ∀ cell, seats.InGrid cell →
    (seats.deref cell).position.y =
      Plane.START_Y + (cell.1 : ℚ) * (Plane.ROW_SPACING + Seat.GetSeatHeight)

/-- What holds of each passenger in a reachable state, for an origin of height `originY`,
clock readings up to `t` and the seat grid `seats`. -/
structure PassengerInv (originY t : ℚ) (seats : SeatGrid) (q : Passenger) : Prop where
  vel : 0 ≤ q.yVelocity
  rad : q.radius = Passenger.GetRadius
  grid : seats.InGrid q.myseat
  fresh : q.isBoarded = false → q.isleY = 0
  pos : q.InIsle = true → q.isMoving = true → q.position.y = originY + q.isleY
  seat : q.InIsle = true → q.isMoving = true →
    originY + q.isleY ≤
      Plane.START_Y + (q.myseat.1 : ℚ) * (Plane.ROW_SPACING + Seat.GetSeatHeight)
  time : q.hasMovedOnce = true → q.lastMove ≤ t

/-- Any two aisle-resident passengers are at least `2 * radius + 1` apart. -/
def Gap (passengers : List Passenger) : Prop :=
  ∀ (i j : Nat) (hi : i < passengers.length) (hj : j < passengers.length), i ≠ j →
    passengers[i].InIsle = true → passengers[j].InIsle = true →
    passengers[i].position.y ≤ passengers[j].position.y →
    passengers[i].position.y + (2 * Passenger.GetRadius + 1) ≤ passengers[j].position.y

/-- The invariant of the simulation, on the origin, the passengers and the seats. -/
structure SimInv (isleOrigin : Vector2f) (t : ℚ) (st : List Passenger × SeatGrid) : Prop where
  origin : (isleOrigin = ⟨0, 0⟩ ∧ ∀ q ∈ st.1, q.isBoarded = false) ∨
    (isleOrigin.y = Plane.START_Y ∧ st.2.Drawn)
  each : ∀ q ∈ st.1, PassengerInv isleOrigin.y t st.2 q
  gap : Gap st.1

/-- The states the simulation can be in. `Reachable p t established` says that plane `p` is
reached from a constructed plane, its passengers put in any boarding order, by calls of
`Plane::Draw` and of `Plane::Board` on passengers that have not boarded; `t` is the latest
clock reading, and `established` records whether some `Draw` has assigned the aisle origin
(line 248). A clock never runs backwards. -/
inductive Reachable : Plane → ℚ → Bool → Prop
  | init (params : ModelParameters) (noRows noSeats : Int) (p : Plane)
      (order : List Passenger) (t : ℚ) :
      Plane.new params noRows noSeats = some p → order.Perm p.passengers →
      Reachable { p with passengers := order } t false
  | draw (p : Plane) (t : ℚ) (established : Bool) (clock : Nat → ℚ) :
      Reachable p t established → t ≤ clock 0 → Monotone clock →
      Reachable (p.Draw clock) (clock p.passengers.length)
        (established || decide ((p.Draw clock).isleOrigin ≠ p.isleOrigin))
  | board (p : Plane) (t : ℚ) (established : Bool) (i : Nat) (hi : i < p.passengers.length) :
      Reachable p t established → p.passengers[i].isBoarded = false →
      Reachable (p.Board i).2 t established

/-- A plane of two rows of two seats, as constructed. -/
def Plane.start : Plane :=
  (Plane.new ModelParameters.sample 2 2).getD
    { params := ModelParameters.sample, seats := [], noRows := 0, noSeats := 0,
      passengers := [], isleOrigin := ⟨0, 0⟩ }

/-- The plane `Plane.start` after a first `Draw`, at time 0: the origin is `(310, 50)`. -/
def Plane.run1 : Plane := Plane.start.Draw (fun _ => 0)

/-- Then the passenger of cell (1, 0) boards. -/
def Plane.run2 : Plane := (Plane.run1.Board 2).2

/-- Then a `Draw` at time 1, the first one of that passenger. -/
def Plane.run3 : Plane := Plane.run2.Draw (fun _ => 1)

/-- Then a `Draw` at time `1 + dt`: for `dt` up to 1/10 the passenger, of velocity 200,
stands at height `50 + 200 * dt`. -/
def Plane.gateRun (dt : ℚ) : Plane := Plane.run3.Draw (fun _ => 1 + dt)

/-- Then a `Draw` at time 2: the passenger reaches its row, at height 70. -/
def Plane.run4 : Plane := Plane.run3.Draw (fun _ => 2)

/-- Then the passenger of cell (1, 1) boards, at height 50. -/
def Plane.afterRun : Plane := (Plane.run4.Board 3).2

/-- The number of seats of a plane. -/
def Plane.seatCount (self : Plane) : Nat := (self.seats.map List.length).sum

/-- The contract of `std::shuffle` in the C++ standard: the range afterwards holds the same
elements, whatever the state of the engine. The engine state is a number; the second
component of the result is the state afterwards. -/
def StdShuffleContract (stdShuffle : Nat → List Passenger → List Passenger × Nat) : Prop :=
  ∀ rng list, (stdShuffle rng list).1.Perm list

/-- `RandomizePassengerList`, with `stdShuffle` standing for `std::shuffle`. -/
def RandomizePassengerList (stdShuffle : Nat → List Passenger → List Passenger × Nat)
    (rng : Nat) (list : List Passenger) : List Passenger × Nat :=
  stdShuffle rng list

/-- Exchange of the elements at indices `i` and `j` (`std::iter_swap`). -/
def swapAt (list : List Passenger) (i j : Nat) : List Passenger :=
  match list[i]?, list[j]? with
  | some a, some b => (list.set i b).set j a
  | _, _ => list

/-- The loop of an exchange shuffle: for `i`, `i + 1`, ... (`count` times) the engine, a
linear congruential one (`minstd_rand0`), is stepped and element `i` is exchanged with the
element at an index in `[0, i]` taken from the engine. -/
def exchangeShuffleLoop : Nat → Nat → Nat → List Passenger → List Passenger × Nat
  | 0, _, rng, list => (list, rng)
  | count + 1, i, rng, list =>
    let next := 16807 * rng % 2147483647
    exchangeShuffleLoop count (i + 1) next (swapAt list i (next % (i + 1)))

/-- A shuffling routine that meets `StdShuffleContract`. -/
def exchangeShuffle (rng : Nat) (list : List Passenger) : List Passenger × Nat :=
  exchangeShuffleLoop (list.length - 1) 1 rng list

/-- The key `(row, column)` of a passenger. -/
def Passenger.key (q : Passenger) : Int × Int := (q.row, q.seat)

/-- The value of the local `yToMove` of `Passenger::Draw` at line 158, when the passenger is
moving and has moved before: the delta then added to `isleY`. -/
def Passenger.yToMove (self : Passenger) (now : ℚ) (idx : Nat) (passengers : List Passenger) :
    ℚ :=
  self.capYToMove idx 0 passengers ((now - self.lastMove) * self.yVelocity)

/-- The gap `theirPosition - myPosition - 2 * radius - 1` between a passenger and another. -/
def Passenger.gapTo (self other : Passenger) : ℚ :=
  other.position.y - self.position.y - self.radius * 2 - 1

/-- The gaps to the other aisle-resident passengers (indices counted from `start`, `idx` left out) whose
position is strictly greater than this passenger's. -/
def Passenger.gapsStrictlyAhead (self : Passenger) (idx start : Nat)
    (passengers : List Passenger) : List ℚ :=
  ((passengers.enumFrom start).filter
    (fun jq => decide (jq.1 ≠ idx) && jq.2.InIsle &&
      decide (self.position.y < jq.2.position.y))).map (fun jq => self.gapTo jq.2)

/-- The gaps to the other aisle-resident passengers whose position is greater than or equal
to this passenger's. -/
def Passenger.gapsAheadOrLevel (self : Passenger) (idx start : Nat)
    (passengers : List Passenger) : List ℚ :=
  ((passengers.enumFrom start).filter
    (fun jq => decide (jq.1 ≠ idx) && jq.2.InIsle &&
      decide (self.position.y ≤ jq.2.position.y))).map (fun jq => self.gapTo jq.2)

/-- The minimum of `y` and the members of `gaps`. -/
def minWith (y : ℚ) (gaps : List ℚ) : ℚ := gaps.foldl min y

/-- Two aisle-resident passengers that have moved, both at height 60. -/
def levelPair : List Passenger :=
  [{ Passenger.sample 2 0 with
      isBoarded := true, hasMovedOnce := true, isleY := 10, position := ⟨313, 60⟩ },
   { Passenger.sample 2 1 with
      isBoarded := true, hasMovedOnce := true, isleY := 10, position := ⟨313, 60⟩ }]

/-- The greatest value of a 32-bit `int`. -/
def INT_MAX : Int := 2147483647

/-- The aisle origin that `Plane::Draw` assigns for rows of `seatsPerRow` seats:
`(300 + 16 * h - 6, START_Y)` with `h = seatsPerRow / 2`. -/
def Plane.originFor (seatsPerRow : Nat) : Vector2f :=
  ⟨300 + 16 * ((seatsPerRow / 2 : Nat) : ℚ) - 6, Plane.START_Y⟩

/-- Every passenger's seat is flagged occupied exactly when the passenger is seated. -/
def Occupancy (st : List Passenger × SeatGrid) : Prop :=
  ∀ (i : Nat) (hi : i < st.1.length),
    (st.2.deref (st.1.get ⟨i, hi⟩).myseat).isOccupied = (st.1.get ⟨i, hi⟩).isSeated

/-- Then a `Draw` at time 3: the wait of the passenger of cell (1, 0), begun at time 2 and
of duration 7/20, is over, and the passenger sits down. -/
def Plane.run5 : Plane := Plane.run4.Draw (fun _ => 3)

/-- Single occupancy at plane `p`, for the `Draw` with clock `clock` and the `Board` on
passenger `j`:
* the seat of every passenger is flagged occupied exactly when the passenger is seated, and
  the passengers' seats are, one each, the cells of the grid;
* a flag that is set stays set through `Draw`, and `Board` leaves the seats alone;
* through `Draw` a seated passenger stays seated, the flag of a passenger's seat goes from
  clear to set exactly when the passenger goes from not seated to seated, and then the
  passenger was waiting and its wait duration had elapsed since its wait start.
`SetOccupied` is called in `Passenger::Draw` exactly where `isSeated` is set, so every call
finds the flag clear; flags never being cleared, a seat sees at most one call. -/
def SingleOccupancy (p : Plane) (clock : Nat → ℚ) (j : Nat) : Prop :=
  (∀ q ∈ p.passengers, (p.seats.deref q.myseat).isOccupied = q.isSeated) ∧
  (p.passengers.map (fun q => q.myseat)).Nodup ∧
  (∀ cell, p.seats.InGrid cell ↔ cell ∈ p.passengers.map (fun q => q.myseat)) ∧
  (∀ cell, (p.seats.deref cell).isOccupied = true →
    ((p.Draw clock).seats.deref cell).isOccupied = true) ∧
  (p.Board j).2.seats = p.seats ∧
  (∀ (i : Nat) (q q' : Passenger), p.passengers[i]? = some q →
    (p.Draw clock).passengers[i]? = some q' →
    q'.myseat = q.myseat ∧
    (q.isSeated = true → q'.isSeated = true) ∧
    (((p.seats.deref q.myseat).isOccupied = false ∧
        ((p.Draw clock).seats.deref q.myseat).isOccupied = true) ↔
      (q.isSeated = false ∧ q'.isSeated = true)) ∧
    (q.isSeated = false → q'.isSeated = true →
      q.state = some PassengerState.Waiting ∧ clock i - q.waitStart ≥ q.waitDuration))

/-! ## The host loop -/

/-- The loop of lines 425-432 of `main`: every passenger is seated. -/
def Plane.allSeated (self : Plane) : Bool := self.passengers.all (fun q => q.isSeated)

/-- The state of the host loop of `main`: the plane and the counter `nextPassenger`. -/
structure Host where
  plane : Plane
  nextPassenger : Nat

/-- The state in which `main` enters its loop: `nextPassenger = 0`. -/
def Host.start (plane : Plane) : Host := { plane := plane, nextPassenger := 0 }

/-- One iteration of the host loop of `main` (lines 405-443): `plane.Draw`, then, a passenger
being left, `plane.Board` on the passenger at `nextPassenger`, the counter being advanced
when the value of the call is true. Where `Board` reaches its end without a `return` the
value the host reads is indeterminate: it is the input `indeterminate`. The exit test of
lines 422-437 changes nothing of the state and is read off the plane by `Plane.allSeated`. -/
def Host.step (self : Host) (clock : Nat → ℚ) (indeterminate : Bool) : Host :=
  let plane := self.plane.Draw clock
  if self.nextPassenger < plane.passengers.length then
    let r := plane.Board self.nextPassenger
    let value : Bool :=
      match r.1 with
      | some b => b
      | none => indeterminate
    { plane := r.2,
      nextPassenger := if value then self.nextPassenger + 1 else self.nextPassenger }
  else
    { plane := plane, nextPassenger := self.nextPassenger }

/-- The host loop after `n` iterations; `clock n i` is the clock reading of the `i`-th
passenger's `Draw` in iteration `n`, and `reads n` the value read in iteration `n` where
`Board` returns none. -/
def Host.run (self : Host) (clock : Nat → Nat → ℚ) (reads : Nat → Bool) : Nat → Host
  | 0 => self
  | n + 1 => (Host.run self clock reads n).step (clock n) (reads n)

/-- A plane of one row of one seat, as constructed. -/
def Plane.single : Plane :=
  (Plane.new ModelParameters.sample 1 1).getD
    { params := ModelParameters.sample, seats := [], noRows := 0, noSeats := 0,
      passengers := [], isleOrigin := ⟨0, 0⟩ }

/-- A clock whose readings increase strictly from iteration to iteration and stay below
1/20: iteration `n` reads `1/20 - 1/(20 * (n + 1))`. -/
def zenoClock (n : Nat) (_i : Nat) : ℚ := 1 / 20 - 1 / (20 * ((n : ℚ) + 1))

/-- A clock that reads `n` in iteration `n`. -/
def unitClock (n : Nat) (_i : Nat) : ℚ := (n : ℚ)

/-- The boarding queue of the host loop, `nextPassenger` being the host's counter and `T` the
latest clock reading: the passengers before the counter are the boarded ones; of two
aisle-resident passengers the one of lower index is not behind the other; velocities are
positive; a seated passenger has boarded; a wait has begun by `T`. -/
structure Queue (nextPassenger : Nat) (T : ℚ) (ps : List Passenger) : Prop where
  boarded : ∀ (i : Nat) (hi : i < ps.length), ps[i].isBoarded = true ↔ i < nextPassenger
  ordered : ∀ (i j : Nat) (hi : i < ps.length) (hj : j < ps.length), i < j →
    ps[i].InIsle = true → ps[j].InIsle = true → ps[j].position.y ≤ ps[i].position.y
  vel : ∀ q ∈ ps, 0 < q.yVelocity
  seated : ∀ q ∈ ps, q.isSeated = true → q.isBoarded = true
  wait : ∀ q ∈ ps, q.isMoving = false → q.waitStart ≤ T

/-- The passengers before index `k` are seated. -/
def Front (k : Nat) (ps : List Passenger) : Prop :=
  ∀ (j : Nat) (hj : j < ps.length), j < k → ps[j].isSeated = true

/-- The invariant of the simulation together with the boarding queue, the passengers before
index `k` being seated. -/
def Live (o : Vector2f) (nextPassenger k : Nat) (T : ℚ) (st : List Passenger × SeatGrid) :
    Prop :=
  SimInv o T st ∧ Queue nextPassenger T st.1 ∧ Front k st.1

/-- What one `Passenger::Draw` at clock reading `now` makes of passenger `q`, giving `q'`;
`front` says that no aisle-resident passenger is ahead of `q`, whose move is then not
capped. -/
def Passenger.Advance (now : ℚ) (front : Prop) (q q' : Passenger) : Prop :=
  q'.myseat = q.myseat ∧ q'.yVelocity = q.yVelocity ∧ q'.waitDuration = q.waitDuration ∧
  q'.isBoarded = q.isBoarded ∧
  (q.isSeated = true → q'.isSeated = true) ∧
  (q.InIsle = true → q.isMoving = true →
    q'.InIsle = true ∧ q'.hasMovedOnce = true ∧
    (q.hasMovedOnce = false → q'.isMoving = true) ∧
    (front → q.hasMovedOnce = true → q'.isMoving = false ∨
      (q'.isMoving = true ∧ q'.isleY = q.isleY + (now - q.lastMove) * q.yVelocity))) ∧
  (q.InIsle = true → q.isMoving = false →
    (q.waitStart + q.waitDuration ≤ now → q'.isSeated = true) ∧
    (q'.isSeated = true ∨
      (q'.InIsle = true ∧ q'.isMoving = false ∧ q'.waitStart = q.waitStart)))

/-- The invariant of the host loop on a plane of `rows` rows of `s` seats with `L`
passengers. -/
structure HostInv (rows s L k : Nat) (T : ℚ) (h : Host) : Prop where
  live : Live h.plane.isleOrigin h.nextPassenger k T (h.plane.passengers, h.plane.seats)
  shape : h.plane.seats.map List.length = List.replicate rows s
  len : h.plane.passengers.length = L

/-- A clock whose iterations are at least `δ > 0` apart: within an iteration the readings do
not decrease, and every reading of an iteration is at least `δ` after every reading of the
iteration before. -/
structure TickClock (clock : Nat → Nat → ℚ) (δ : ℚ) : Prop where
  pos : 0 < δ
  mono : ∀ n, Monotone (clock n)
  tick : ∀ n i j, clock n i + δ ≤ clock (n + 1) j

/-- A time that every reading of iteration `n` follows by `δ` at least: the last reading of
the iteration before (there are `L` passengers). -/
def tickStart (clock : Nat → Nat → ℚ) (δ : ℚ) (L : Nat) : Nat → ℚ
  | 0 => clock 0 0 - δ
  | n + 1 => clock n L

/-- The hypotheses on a run of the host loop from `start`: the clock, the invariant at the
start, and a plane of at least one row of at least two seats. -/
structure Boarding (start : Host) (clock : Nat → Nat → ℚ) (δ : ℚ) (rows s L : Nat) : Prop where
  ticks : TickClock clock δ
  init : HostInv rows s L 0 (tickStart clock δ L 0) start
  rowsPos : 1 ≤ rows
  seatsTwo : 2 ≤ s
  seatsMax : s < 2 ^ 64

/-- Passenger `k` is seated after `n` iterations of the run from `start` in which `Board`
without a returned value reads as true. -/
def SeatedAt (start : Host) (clock : Nat → Nat → ℚ) (n k : Nat) : Prop :=
  ∃ q, (start.run clock (fun _ => true) n).plane.passengers[k]? = some q ∧ q.isSeated = true

/-! ## Theorems -/

/-! ### The admission gate -/

theorem lowestPassengerY_fold_ge (c : ℚ) (passengers : List Passenger) (acc : ℚ) :
    c ≤ passengers.foldl
        (fun lowestPassengerY passenger =>
          if !passenger.InIsle then lowestPassengerY
          else min lowestPassengerY passenger.position.y) acc ↔
      c ≤ acc ∧ ∀ p ∈ passengers, p.InIsle = true → c ≤ p.position.y := by
  induction passengers generalizing acc with
  | nil => simp
  | cons q rest ih =>
    rw [List.foldl_cons, ih]
    by_cases hq : q.InIsle = true
    · simp [hq, le_min_iff, and_assoc]
    · simp [hq]

theorem CanBoard_iff (self : Plane) :
    self.CanBoard = true ↔
      ¬(self.isleOrigin.x = 0 ∧ self.isleOrigin.y = 0) ∧
        ∀ p ∈ self.passengers, p.InIsle = true →
          Plane.START_Y + (2 * Passenger.GetRadius + 1) ≤ p.position.y := by
  unfold Plane.CanBoard
  by_cases h0 : self.isleOrigin.x = 0 ∧ self.isleOrigin.y = 0
  · simp [h0]
  · have hmax : Plane.START_Y + (2 * Passenger.GetRadius + 1) ≤ FLT_MAX := by
      norm_num [Plane.START_Y, Passenger.GetRadius, FLT_MAX]
    have key := lowestPassengerY_fold_ge (Plane.START_Y + (2 * Passenger.GetRadius + 1))
      self.passengers FLT_MAX
    have e : ∀ X : ℚ, (2 * Passenger.GetRadius + 1 ≤ X - Plane.START_Y) ↔
        (Plane.START_Y + (2 * Passenger.GetRadius + 1) ≤ X) := fun X => by
      constructor <;> intro h <;> linarith
    simp only [if_neg h0, decide_eq_true_eq, ge_iff_le, Plane.lowestPassengerY,
      not_false_eq_true, true_and]
    rw [e, key]
    exact ⟨fun h => ⟨h0, h.2⟩, fun h => ⟨hmax, h.2⟩⟩

/-- C2. With the aisle origin established (its `y` being `START_Y`, as `Plane::Draw` sets
it), `CanBoard` is true exactly when no passenger is aisle-resident or the minimum position
of the aisle-resident passengers is at least `2 * radius + 1` above the origin. -/
theorem CanBoard_iff_minPosition (self : Plane)
    (hy : self.isleOrigin.y = Plane.START_Y) :
    self.CanBoard = true ↔
      (self.passengers.filter Passenger.InIsle = [] ∨
        ∃ minPosition, self.aislePositions.min? = some minPosition ∧
          minPosition - self.isleOrigin.y ≥ 2 * Passenger.GetRadius + 1) := by
  have hest : ¬(self.isleOrigin.x = 0 ∧ self.isleOrigin.y = 0) := by
    rintro ⟨-, h0⟩
    rw [hy] at h0
    norm_num [Plane.START_Y] at h0
  rw [CanBoard_iff]
  have hmem : ∀ c : ℚ, (∀ b ∈ self.aislePositions, c ≤ b) ↔
      ∀ p ∈ self.passengers, p.InIsle = true → c ≤ p.position.y := by
    intro c
    simp only [Plane.aislePositions, List.mem_map, List.mem_filter]
    constructor
    · intro h p hp hin; exact h _ ⟨p, ⟨hp, hin⟩, rfl⟩
    · rintro h b ⟨p, ⟨hp, hin⟩, rfl⟩; exact h p hp hin
  constructor
  · rintro ⟨-, h⟩
    cases hm : self.aislePositions.min? with
    | none =>
      left
      rw [List.min?_eq_none_iff] at hm
      simpa [Plane.aislePositions] using hm
    | some m =>
      right
      refine ⟨m, rfl, ?_⟩
      have := (List.le_min?_iff (fun a b c => le_min_iff) hm
        (x := Plane.START_Y + (2 * Passenger.GetRadius + 1))).2 ((hmem _).2 h)
      rw [hy]
      linarith
  · rintro (hnil | ⟨m, hm, hge⟩)
    · refine ⟨hest, fun p hp hin => ?_⟩
      have : p ∈ self.passengers.filter Passenger.InIsle := List.mem_filter.2 ⟨hp, hin⟩
      rw [hnil] at this
      exact absurd this (List.not_mem_nil _)
    · refine ⟨hest, (hmem _).1 ?_⟩
      rw [hy] at hge
      exact (List.le_min?_iff (fun a b c => le_min_iff) hm).1 (by linarith)

/-- C2, witness: origin `y = 50`; with the one aisle-resident passenger at `y = 61` the gate
is open, with it at `y = 60` the gate is shut. -/
theorem CanBoard_iff_minPosition_witness :
    (Plane.gateRun (11 / 200)).aislePositions = [61] ∧
      (Plane.gateRun (11 / 200)).CanBoard = true ∧
      (Plane.gateRun (1 / 20)).aislePositions = [60] ∧
      (Plane.gateRun (1 / 20)).CanBoard = false ∧
      ((Plane.gateRun (11 / 200)).CanBoard = true ↔
        ((Plane.gateRun (11 / 200)).passengers.filter Passenger.InIsle = [] ∨
          ∃ minPosition, (Plane.gateRun (11 / 200)).aislePositions.min? = some minPosition ∧
            minPosition - (Plane.gateRun (11 / 200)).isleOrigin.y ≥
              2 * Passenger.GetRadius + 1)) :=
  ⟨by decide!, by decide!, by decide!, by decide!,
    CanBoard_iff_minPosition (Plane.gateRun (11 / 200)) (by decide!)⟩

/-- C3. When `CanBoard` is false, `Board` returns false and the plane is left as it was:
passengers, seats and origin. -/
theorem Board_rejected (self : Plane) (passenger : Nat) (h : self.CanBoard = false) :
    self.Board passenger = (some false, self) := by
  simp [Plane.Board, h]

/-- C3, witness: a passenger at height 60 shuts the gate, and `Board` changes nothing. -/
theorem Board_rejected_witness :
    (Plane.gateRun (1 / 20)).CanBoard = false ∧
      (Plane.gateRun (1 / 20)).Board 3 = (some false, Plane.gateRun (1 / 20)) :=
  ⟨by decide!, Board_rejected (Plane.gateRun (1 / 20)) 3 (by decide!)⟩

/-- C4. With the gate open, `Board` runs off its closing brace: on the plane of two rows of
two seats after its first `Draw`, the aisle being empty, `CanBoard` is true and `Board`
returns no value (not `true`). -/
theorem Board_open_gate_returns_no_value :
    Plane.run1.CanBoard = true ∧ (Plane.run1.Board 0).1 = none ∧
      (Plane.run1.Board 0).1 ≠ some true := by
  decide!

/-- C5. With the gate open, `Board` on a passenger that has not boarded puts that passenger
in the aisle (`InIsle`, state `InAisle`) at the aisle origin, and leaves every other
passenger, every seat and the origin as they were. -/
theorem Board_admits (self : Plane) (i : Nat) (hi : i < self.passengers.length)
    (hcan : self.CanBoard = true)
    (hstate : self.passengers[i].state = some PassengerState.NotBoarded) :
    ∃ p, (self.Board i).2.passengers[i]? = some p ∧
      p.InIsle = true ∧ p.state = some PassengerState.InAisle ∧
      p.position = self.isleOrigin ∧
      (∀ j, j ≠ i → (self.Board i).2.passengers[j]? = self.passengers[j]?) ∧
      (self.Board i).2.passengers.length = self.passengers.length ∧
      (self.Board i).2.seats = self.seats ∧
      (self.Board i).2.isleOrigin = self.isleOrigin := by
  have hflags : self.passengers[i].isBoarded = false ∧
      self.passengers[i].isSeated = false ∧
      self.passengers[i].isMoving = true := by
    revert hstate
    unfold Passenger.state
    cases self.passengers[i].isBoarded <;>
      cases self.passengers[i].isSeated <;>
      cases self.passengers[i].isMoving <;> simp
  obtain ⟨-, hs, hm⟩ := hflags
  refine ⟨self.passengers[i].SetBoarded.setPosition
    ⟨self.isleOrigin.x, self.isleOrigin.y⟩, ?_, ?_, ?_, ?_, ?_, ?_, ?_, ?_⟩
  · simp [Plane.Board, hcan, List.getElem?_modify, List.getElem?_eq_getElem hi]
  · simp [Passenger.InIsle, Passenger.SetBoarded, Passenger.setPosition, hs]
  · simp [Passenger.state, Passenger.SetBoarded, Passenger.setPosition, hs, hm]
  · simp [Passenger.SetBoarded, Passenger.setPosition]
  · intro j hj
    simp [Plane.Board, hcan, List.getElem?_modify, Ne.symm hj]
  · simp [Plane.Board, hcan]
  · simp [Plane.Board, hcan]
  · simp [Plane.Board, hcan]

/-- C5, witness: the first passenger of the plane after its first `Draw` boards at the
origin. -/
theorem Board_admits_witness :
    ∃ p, (Plane.run1.Board 0).2.passengers[0]? = some p ∧
      p.InIsle = true ∧ p.state = some PassengerState.InAisle ∧
      p.position = Plane.run1.isleOrigin ∧
      (∀ j, j ≠ 0 → (Plane.run1.Board 0).2.passengers[j]? = Plane.run1.passengers[j]?) ∧
      (Plane.run1.Board 0).2.passengers.length = Plane.run1.passengers.length ∧
      (Plane.run1.Board 0).2.seats = Plane.run1.seats ∧
      (Plane.run1.Board 0).2.isleOrigin = Plane.run1.isleOrigin :=
  Board_admits Plane.run1 0 (by decide!) (by decide!) (by decide!)

/-! ### Boarding order -/

theorem sectionComp_strictWeak (sectionSize : Int) :
    StrictWeakOrdering (sectionComp sectionSize) := by
  refine ⟨fun a => ?_, fun a b c hab hbc => ?_, fun a b c h1 h2 h3 h4 => ?_⟩
  · simp [sectionComp]
  · simp only [sectionComp, decide_eq_true_eq, gt_iff_lt] at *
    exact lt_trans hbc hab
  · simp only [sectionComp, decide_eq_false_iff_not, gt_iff_lt, not_lt] at *
    exact ⟨le_trans h1 h3, le_trans h4 h2⟩

theorem reversingSort_contract : StdSortContract reversingSort := by
  intro comp range hsw
  obtain ⟨hirr, htr, hinc⟩ := hsw
  have hasym : ∀ a b, comp a b = true → comp b a = false := by
    intro a b hab
    by_contra hba
    have hba' : comp b a = true := by simpa using hba
    have := htr a b a hab hba'
    rw [hirr a] at this
    exact Bool.noConfusion this
  haveI : IsTotal Passenger (fun a b => comp b a = false) :=
    ⟨fun a b => by
      cases hab : comp a b
      · exact Or.inr rfl
      · exact Or.inl (hasym a b hab)⟩
  haveI : IsTrans Passenger (fun a b => comp b a = false) :=
    ⟨fun a b c hba hcb => by
      show comp c a = false
      cases hab : comp a b
      · cases hbc : comp b c
        · exact (hinc a b c hab hba hbc hcb).2
        · by_contra hca
          have hca' : comp c a = true := by simpa using hca
          have := htr b c a hbc hca'
          rw [hba] at this
          exact Bool.noConfusion this
      · by_contra hca
        have hca' : comp c a = true := by simpa using hca
        have := htr c a b hca' hab
        rw [hcb] at this
        exact Bool.noConfusion this⟩
  constructor
  · exact (List.perm_insertionSort _ _).trans (List.reverse_perm range)
  · exact List.sorted_insertionSort (fun a b => comp b a = false) range.reverse

theorem SortBySection_ok (stdSort : (Passenger → Passenger → Bool) → List Passenger → List Passenger)
    (numRows numSections sectionSize : Int) (range : List Passenger)
    (h1 : numSections ≠ 1) (hdiv : intDiv numRows numSections = .ok sectionSize)
    (hsz : 1 ≤ sectionSize) :
    SortBySection stdSort numRows numSections range =
      .ok (stdSort (sectionComp sectionSize) range) := by
  have h0 : sectionSize ≠ 0 := by omega
  have hm : sectionSize ≠ -1 := by omega
  simp [SortBySection, h1, hdiv, h0, hm]

/-- C7. For `numSections` other than 1 and `sectionSize = numRows / numSections` at least 1,
`SortBySection` leaves the range holding the same passengers in non-increasing order of the
section index `row / sectionSize`. -/
theorem SortBySection_descending
    (stdSort : (Passenger → Passenger → Bool) → List Passenger → List Passenger)
    (hsort : StdSortContract stdSort)
    (numRows numSections sectionSize : Int) (range : List Passenger)
    (h1 : numSections ≠ 1) (hdiv : intDiv numRows numSections = .ok sectionSize)
    (hsz : 1 ≤ sectionSize) :
    ∃ out, SortBySection stdSort numRows numSections range = .ok out ∧
      out.Perm range ∧
      out.Pairwise (fun a b => a.sectionIndex sectionSize ≥ b.sectionIndex sectionSize) := by
  refine ⟨_, SortBySection_ok stdSort numRows numSections sectionSize range h1 hdiv hsz, ?_, ?_⟩
  · exact (hsort _ range (sectionComp_strictWeak sectionSize)).1
  · refine (hsort _ range (sectionComp_strictWeak sectionSize)).2.imp ?_
    intro a b h
    simpa [sectionComp, Passenger.sectionIndex] using h

/-- C7, witness: `numRows = 20`, `numSections = 8` give `sectionSize = 2`; the passengers of
rows 19, 14 and 15 come out before those of rows 5, 3 and 0. -/
theorem SortBySection_descending_witness :
    (Except.toOption (SortBySection reversingSort 20 8 sectionSampleRange)).map
        (List.map Passenger.row) = some [19, 14, 15, 5, 3, 0] ∧
      ∃ out, SortBySection reversingSort 20 8 sectionSampleRange = .ok out ∧
        out.Perm sectionSampleRange ∧
        out.Pairwise (fun a b => a.sectionIndex 2 ≥ b.sectionIndex 2) :=
  ⟨by decide!,
    SortBySection_descending reversingSort reversingSort_contract 20 8 2 sectionSampleRange
      (by decide) (by decide) (by decide)⟩

/-- C8, as stated, fails: a sorting routine within the contract of `std::sort` may swap two
passengers of one section. Rows 14 and 15 are both of section 7 for `sectionSize = 2`. -/
theorem SortBySection_stable_counterexample :
    ¬ (∀ (stdSort : (Passenger → Passenger → Bool) → List Passenger → List Passenger),
        StdSortContract stdSort →
        ∀ (numRows numSections sectionSize : Int) (range out : List Passenger) (a b : Passenger),
          intDiv numRows numSections = .ok sectionSize →
          SortBySection stdSort numRows numSections range = .ok out →
          a.sectionIndex sectionSize = b.sectionIndex sectionSize →
          Precedes a b range → Precedes a b out) := by
  intro h
  have hbad := h reversingSort reversingSort_contract 20 8 2
    [Passenger.sample 14 0, Passenger.sample 15 0]
    [Passenger.sample 15 0, Passenger.sample 14 0]
    (Passenger.sample 14 0) (Passenger.sample 15 0)
    (by decide) (by decide!) (by decide) (List.Sublist.refl _)
  revert hbad
  unfold Precedes
  decide!

/-- C8, amended. `SortBySection` keeps every section's passengers: for each section index,
the passengers of that section in the range afterwards are those before, in some order. -/
theorem SortBySection_keeps_sections
    (stdSort : (Passenger → Passenger → Bool) → List Passenger → List Passenger)
    (hsort : StdSortContract stdSort)
    (numRows numSections sectionSize : Int) (range out : List Passenger)
    (hdiv : intDiv numRows numSections = .ok sectionSize)
    (hout : SortBySection stdSort numRows numSections range = .ok out) (k : Int) :
    (out.filter (fun p => p.sectionIndex sectionSize = k)).Perm
      (range.filter (fun p => p.sectionIndex sectionSize = k)) := by
  apply List.Perm.filter
  unfold SortBySection at hout
  by_cases h1 : numSections = 1
  · simp only [h1, if_true, Except.ok.injEq] at hout
    rw [← hout]
  · simp only [h1, if_false, hdiv] at hout
    split_ifs at hout
    simp only [Except.ok.injEq] at hout
    rw [← hout]
    exact (hsort _ range (sectionComp_strictWeak sectionSize)).1

/-- C8, amended, witness: the two passengers of section 7 are both still there. -/
theorem SortBySection_keeps_sections_witness :
    ([Passenger.sample 15 0, Passenger.sample 14 0].filter
        (fun p => p.sectionIndex 2 = 7)).Perm
      ([Passenger.sample 14 0, Passenger.sample 15 0].filter
        (fun p => p.sectionIndex 2 = 7)) :=
  SortBySection_keeps_sections reversingSort reversingSort_contract 20 8 2
    [Passenger.sample 14 0, Passenger.sample 15 0]
    [Passenger.sample 15 0, Passenger.sample 14 0] (by decide) (by decide!) 7

/-- C9. With `numSections = 1`, `SortBySection` returns the range as it was. -/
theorem SortBySection_one_section
    (stdSort : (Passenger → Passenger → Bool) → List Passenger → List Passenger)
    (numRows : Int) (range : List Passenger) :
    SortBySection stdSort numRows 1 range = .ok range := by
  simp [SortBySection]

theorem SortBySection_perm
    (stdSort : (Passenger → Passenger → Bool) → List Passenger → List Passenger)
    (hsort : StdSortContract stdSort)
    (numRows numSections : Int) (range out : List Passenger)
    (hout : SortBySection stdSort numRows numSections range = .ok out) :
    out.Perm range := by
  unfold SortBySection at hout
  by_cases h1 : numSections = 1
  · simp only [h1, if_true, Except.ok.injEq] at hout
    rw [← hout]
  · simp only [h1, if_false] at hout
    cases hdiv : intDiv numRows numSections with
    | error f => simp [hdiv] at hout
    | ok sectionSize =>
      simp only [hdiv] at hout
      split_ifs at hout
      simp only [Except.ok.injEq] at hout
      rw [← hout]
      exact (hsort _ range (sectionComp_strictWeak sectionSize)).1

theorem SortBySection_ne_outOfFuel
    (stdSort : (Passenger → Passenger → Bool) → List Passenger → List Passenger)
    (numRows numSections : Int) (range : List Passenger) :
    SortBySection stdSort numRows numSections range ≠ .error .outOfFuel := by
  unfold SortBySection
  by_cases h1 : numSections = 1
  · simp [h1]
  · simp only [h1, if_false]
    cases hdiv : intDiv numRows numSections with
    | error f =>
      unfold intDiv at hdiv
      split_ifs at hdiv <;> simp at hdiv <;> simp [← hdiv]
    | ok sectionSize =>
      simp only []
      split_ifs <;> simp

theorem sortEachWindow_ne_outOfFuel
    (stdSort : (Passenger → Passenger → Bool) → List Passenger → List Passenger)
    (numRows numSections : Int) (wins : List (List Passenger)) :
    sortEachWindow stdSort numRows numSections wins ≠ .error .outOfFuel := by
  induction wins with
  | nil => simp [sortEachWindow]
  | cons win rest ih =>
    unfold sortEachWindow
    have h1 := SortBySection_ne_outOfFuel stdSort numRows numSections win
    cases hs : SortBySection stdSort numRows numSections win with
    | error f =>
      rw [hs] at h1
      simpa using h1
    | ok sorted =>
      cases hr : sortEachWindow stdSort numRows numSections rest with
      | error f =>
        rw [hr] at ih
        simpa using ih
      | ok tail => simp

theorem sortEachWindow_perm
    (stdSort : (Passenger → Passenger → Bool) → List Passenger → List Passenger)
    (hsort : StdSortContract stdSort)
    (numRows numSections : Int) (wins : List (List Passenger)) (out : List Passenger)
    (hout : sortEachWindow stdSort numRows numSections wins = .ok out) :
    ∃ ws : List (List Passenger), out = ws.flatten ∧ List.Forall₂ List.Perm ws wins := by
  induction wins generalizing out with
  | nil =>
    simp only [sortEachWindow, Except.ok.injEq] at hout
    exact ⟨[], by simp [← hout], List.Forall₂.nil⟩
  | cons win rest ih =>
    unfold sortEachWindow at hout
    cases hs : SortBySection stdSort numRows numSections win with
    | error f => simp [hs] at hout
    | ok sorted =>
      cases hr : sortEachWindow stdSort numRows numSections rest with
      | error f => simp [hs, hr] at hout
      | ok tail =>
        simp only [hs, hr, Except.ok.injEq] at hout
        obtain ⟨ws, hws, hall⟩ := ih tail hr
        refine ⟨sorted :: ws, by simp [← hout, hws], List.Forall₂.cons ?_ hall⟩
        exact SortBySection_perm stdSort hsort numRows numSections win sorted hs

theorem batchedSortBySection_step
    (stdSort : (Passenger → Passenger → Bool) → List Passenger → List Passenger)
    (numRows numSections peoplePerSection : Int) (w : Nat)
    (hW : peoplePerSection * numSections = (w : Int))
    (fuel begin : Nat) (list : List Passenger) (hb : begin ≤ list.length) :
    batchedSortBySection stdSort numRows numSections peoplePerSection (fuel + 1) begin list =
      match SortBySection stdSort numRows numSections ((list.drop begin).take w) with
      | .error f => .error f
      | .ok sorted =>
        if list.length ≤ begin + w then .ok (list.take begin ++ sorted ++ list.drop (begin + w))
        else batchedSortBySection stdSort numRows numSections peoplePerSection fuel (begin + w)
          (list.take begin ++ sorted ++ list.drop (begin + w)) := by
  conv_lhs => unfold batchedSortBySection
  simp only [hW]
  by_cases hgt : ((begin : Int) + (w : Int)) > (list.length : Int)
  · have hle : list.length ≤ begin + w := by omega
    have hnot : ¬ ((list.length : Int) < (begin : Int)) := by omega
    have htake : (list.drop begin).take (list.length - begin) = (list.drop begin).take w := by
      rw [List.take_of_length_le (by simp), List.take_of_length_le (by simp; omega)]
    have hdrop : list.drop (begin + w) = list.drop list.length := by
      rw [List.drop_of_length_le hle, List.drop_of_length_le (le_refl _)]
    simp only [if_pos hgt, if_neg hnot, Int.toNat_ofNat, htake, hdrop, if_pos hle, if_true]
  · have hle : begin + w ≤ list.length := by omega
    have hnot : ¬ ((begin : Int) + (w : Int) < (begin : Int)) := by omega
    have hnat : ((begin : Int) + (w : Int)).toNat = begin + w := by omega
    have hsub : begin + w - begin = w := by omega
    simp only [if_neg hgt, if_neg hnot, hnat, hsub]
    by_cases heq : begin + w = list.length
    · simp [heq]
    · have : ¬ list.length ≤ begin + w := by omega
      simp [heq, this]

theorem batchedSortBySection_from
    (stdSort : (Passenger → Passenger → Bool) → List Passenger → List Passenger)
    (hsort : StdSortContract stdSort)
    (numRows numSections peoplePerSection : Int) (w : Nat)
    (hW : peoplePerSection * numSections = (w : Int)) (hw : 1 ≤ w) :
    ∀ (fuel k : Nat) (done rest : List Passenger),
      rest.length + 1 ≤ fuel → rest.length ≤ k →
      batchedSortBySection stdSort numRows numSections peoplePerSection fuel done.length
          (done ++ rest) =
        match sortEachWindow stdSort numRows numSections (windowsAux w k rest) with
        | .error f => .error f
        | .ok r => .ok (done ++ r) := by
  intro fuel
  induction fuel with
  | zero => intro k done rest h; omega
  | succ fuel ih =>
    intro k done rest hfuel hk
    rw [batchedSortBySection_step stdSort numRows numSections peoplePerSection w hW fuel
      done.length (done ++ rest) (by simp)]
    have hdt : ((done ++ rest).drop done.length).take w = rest.take w := by
      rw [List.drop_left]
    have htk : (done ++ rest).take done.length = done := by
      rw [List.take_left]
    have hdr : (done ++ rest).drop (done.length + w) = rest.drop w := by
      rw [List.drop_append]
    rw [hdt, htk, hdr]
    by_cases hlast : rest.length ≤ w
    · have hdrop : rest.drop w = [] := List.drop_of_length_le hlast
      have hwin : windowsAux w k rest = [rest.take w] := by
        cases k with
        | zero => rfl
        | succ k => simp [windowsAux, hdrop]
      rw [hwin]
      unfold sortEachWindow
      cases hs : SortBySection stdSort numRows numSections (rest.take w) with
      | error f => rfl
      | ok sorted =>
        have hlen : (done ++ rest).length ≤ done.length + w := by simp; omega
        simp only [sortEachWindow]
        rw [if_pos hlen, hdrop]
        simp
    · have hlt : w < rest.length := by omega
      obtain ⟨p, tail, hpt⟩ : ∃ p tail, rest.drop w = p :: tail := by
        cases hd : rest.drop w with
        | nil =>
          have := congrArg List.length hd
          simp at this
          omega
        | cons p tail => exact ⟨p, tail, rfl⟩
      obtain ⟨k, rfl⟩ : ∃ k', k = k' + 1 := ⟨k - 1, by omega⟩
      have hwin : windowsAux w (k + 1) rest = rest.take w :: windowsAux w k (rest.drop w) := by
        simp [windowsAux, hpt]
      rw [hwin]
      unfold sortEachWindow
      cases hs : SortBySection stdSort numRows numSections (rest.take w) with
      | error f => rfl
      | ok sorted =>
        have hperm := SortBySection_perm stdSort hsort numRows numSections _ _ hs
        have hsl : sorted.length = w := by
          rw [hperm.length_eq, List.length_take]
          omega
        have hlen : ¬ (done ++ rest).length ≤ done.length + w := by simp; omega
        have hidx : done.length + w = (done ++ sorted).length := by simp [hsl]
        have hdl : (rest.drop w).length = rest.length - w := by simp
        simp only []
        rw [if_neg hlen, hidx, ih k (done ++ sorted) (rest.drop w) (by omega) (by omega)]
        cases hr : sortEachWindow stdSort numRows numSections (windowsAux w k (rest.drop w)) with
        | error f => rfl
        | ok r => simp

/-- C10. For a window size `w = peoplePerSection * numSections` of at least 1, the windowing
loop of `main` ends within `list.length + 1` iterations, and its result is that of
`SortBySection` applied to each of the consecutive windows `[0,w)`, `[w,2w)`, ... of the
list on its own, concatenated; so the result is a concatenation of lists each of which holds
the passengers of the window at its place. -/
theorem batchedSortBySection_windows
    (stdSort : (Passenger → Passenger → Bool) → List Passenger → List Passenger)
    (hsort : StdSortContract stdSort)
    (numRows numSections peoplePerSection : Int) (list : List Passenger)
    (hw : 1 ≤ peoplePerSection * numSections)
    (fuel : Nat) (hfuel : list.length + 1 ≤ fuel) :
    batchedSortBySection stdSort numRows numSections peoplePerSection fuel 0 list =
        sortEachWindow stdSort numRows numSections
          (windows (peoplePerSection * numSections).toNat list) ∧
      batchedSortBySection stdSort numRows numSections peoplePerSection fuel 0 list ≠
        .error .outOfFuel ∧
      ∀ out,
        batchedSortBySection stdSort numRows numSections peoplePerSection fuel 0 list = .ok out →
        ∃ ws : List (List Passenger), out = ws.flatten ∧
          List.Forall₂ List.Perm ws (windows (peoplePerSection * numSections).toNat list) := by
  have hW : peoplePerSection * numSections = ((peoplePerSection * numSections).toNat : Int) := by
    omega
  have hw' : 1 ≤ (peoplePerSection * numSections).toNat := by omega
  have key := batchedSortBySection_from stdSort hsort numRows numSections peoplePerSection
    (peoplePerSection * numSections).toNat hW hw' fuel list.length [] list hfuel (le_refl _)
  have heq : batchedSortBySection stdSort numRows numSections peoplePerSection fuel 0 list =
      sortEachWindow stdSort numRows numSections
        (windows (peoplePerSection * numSections).toNat list) := by
    simp only [List.length_nil, List.nil_append] at key
    rw [key]
    unfold windows
    cases sortEachWindow stdSort numRows numSections
      (windowsAux (peoplePerSection * numSections).toNat list.length list) <;> rfl
  refine ⟨heq, ?_, ?_⟩
  · rw [heq]
    exact sortEachWindow_ne_outOfFuel _ _ _ _
  · intro out hout
    rw [heq] at hout
    exact sortEachWindow_perm stdSort hsort numRows numSections _ out hout

/-- C10, witness: five passengers of rows 0 to 4, `numRows = 20`, `numSections = 2`
(`sectionSize = 10`) and `peoplePerSection = 1` give windows of two; every window is of one
section, and the routine reverses it. -/
theorem batchedSortBySection_windows_witness :
    (Except.toOption (batchedSortBySection reversingSort 20 2 1 6 0 windowSampleList)).map
        (List.map Passenger.row) = some [1, 0, 3, 2, 4] ∧
      (batchedSortBySection reversingSort 20 2 1 6 0 windowSampleList =
          sortEachWindow reversingSort 20 2 (windows ((1 : Int) * 2).toNat windowSampleList) ∧
        batchedSortBySection reversingSort 20 2 1 6 0 windowSampleList ≠ .error .outOfFuel ∧
        ∀ out, batchedSortBySection reversingSort 20 2 1 6 0 windowSampleList = .ok out →
          ∃ ws : List (List Passenger), out = ws.flatten ∧
            List.Forall₂ List.Perm ws (windows ((1 : Int) * 2).toNat windowSampleList)) :=
  ⟨by decide!,
    batchedSortBySection_windows reversingSort reversingSort_contract 20 2 1 windowSampleList
      (by decide) 6 (by decide)⟩

/-! ### The seat grid under `Draw` and `SetOccupied` -/

theorem drawRowSeats_fst (row size : Nat) (seatY : ℚ) (l : List Seat) :
    ∀ (seatNo : Nat) (seatX : ℚ) (o : Vector2f),
      (Plane.drawRowSeats row size seatY seatNo l seatX o).1.length = l.length ∧
        ∀ s ∈ (Plane.drawRowSeats row size seatY seatNo l seatX o).1, s.position.y = seatY := by
  induction l with
  | nil => intro seatNo seatX o; simp [Plane.drawRowSeats]
  | cons a rest ih =>
    intro seatNo seatX o
    unfold Plane.drawRowSeats
    simp only []
    split_ifs
    all_goals
      refine ⟨by simp [(ih _ _ _).1], ?_⟩
      intro s hs
      rcases List.mem_cons.1 hs with h | h
      · rw [h]; rfl
      · exact (ih _ _ _).2 s h

theorem drawRowSeats_origin (row size : Nat) (seatY : ℚ) (l : List Seat) :
    ∀ (seatNo : Nat) (seatX : ℚ) (o : Vector2f),
      (Plane.drawRowSeats row size seatY seatNo l seatX o).2 = o ∨
        (row = 0 ∧ (Plane.drawRowSeats row size seatY seatNo l seatX o).2.y = seatY) := by
  induction l with
  | nil => intro seatNo seatX o; simp [Plane.drawRowSeats]
  | cons a rest ih =>
    intro seatNo seatX o
    unfold Plane.drawRowSeats
    simp only []
    split_ifs with h1 h2
    · rcases ih (seatNo + 1) (seatX + Seat.GetSeatWidth + Plane.GetIsleWidth)
        ⟨seatX + Seat.GetSeatWidth, seatY⟩ with h | h
      · right; exact ⟨h2.1, by rw [h]⟩
      · right; exact h
    · exact ih _ _ _
    · exact ih _ _ _

theorem drawSeats_origin (seats : SeatGrid) :
    ∀ (row : Nat) (seatY : ℚ) (o : Vector2f),
      (Plane.drawSeats row seats seatY o).2 = o ∨
        (row = 0 ∧ (Plane.drawSeats row seats seatY o).2.y = seatY) := by
  induction seats with
  | nil => intro row seatY o; simp [Plane.drawSeats]
  | cons a rest ih =>
    intro row seatY o
    unfold Plane.drawSeats
    simp only []
    rcases ih (row + 1) (seatY + (Plane.ROW_SPACING + Seat.GetSeatHeight))
      (Plane.drawRowSeats row a.length seatY 0 a 300 o).2 with h | h
    · rw [h]
      exact drawRowSeats_origin row a.length seatY a 0 300 o
    · exact absurd h.1 (Nat.succ_ne_zero row)

theorem drawSeats_getElem? (seats : SeatGrid) :
    ∀ (row : Nat) (seatY : ℚ) (o : Vector2f) (r : Nat),
      (∀ rs, seats[r]? = some rs →
        ∃ rs', (Plane.drawSeats row seats seatY o).1[r]? = some rs' ∧ rs'.length = rs.length ∧
          ∀ s ∈ rs', s.position.y =
            seatY + (r : ℚ) * (Plane.ROW_SPACING + Seat.GetSeatHeight)) ∧
      (seats[r]? = none → (Plane.drawSeats row seats seatY o).1[r]? = none) := by
  induction seats with
  | nil => intro row seatY o r; simp [Plane.drawSeats]
  | cons a rest ih =>
    intro row seatY o r
    unfold Plane.drawSeats
    cases r with
    | zero =>
      simp only [List.getElem?_cons_zero, Option.some.injEq, forall_eq', reduceCtorEq, false_implies,
        and_true]
      refine ⟨_, rfl, (drawRowSeats_fst row a.length seatY a 0 300 o).1, ?_⟩
      intro s hs
      rw [(drawRowSeats_fst row a.length seatY a 0 300 o).2 s hs]
      simp
    | succ r =>
      simp only [List.getElem?_cons_succ]
      obtain ⟨h1, h2⟩ := ih (row + 1) (seatY + (Plane.ROW_SPACING + Seat.GetSeatHeight))
        (Plane.drawRowSeats row a.length seatY 0 a 300 o).2 r
      refine ⟨fun rs hrs => ?_, h2⟩
      obtain ⟨rs', e1, e2, e3⟩ := h1 rs hrs
      refine ⟨rs', e1, e2, fun s hs => ?_⟩
      rw [e3 s hs]
      push_cast
      ring

theorem SeatGrid.deref_mem (seats : SeatGrid) (cell : Nat × Nat) (rs : List Seat)
    (h : seats[cell.1]? = some rs) (hc : cell.2 < rs.length) : seats.deref cell ∈ rs := by
  unfold SeatGrid.deref
  simp only [List.getD_eq_getElem?_getD, h, Option.getD_some, List.getElem?_eq_getElem hc]
  exact List.getElem_mem _

theorem drawSeats_inGrid (seats : SeatGrid) (o : Vector2f) (cell : Nat × Nat) :
    (Plane.drawSeats 0 seats Plane.START_Y o).1.InGrid cell ↔ seats.InGrid cell := by
  obtain ⟨h1, h2⟩ := drawSeats_getElem? seats 0 Plane.START_Y o cell.1
  constructor
  · rintro ⟨rs', hrs', hc⟩
    cases hs : seats[cell.1]? with
    | none => rw [h2 hs] at hrs'; exact absurd hrs' (by simp)
    | some rs =>
      obtain ⟨rs'', e1, e2, -⟩ := h1 rs hs
      obtain rfl : rs'' = rs' := by rw [e1] at hrs'; exact Option.some.inj hrs'
      exact ⟨rs, hs, by omega⟩
  · rintro ⟨rs, hrs, hc⟩
    obtain ⟨rs', e1, e2, -⟩ := h1 rs hrs
    exact ⟨rs', e1, by omega⟩

theorem drawSeats_drawn (seats : SeatGrid) (o : Vector2f) :
    (Plane.drawSeats 0 seats Plane.START_Y o).1.Drawn := by
  rintro cell ⟨rs', hrs', hc⟩
  obtain ⟨h1, h2⟩ := drawSeats_getElem? seats 0 Plane.START_Y o cell.1
  cases hs : seats[cell.1]? with
  | none => rw [h2 hs] at hrs'; exact absurd hrs' (by simp)
  | some rs =>
    obtain ⟨rs'', e1, -, e3⟩ := h1 rs hs
    obtain rfl : rs'' = rs' := by rw [e1] at hrs'; exact Option.some.inj hrs'
    exact e3 _ (SeatGrid.deref_mem _ cell rs'' e1 hc)

theorem SetOccupied_getElem? (seats : SeatGrid) (cell : Nat × Nat) (r : Nat) :
    (seats.SetOccupied cell)[r]? =
      (seats[r]?).map (fun rs => if cell.1 = r then rs.modify Seat.SetOccupied cell.2 else rs) := by
  unfold SeatGrid.SetOccupied
  rw [List.getElem?_modify]
  rfl

theorem SetOccupied_inGrid (seats : SeatGrid) (cell c : Nat × Nat) :
    (seats.SetOccupied cell).InGrid c ↔ seats.InGrid c := by
  unfold SeatGrid.InGrid
  rw [SetOccupied_getElem?]
  cases seats[c.1]? with
  | none => simp
  | some rs =>
    by_cases h : cell.1 = c.1 <;> simp [h]

theorem SetOccupied_deref_position (seats : SeatGrid) (cell c : Nat × Nat) :
    ((seats.SetOccupied cell).deref c).position = (seats.deref c).position := by
  unfold SeatGrid.deref
  rw [List.getD_eq_getElem?_getD, List.getD_eq_getElem?_getD, List.getD_eq_getElem?_getD,
    List.getD_eq_getElem?_getD, SetOccupied_getElem?]
  cases seats[c.1]? with
  | none => simp
  | some rs =>
    by_cases h : cell.1 = c.1
    · simp only [Option.map_some', if_pos h, Option.getD_some, List.getElem?_modify]
      cases rs[c.2]? with
      | none => simp
      | some s =>
        by_cases h2 : cell.2 = c.2 <;> simp [h2, Seat.SetOccupied]
    · simp [h]

theorem SetOccupied_drawn (seats : SeatGrid) (cell : Nat × Nat) (h : seats.Drawn) :
    (seats.SetOccupied cell).Drawn := by
  intro c hc
  rw [SetOccupied_deref_position]
  exact h c ((SetOccupied_inGrid seats cell c).1 hc)

/-! ### One passenger's `Draw` keeps the invariant -/

theorem capYToMove_spec (self : Passenger) (idx : Nat) (l : List Passenger) :
    ∀ (j0 : Nat) (y : ℚ),
      self.capYToMove idx j0 l y ≤ y ∧
      (∀ (k : Nat) (hk : k < l.length), j0 + k ≠ idx → l[k].InIsle = true →
        self.position.y ≤ l[k].position.y →
        self.capYToMove idx j0 l y ≤ l[k].position.y - self.position.y - self.radius * 2 - 1) ∧
      (∀ m : ℚ, m ≤ y →
        (∀ (k : Nat) (hk : k < l.length), j0 + k ≠ idx → l[k].InIsle = true →
          self.position.y ≤ l[k].position.y →
          m ≤ l[k].position.y - self.position.y - self.radius * 2 - 1) →
        m ≤ self.capYToMove idx j0 l y) := by
  induction l with
  | nil =>
    intro j0 y
    refine ⟨by simp [Passenger.capYToMove], ?_, ?_⟩
    · intro k hk; simp at hk
    · intro m hm _; simpa [Passenger.capYToMove] using hm
  | cons p rest ih =>
    intro j0 y
    have step : ∀ y' : ℚ, y' ≤ y →
        (j0 ≠ idx → p.InIsle = true → self.position.y ≤ p.position.y →
          y' ≤ p.position.y - self.position.y - self.radius * 2 - 1) →
        (∀ m : ℚ, m ≤ y →
          (j0 ≠ idx → p.InIsle = true → self.position.y ≤ p.position.y →
            m ≤ p.position.y - self.position.y - self.radius * 2 - 1) → m ≤ y') →
        self.capYToMove idx (j0 + 1) rest y' ≤ y ∧
        (∀ (k : Nat) (hk : k < (p :: rest).length), j0 + k ≠ idx → (p :: rest)[k].InIsle = true →
          self.position.y ≤ (p :: rest)[k].position.y →
          self.capYToMove idx (j0 + 1) rest y' ≤
            (p :: rest)[k].position.y - self.position.y - self.radius * 2 - 1) ∧
        (∀ m : ℚ, m ≤ y →
          (∀ (k : Nat) (hk : k < (p :: rest).length), j0 + k ≠ idx →
            (p :: rest)[k].InIsle = true →
            self.position.y ≤ (p :: rest)[k].position.y →
            m ≤ (p :: rest)[k].position.y - self.position.y - self.radius * 2 - 1) →
          m ≤ self.capYToMove idx (j0 + 1) rest y') := by
      intro y' hy' hhead hlow
      obtain ⟨i1, i2, i3⟩ := ih (j0 + 1) y'
      refine ⟨le_trans i1 hy', ?_, ?_⟩
      · intro k hk hne hin hle
        cases k with
        | zero =>
          simp only [List.getElem_cons_zero] at hin hle ⊢
          exact le_trans i1 (hhead (by simpa using hne) hin hle)
        | succ k =>
          simp only [List.getElem_cons_succ] at hin hle ⊢
          exact i2 k (by simpa using hk) (by omega) hin hle
      · intro m hm hall
        apply i3 m
        · apply hlow m hm
          intro h1 h2 h3
          exact hall 0 (by simp) (by simpa using h1) (by simpa using h2) (by simpa using h3)
        · intro k hk hne hin hle
          have := hall (k + 1) (by simpa using hk) (by omega)
            (by simpa using hin) (by simpa using hle)
          simpa using this
    unfold Passenger.capYToMove
    by_cases h1 : j0 = idx
    · rw [if_pos h1]
      exact step y (le_refl _) (fun h => absurd h1 h) (fun m hm _ => hm)
    · rw [if_neg h1]
      by_cases h2 : p.InIsle = true
      · have h2' : ¬ ((!p.InIsle) = true) := by simp [h2]
        rw [if_neg h2']
        simp only []
        by_cases h3 : p.position.y - self.position.y < 0
        · rw [if_pos h3]
          exact step y (le_refl _) (fun _ _ h => by linarith) (fun m hm _ => hm)
        · rw [if_neg h3]
          by_cases h4 : p.position.y - self.position.y - self.radius * 2 - 1 < y
          · rw [if_pos h4]
            exact step _ (le_of_lt h4) (fun _ _ _ => le_refl _)
              (fun m _ hh => hh h1 h2 (by linarith))
          · rw [if_neg h4]
            exact step y (le_refl _) (fun _ _ _ => by linarith) (fun m hm _ => hm)
      · have h2' : (!p.InIsle) = true := by simpa using h2
        rw [if_pos h2']
        exact step y (le_refl _) (fun _ h => absurd h h2) (fun m hm _ => hm)

theorem Gap.set (ps : List Passenger) (i : Nat) (hi : i < ps.length) (q : Passenger)
    (hgap : Gap ps)
    (hq : q.InIsle = true →
      ps[i].InIsle = true ∧ ps[i].position.y ≤ q.position.y ∧
      ∀ (j : Nat) (hj : j < ps.length), j ≠ i → ps[j].InIsle = true →
        ps[i].position.y ≤ ps[j].position.y →
        q.position.y + (2 * Passenger.GetRadius + 1) ≤ ps[j].position.y) :
    Gap (ps.set i q) := by
  intro a b ha hb hab hina hinb hle
  have ha' : a < ps.length := by simpa using ha
  have hb' : b < ps.length := by simpa using hb
  rw [List.getElem_set] at hina hinb hle ⊢
  rw [List.getElem_set] at hle ⊢
  by_cases hai : i = a
  · subst hai
    have hbi : ¬ i = b := hab
    simp only [↓reduceIte, hbi] at hina hinb hle ⊢
    obtain ⟨h1, h2, h3⟩ := hq hina
    by_cases hcmp : ps[i].position.y ≤ ps[b].position.y
    · exact h3 b hb' (Ne.symm hab) hinb hcmp
    · have := hgap b i hb' hi (Ne.symm hab) hinb h1 (le_of_lt (not_le.1 hcmp))
      have hr : (0 : ℚ) ≤ 2 * Passenger.GetRadius + 1 := by norm_num [Passenger.GetRadius]
      linarith
  · by_cases hbi : i = b
    · subst hbi
      simp only [↓reduceIte, hai] at hina hinb hle ⊢
      obtain ⟨h1, h2, h3⟩ := hq hinb
      by_cases hcmp : ps[a].position.y ≤ ps[i].position.y
      · have := hgap a i ha' hi hab hina h1 hcmp
        linarith
      · have := h3 a ha' hab hina (le_of_lt (not_le.1 hcmp))
        have hr : (0 : ℚ) ≤ 2 * Passenger.GetRadius + 1 := by norm_num [Passenger.GetRadius]
        linarith
    · simp only [hai, hbi, ↓reduceIte] at hina hinb hle ⊢
      exact hgap a b ha' hb' hab hina hinb hle

theorem PassengerInv.weaken {y T T' : ℚ} {seats seats' : SeatGrid} {q : Passenger}
    (h : PassengerInv y T seats q) (hT : T ≤ T')
    (hg : seats.InGrid q.myseat → seats'.InGrid q.myseat) : PassengerInv y T' seats' q :=
  { vel := h.vel, rad := h.rad, grid := hg h.grid, fresh := h.fresh, pos := h.pos,
    seat := h.seat, time := fun hm => le_trans (h.time hm) hT }

theorem Passenger.Draw_facts (ps : List Passenger) (i : Nat) (hi : i < ps.length)
    (o : Vector2f) (T now : ℚ) (seats : SeatGrid)
    (hinv : PassengerInv o.y T seats ps[i])
    (hest : ps[i].InIsle = true → o.y = Plane.START_Y ∧ seats.Drawn)
    (hgap : Gap ps) (hT : T ≤ now) :
    PassengerInv o.y now (ps[i].Draw now o seats i ps).2 (ps[i].Draw now o seats i ps).1 ∧
    (ps[i].Draw now o seats i ps).1.isBoarded = ps[i].isBoarded ∧
    ((ps[i].Draw now o seats i ps).1.InIsle = true →
      ps[i].InIsle = true ∧
      ps[i].position.y ≤ (ps[i].Draw now o seats i ps).1.position.y ∧
      ∀ (j : Nat) (hj : j < ps.length), j ≠ i → ps[j].InIsle = true →
        ps[i].position.y ≤ ps[j].position.y →
        (ps[i].Draw now o seats i ps).1.position.y + (2 * Passenger.GetRadius + 1) ≤
          ps[j].position.y) ∧
    ((ps[i].Draw now o seats i ps).2 = seats ∨
      (ps[i].Draw now o seats i ps).2 = seats.SetOccupied ps[i].myseat) := by
  have hstay : ps[i].InIsle = true →
      ∀ (j : Nat) (hj : j < ps.length), j ≠ i → ps[j].InIsle = true →
        ps[i].position.y ≤ ps[j].position.y →
        ps[i].position.y + (2 * Passenger.GetRadius + 1) ≤ ps[j].position.y :=
    fun hin j hj hne hjin hle => hgap i j hi hj (Ne.symm hne) hin hjin hle
  have hcap := capYToMove_spec ps[i] i ps 0 ((now - ps[i].lastMove) * ps[i].yVelocity)
  simp only [Nat.zero_add] at hcap
  generalize hself : ps[i] = self at *
  have hR : Passenger.GetRadius = 5 := rfl
  unfold Passenger.Draw
  dsimp only
  split_ifs with h1 h2 h3 h4 h5
  · -- not in the aisle: nothing happens
    have hin : self.InIsle = false := by simpa using h1
    refine ⟨hinv.weaken hT id, rfl, ?_, Or.inl rfl⟩
    intro h
    rw [hin] at h
    exact absurd h (by simp)
  · -- moving, has moved before, reaches its row
    have hin : self.InIsle = true := by simpa using h1
    obtain ⟨hoy, hdrawn⟩ := hest hin
    have hS := hdrawn _ hinv.grid
    have hpos := hinv.pos hin h2
    have hseat := hinv.seat hin h2
    have hb : self.isBoarded = true := by
      unfold Passenger.InIsle at hin; simp at hin; exact hin.1
    obtain ⟨-, hcj, -⟩ := hcap
    refine ⟨⟨hinv.vel, hinv.rad, hinv.grid, ?_, ?_, ?_, ?_⟩, rfl, ?_, Or.inl rfl⟩
    · intro h; simp only [hb] at h; exact absurd h (by simp)
    · intro _ h; exact absurd h (by simp)
    · intro _ h; exact absurd h (by simp)
    · intro _; exact le_refl _
    · intro _
      refine ⟨hin, ?_, ?_⟩
      · show self.position.y ≤ o.y + ((seats.deref self.myseat).position.y - o.y)
        linarith
      · intro j hj hne hjin hle
        show o.y + ((seats.deref self.myseat).position.y - o.y) + _ ≤ _
        have := hcj j hj (Ne.symm hne |> fun h => by omega) hjin hle
        have hrad := hinv.rad
        rw [hrad] at this
        rw [hR] at this ⊢
        linarith
  · -- moving, has moved before, stays short of its row
    have hin : self.InIsle = true := by simpa using h1
    obtain ⟨hoy, hdrawn⟩ := hest hin
    have hS := hdrawn _ hinv.grid
    have hpos := hinv.pos hin h2
    have hseat := hinv.seat hin h2
    have hb : self.isBoarded = true := by
      unfold Passenger.InIsle at hin; simp at hin; exact hin.1
    obtain ⟨-, hcj, hlow⟩ := hcap
    have hrad := hinv.rad
    have hc0 : 0 ≤ self.capYToMove i 0 ps ((now - self.lastMove) * self.yVelocity) := by
      apply hlow 0
      · exact mul_nonneg (by linarith [hinv.time h3]) hinv.vel
      · intro j hj hne hjin hle
        have := hstay hin j hj (by omega) hjin hle
        rw [hrad, hR]
        rw [hR] at this
        linarith
    refine ⟨⟨hinv.vel, hinv.rad, hinv.grid, ?_, ?_, ?_, ?_⟩, rfl, ?_, Or.inl rfl⟩
    · intro h; simp only [hb] at h; exact absurd h (by simp)
    · intro _ _; rfl
    · intro _ _
      show o.y + (self.isleY + _) ≤ _
      rw [← hS]
      exact not_lt.1 h4
    · intro _; exact le_refl _
    · intro _
      refine ⟨hin, ?_, ?_⟩
      · show self.position.y ≤ o.y + (self.isleY + _)
        linarith
      · intro j hj hne hjin hle
        show o.y + (self.isleY + _) + _ ≤ _
        have := hcj j hj (by omega) hjin hle
        rw [hrad] at this
        rw [hR] at this ⊢
        linarith
  · -- moving, first call after boarding
    have hin : self.InIsle = true := by simpa using h1
    have hpos := hinv.pos hin h2
    have hb : self.isBoarded = true := by
      unfold Passenger.InIsle at hin; simp at hin; exact hin.1
    refine ⟨⟨hinv.vel, hinv.rad, hinv.grid, ?_, ?_, ?_, ?_⟩, rfl, ?_, Or.inl rfl⟩
    · intro h; simp only [hb] at h; exact absurd h (by simp)
    · intro _ _; rfl
    · intro _ _; exact hinv.seat hin h2
    · intro _; exact le_refl _
    · intro _
      refine ⟨hin, ?_, ?_⟩
      · show self.position.y ≤ o.y + self.isleY
        linarith
      · intro j hj hne hjin hle
        show o.y + self.isleY + _ ≤ _
        have := hstay hin j hj hne hjin hle
        linarith
  · -- waiting, the wait is over
    have hin : self.InIsle = true := by simpa using h1
    refine ⟨⟨hinv.vel, hinv.rad, (SetOccupied_inGrid _ _ _).2 hinv.grid, hinv.fresh, ?_, ?_,
      fun hm => le_trans (hinv.time hm) hT⟩, rfl, ?_, Or.inr rfl⟩
    · intro h; simp [Passenger.InIsle] at h
    · intro h; simp [Passenger.InIsle] at h
    · intro h; simp [Passenger.InIsle] at h
  · -- waiting on
    have hin : self.InIsle = true := by simpa using h1
    refine ⟨hinv.weaken hT id, rfl, ?_, Or.inl rfl⟩
    intro _
    exact ⟨hin, le_refl _, fun j hj hne hjin hle => hstay hin j hj hne hjin hle⟩

/-! ### `Plane::Draw` and `Plane::Board` keep the invariant -/

theorem PassengerInv.change_origin {y y' T : ℚ} {seats : SeatGrid} {q : Passenger}
    (h : PassengerInv y T seats q) (hy : q.InIsle = true → y' = y) :
    PassengerInv y' T seats q :=
  { vel := h.vel, rad := h.rad, grid := h.grid, fresh := h.fresh,
    pos := fun hin hm => by rw [hy hin]; exact h.pos hin hm,
    seat := fun hin hm => by rw [hy hin]; exact h.seat hin hm,
    time := h.time }

theorem SimInv.later {o : Vector2f} {T T' : ℚ} {st : List Passenger × SeatGrid}
    (h : SimInv o T st) (hT : T ≤ T') : SimInv o T' st :=
  { origin := h.origin, each := fun q hq => (h.each q hq).weaken hT id, gap := h.gap }

theorem not_InIsle_of_not_boarded {q : Passenger} (h : q.isBoarded = false) :
    q.InIsle = false := by
  simp [Passenger.InIsle, h]

theorem drawPassenger_inv (clock : Nat → ℚ) (o : Vector2f) (T : ℚ)
    (st : List Passenger × SeatGrid) (i : Nat) (h : SimInv o T st) (hT : T ≤ clock i) :
    SimInv o (clock i) (Plane.drawPassenger clock o st i) := by
  unfold Plane.drawPassenger
  cases hget : st.1[i]? with
  | none => exact h.later hT
  | some self =>
    obtain ⟨hi, hself⟩ := List.getElem?_eq_some.1 hget
    subst hself
    have hest : st.1[i].InIsle = true → o.y = Plane.START_Y ∧ st.2.Drawn := by
      intro hin
      rcases h.origin with ⟨-, hall⟩ | hd
      · rw [not_InIsle_of_not_boarded (hall _ (List.getElem_mem hi))] at hin
        exact absurd hin (by simp)
      · exact hd
    obtain ⟨f1, f2, f3, f4⟩ := Passenger.Draw_facts st.1 i hi o T (clock i) st.2
      (h.each _ (List.getElem_mem hi)) hest h.gap hT
    have hgrid : ∀ c, st.2.InGrid c →
        (st.1[i].Draw (clock i) o st.2 i st.1).2.InGrid c := by
      intro c hc
      rcases f4 with e | e
      · rw [e]; exact hc
      · rw [e]; exact (SetOccupied_inGrid _ _ _).2 hc
    refine ⟨?_, ?_, ?_⟩
    · rcases h.origin with ⟨ho, hall⟩ | ⟨hy, hd⟩
      · refine Or.inl ⟨ho, fun q hq => ?_⟩
        rcases List.mem_or_eq_of_mem_set hq with hq | hq
        · exact hall q hq
        · rw [hq, f2]; exact hall _ (List.getElem_mem hi)
      · refine Or.inr ⟨hy, ?_⟩
        rcases f4 with e | e
        · show SeatGrid.Drawn (st.1[i].Draw (clock i) o st.2 i st.1).2
          rw [e]; exact hd
        · show SeatGrid.Drawn (st.1[i].Draw (clock i) o st.2 i st.1).2
          rw [e]; exact SetOccupied_drawn _ _ hd
    · intro q hq
      rcases List.mem_or_eq_of_mem_set hq with hq | hq
      · exact (h.each q hq).weaken hT (hgrid _)
      · rw [hq]; exact f1
    · exact Gap.set st.1 i hi _ h.gap f3

theorem drawPassengers_inv (clock : Nat → ℚ) (hmono : Monotone clock) (o : Vector2f)
    (st : List Passenger × SeatGrid) (T : ℚ) (h : SimInv o T st) (hT : T ≤ clock 0) (n : Nat) :
    SimInv o (clock n) ((List.range n).foldl (Plane.drawPassenger clock o) st) := by
  induction n with
  | zero => exact h.later hT
  | succ n ih =>
    rw [List.range_succ, List.foldl_append, List.foldl_cons, List.foldl_nil]
    exact (drawPassenger_inv clock o (clock n) _ n ih (le_refl _)).later (hmono (Nat.le_succ n))

theorem Plane.Draw_inv (p : Plane) (t : ℚ) (clock : Nat → ℚ)
    (h : SimInv p.isleOrigin t (p.passengers, p.seats)) (ht : t ≤ clock 0)
    (hmono : Monotone clock) :
    SimInv (p.Draw clock).isleOrigin (clock p.passengers.length)
      ((p.Draw clock).passengers, (p.Draw clock).seats) := by
  have hseats : SimInv (Plane.drawSeats 0 p.seats Plane.START_Y p.isleOrigin).2 t
      (p.passengers, (Plane.drawSeats 0 p.seats Plane.START_Y p.isleOrigin).1) := by
    have hd := drawSeats_drawn p.seats p.isleOrigin
    have ho := drawSeats_origin p.seats 0 Plane.START_Y p.isleOrigin
    refine ⟨?_, ?_, h.gap⟩
    · rcases ho with heq | ⟨-, hy⟩
      · rcases h.origin with ⟨h0, hall⟩ | ⟨hy, -⟩
        · exact Or.inl ⟨heq.trans h0, hall⟩
        · exact Or.inr ⟨by rw [heq]; exact hy, hd⟩
      · exact Or.inr ⟨hy, hd⟩
    · intro q hq
      refine ((h.each q hq).weaken (le_refl t)
        (fun hg => (drawSeats_inGrid p.seats p.isleOrigin _).2 hg)).change_origin ?_
      intro hin
      rcases ho with heq | ⟨-, hy⟩
      · rw [heq]
      · rcases h.origin with ⟨-, hall⟩ | ⟨hy', -⟩
        · rw [not_InIsle_of_not_boarded (hall q hq)] at hin
          exact absurd hin (by simp)
        · rw [hy, hy']
  exact drawPassengers_inv clock hmono _ _ t hseats ht p.passengers.length

theorem Gap.set_new (ps : List Passenger) (i : Nat) (q : Passenger)
    (hgap : Gap ps)
    (hall : ∀ p ∈ ps, p.InIsle = true →
      q.position.y + (2 * Passenger.GetRadius + 1) ≤ p.position.y) :
    Gap (ps.set i q) := by
  intro a b ha hb hab hina hinb hle
  have ha' : a < ps.length := by simpa using ha
  have hb' : b < ps.length := by simpa using hb
  have hr : (0 : ℚ) < 2 * Passenger.GetRadius + 1 := by norm_num [Passenger.GetRadius]
  rw [List.getElem_set] at hina hinb hle ⊢
  rw [List.getElem_set] at hle ⊢
  by_cases hai : i = a
  · subst hai
    have hbi : ¬ i = b := hab
    simp only [↓reduceIte, hbi] at hina hinb hle ⊢
    exact hall _ (List.getElem_mem hb') hinb
  · by_cases hbi : i = b
    · subst hbi
      simp only [↓reduceIte, hai] at hina hinb hle ⊢
      have := hall _ (List.getElem_mem ha') hina
      linarith
    · simp only [hai, hbi, ↓reduceIte] at hina hinb hle ⊢
      exact hgap a b ha' hb' hab hina hinb hle

theorem Plane.Board_inv (p : Plane) (t : ℚ) (i : Nat) (hi : i < p.passengers.length)
    (h : SimInv p.isleOrigin t (p.passengers, p.seats))
    (hnb : p.passengers[i].isBoarded = false) :
    SimInv (p.Board i).2.isleOrigin t ((p.Board i).2.passengers, (p.Board i).2.seats) := by
  unfold Plane.Board
  by_cases hcan : p.CanBoard = true
  · have hcan' : ¬ ((!p.CanBoard) = true) := by simp [hcan]
    rw [if_neg hcan']
    obtain ⟨h0, hfar⟩ := (CanBoard_iff p).1 hcan
    have hest : p.isleOrigin.y = Plane.START_Y ∧ p.seats.Drawn := by
      rcases h.origin with ⟨ho, -⟩ | hd
      · exact absurd (by rw [ho]; exact ⟨rfl, rfl⟩) h0
      · exact hd
    have hq := h.each _ (List.getElem_mem hi)
    show SimInv p.isleOrigin t (p.passengers.modify _ i, p.seats)
    rw [List.modify_eq_set_get _ hi]
    refine ⟨Or.inr hest, ?_, ?_⟩
    · intro q hq'
      rcases List.mem_or_eq_of_mem_set hq' with hq' | hq'
      · exact h.each q hq'
      · rw [hq']
        refine ⟨hq.vel, hq.rad, hq.grid, ?_, ?_, ?_, hq.time⟩
        · intro hb; simp [Passenger.SetBoarded, Passenger.setPosition] at hb
        · intro _ _
          show p.isleOrigin.y = p.isleOrigin.y + (p.passengers[i]).isleY
          rw [hq.fresh hnb, add_zero]
        · intro _ _
          show p.isleOrigin.y + (p.passengers[i]).isleY ≤
            Plane.START_Y + ((p.passengers[i]).myseat.1 : ℚ) *
              (Plane.ROW_SPACING + Seat.GetSeatHeight)
          rw [hq.fresh hnb, add_zero, hest.1]
          have : (0 : ℚ) ≤ ((p.passengers[i]).myseat.1 : ℚ) *
              (Plane.ROW_SPACING + Seat.GetSeatHeight) :=
            mul_nonneg (Nat.cast_nonneg _) (by norm_num [Plane.ROW_SPACING, Seat.GetSeatHeight])
          linarith
    · refine Gap.set_new p.passengers i _ h.gap ?_
      intro q hq' hin
      show p.isleOrigin.y + _ ≤ _
      rw [hest.1]
      exact hfar q hq' hin
  · have hcan' : (!p.CanBoard) = true := by simpa using hcan
    rw [if_pos hcan']
    exact h

theorem Plane.new_inv (params : ModelParameters) (noRows noSeats : Int) (p : Plane)
    (order : List Passenger) (t : ℚ) (hnew : Plane.new params noRows noSeats = some p)
    (hperm : order.Perm p.passengers) :
    SimInv p.isleOrigin t (order, p.seats) := by
  unfold Plane.new at hnew
  split_ifs at hnew
  simp only [Option.some.injEq] at hnew
  subst hnew
  have hmem : ∀ q ∈ order, ∃ (r c : Nat), r < noRows.toNat ∧ c < noSeats.toNat ∧
      q = Passenger.new (r : Int) (c : Int)
        (params.GetPassengerSpeed (r * noSeats.toNat + c))
        (params.GetWaitDuration (r * noSeats.toNat + c)) (r, c) := by
    intro q hq
    have := hperm.mem_iff.1 hq
    simp only [List.mem_flatMap, List.mem_range, List.mem_map] at this
    obtain ⟨r, hr, c, hc, rfl⟩ := this
    exact ⟨r, c, hr, hc, rfl⟩
  have hnb : ∀ q ∈ order, q.isBoarded = false := by
    intro q hq
    obtain ⟨r, c, -, -, rfl⟩ := hmem q hq
    rfl
  refine ⟨Or.inl ⟨rfl, hnb⟩, ?_, ?_⟩
  · intro q hq
    obtain ⟨r, c, hr, hc, rfl⟩ := hmem q hq
    refine ⟨?_, rfl, ?_, fun _ => rfl, ?_, ?_, ?_⟩
    · show 0 ≤ max 5 _ * ModelParameters.GetScaleFactor
      have : (5 : ℚ) ≤ max 5 (params.passengerSpeedDistribution (r * noSeats.toNat + c)) :=
        le_max_left _ _
      unfold ModelParameters.GetScaleFactor
      linarith
    · refine ⟨List.replicate noSeats.toNat Seat.new, ?_, by simpa using hc⟩
      simp only [List.getElem?_replicate, Passenger.new]
      rw [if_pos hr]
    · intro hin; simp [Passenger.InIsle, Passenger.new] at hin
    · intro hin; simp [Passenger.InIsle, Passenger.new] at hin
    · intro hm; simp [Passenger.new] at hm
  · intro a b ha hb _ hina
    rw [not_InIsle_of_not_boarded (hnb _ (List.getElem_mem ha))] at hina
    exact absurd hina (by simp)

theorem Reachable.inv {p : Plane} {t : ℚ} {established : Bool}
    (h : Reachable p t established) :
    SimInv p.isleOrigin t (p.passengers, p.seats) ∧
      (established = false → p.isleOrigin = ⟨0, 0⟩) ∧
      (established = true → p.isleOrigin.y = Plane.START_Y) := by
  induction h with
  | init params noRows noSeats p order t hnew hperm =>
    refine ⟨Plane.new_inv params noRows noSeats p order t hnew hperm, fun _ => ?_, fun h => ?_⟩
    · unfold Plane.new at hnew
      split_ifs at hnew
      simp only [Option.some.injEq] at hnew
      subst hnew
      rfl
    · exact absurd h (by simp)
  | draw p t established clock _ ht hmono ih =>
    refine ⟨Plane.Draw_inv p t clock ih.1 ht hmono, ?_, ?_⟩
    · intro he
      simp only [Bool.or_eq_false_iff, decide_eq_false_iff_not, ne_eq, not_not] at he
      rw [he.2]
      exact ih.2.1 he.1
    · intro _
      rcases drawSeats_origin p.seats 0 Plane.START_Y p.isleOrigin with heq | ⟨-, hy⟩
      · have hsame : (p.Draw clock).isleOrigin = p.isleOrigin := heq
        cases hest : established with
        | true => rw [hsame]; exact ih.2.2 hest
        | false =>
          rename_i he
          rw [hest] at he
          simp [hsame] at he
      · exact hy
  | board p t established i hi _ hnb ih =>
    refine ⟨Plane.Board_inv p t i hi ih.1 hnb, ?_, ?_⟩
    · intro he
      have : (p.Board i).2.isleOrigin = p.isleOrigin := by
        unfold Plane.Board; split_ifs <;> rfl
      rw [this]; exact ih.2.1 he
    · intro he
      have : (p.Board i).2.isleOrigin = p.isleOrigin := by
        unfold Plane.Board; split_ifs <;> rfl
      rw [this]; exact ih.2.2 he

/-! ### The sample run is reachable -/

theorem start_reachable : Reachable Plane.start 0 false :=
  Reachable.init ModelParameters.sample 2 2 Plane.start Plane.start.passengers 0 rfl
    (List.Perm.refl _)

theorem run1_reachable : Reachable Plane.run1 0 true := by
  have h := Reachable.draw Plane.start 0 false (fun _ => 0) start_reachable (le_refl _)
    monotone_const
  have e : (false || decide ((Plane.start.Draw fun _ => 0).isleOrigin ≠
      Plane.start.isleOrigin)) = true := by decide!
  rw [e] at h
  exact h

theorem run2_reachable : Reachable Plane.run2 0 true :=
  Reachable.board Plane.run1 0 true 2 (by decide!) run1_reachable (by decide!)

theorem run3_reachable : Reachable Plane.run3 1 true := by
  have h := Reachable.draw Plane.run2 0 true (fun _ => 1) run2_reachable (by norm_num)
    monotone_const
  simpa using h

theorem run4_reachable : Reachable Plane.run4 2 true := by
  have h := Reachable.draw Plane.run3 1 true (fun _ => 2) run3_reachable (by norm_num)
    monotone_const
  simpa using h

theorem afterRun_reachable : Reachable Plane.afterRun 2 true :=
  Reachable.board Plane.run4 2 true 3 (by decide!) run4_reachable (by decide!)

/-! ### The claims on reachable states -/

/-- C1. No-collision invariant: in every state reached from a constructed plane by calls of
`Plane::Draw` (clock not running backwards) and of `Plane::Board` (on passengers that have
not boarded), any two aisle-resident passengers `a`, `b` with `b` further along the aisle
are at least `2 * radius + 1` apart. -/
theorem no_collision (p : Plane) (t : ℚ) (established : Bool)
    (h : Reachable p t established) (a b : Passenger)
    (ha : a ∈ p.passengers) (hb : b ∈ p.passengers)
    (hain : a.InIsle = true) (hbin : b.InIsle = true)
    (hlt : a.position.y < b.position.y) :
    b.position.y - a.position.y ≥ 2 * Passenger.GetRadius + 1 := by
  obtain ⟨i, hi, rfl⟩ := List.mem_iff_getElem.1 ha
  obtain ⟨j, hj, rfl⟩ := List.mem_iff_getElem.1 hb
  have hne : i ≠ j := by
    intro hij
    subst hij
    exact lt_irrefl _ hlt
  have := h.inv.1.gap i j hi hj hne hain hbin (le_of_lt hlt)
  linarith

/-- C1, witness: after the sample run the passengers of cells (1, 1) and (1, 0) are both
in the aisle, at heights 50 and 70. -/
theorem no_collision_witness :
    Plane.afterRun.passengers.map (fun q => (q.InIsle, q.position.y)) =
        [(false, 0), (false, 0), (true, 70), (true, 50)] ∧
      (Plane.afterRun.passengers.getD 2 (Passenger.sample 0 0)).position.y -
        (Plane.afterRun.passengers.getD 3 (Passenger.sample 0 0)).position.y ≥
          2 * Passenger.GetRadius + 1 :=
  ⟨by decide!,
    no_collision Plane.afterRun 2 true afterRun_reachable
      (Plane.afterRun.passengers.getD 3 (Passenger.sample 0 0))
      (Plane.afterRun.passengers.getD 2 (Passenger.sample 0 0))
      (by decide!) (by decide!) (by decide!) (by decide!) (by decide!)⟩

/-- C6. `CanBoard` is false in every reachable state in which no `Draw` has yet assigned the
aisle origin; and once one has, the result is that of the distance rule alone: every
aisle-resident passenger is at least `2 * radius + 1` beyond the origin. -/
theorem CanBoard_origin_established (p : Plane) (t : ℚ) (established : Bool)
    (h : Reachable p t established) :
    (established = false → p.CanBoard = false) ∧
      (established = true →
        (p.CanBoard = true ↔
          ∀ q ∈ p.passengers, q.InIsle = true →
            q.position.y - p.isleOrigin.y ≥ 2 * Passenger.GetRadius + 1)) := by
  obtain ⟨-, h0, h1⟩ := h.inv
  constructor
  · intro he
    have ho := h0 he
    unfold Plane.CanBoard
    rw [if_pos (by rw [ho]; exact ⟨rfl, rfl⟩)]
  · intro he
    have hy := h1 he
    rw [CanBoard_iff]
    have hne : ¬(p.isleOrigin.x = 0 ∧ p.isleOrigin.y = 0) := by
      rintro ⟨-, hy0⟩
      rw [hy] at hy0
      norm_num [Plane.START_Y] at hy0
    constructor
    · rintro ⟨-, hall⟩ q hq hin
      have := hall q hq hin
      rw [hy]
      linarith
    · intro hall
      refine ⟨hne, fun q hq hin => ?_⟩
      have := hall q hq hin
      rw [hy] at this
      linarith

/-- C6, witness: the constructed plane refuses boarding before its first `Draw`; after it the
gate follows the distance rule (and is open, the aisle being empty). -/
theorem CanBoard_origin_established_witness :
    Plane.start.CanBoard = false ∧ Plane.run1.CanBoard = true ∧
      (Plane.run1.CanBoard = true ↔
        ∀ q ∈ Plane.run1.passengers, q.InIsle = true →
          q.position.y - Plane.run1.isleOrigin.y ≥ 2 * Passenger.GetRadius + 1) :=
  ⟨(CanBoard_origin_established Plane.start 0 false start_reachable).1 rfl, by decide!,
    (CanBoard_origin_established Plane.run1 0 true run1_reachable).2 rfl⟩

/-! ### The constructor -/

theorem Plane.new_seatCount (params : ModelParameters) (rows seatsPerRow : Int) (p : Plane)
    (h : Plane.new params rows seatsPerRow = some p) :
    p.seatCount = rows.toNat * seatsPerRow.toNat := by
  unfold Plane.new at h
  split_ifs at h
  simp only [Option.some.injEq] at h
  subst h
  simp [Plane.seatCount]

/-- C14, as stated, fails: the constructor checks nothing. With `rows = 0` it returns a plane
of no seats and no passengers, and with `seatsPerRow = 0` a plane of three empty rows. -/
theorem Plane_new_returns_degenerate_plane :
    (Plane.new ModelParameters.sample 0 4).map (fun p => (p.seats, p.passengers)) =
        some ([], []) ∧
      (Plane.new ModelParameters.sample 3 0).map (fun p => (p.seats, p.passengers)) =
        some ([[], [], []], []) ∧
      ¬ (∀ (params : ModelParameters) (rows seatsPerRow : Int),
          Plane.new params rows seatsPerRow = none ↔ (rows ≤ 0 ∨ seatsPerRow ≤ 0)) := by
  refine ⟨by decide!, by decide!, ?_⟩
  intro h
  have := (h ModelParameters.sample 0 4).2 (Or.inl (le_refl _))
  simp [Plane.new] at this

/-- C14, amended. The constructor fails exactly when `rows` is positive and `seatsPerRow` is
negative (the exception of `std::vector`); otherwise it returns a plane of
`rows * seatsPerRow` seats, which has no seat exactly when `rows ≤ 0` or `seatsPerRow = 0`. -/
theorem Plane_new_fails_iff (params : ModelParameters) (rows seatsPerRow : Int) :
    (Plane.new params rows seatsPerRow = none ↔ (0 < rows ∧ seatsPerRow < 0)) ∧
      ∀ p, Plane.new params rows seatsPerRow = some p →
        p.seatCount = rows.toNat * seatsPerRow.toNat ∧
        (p.seatCount = 0 ↔ (rows ≤ 0 ∨ seatsPerRow = 0)) := by
  constructor
  · unfold Plane.new
    split_ifs with h <;> simp [h]
  · intro p hp
    have hc := Plane.new_seatCount params rows seatsPerRow p hp
    refine ⟨hc, ?_⟩
    rw [hc]
    have hne : ¬ (0 < rows ∧ seatsPerRow < 0) := by
      intro hbad
      unfold Plane.new at hp
      rw [if_pos hbad] at hp
      exact absurd hp (by simp)
    rw [Nat.mul_eq_zero]
    constructor
    · rintro (h | h)
      · left; omega
      · by_cases hr : rows ≤ 0
        · left; exact hr
        · right
          have : ¬ seatsPerRow < 0 := fun hs => hne ⟨by omega, hs⟩
          omega
    · rintro (h | h)
      · left; omega
      · right; omega

/-- C14, amended, witness: two rows and a negative seat count fail; no rows give no seat. -/
theorem Plane_new_fails_iff_witness :
    (Plane.new ModelParameters.sample 2 (-1) = none ↔ ((0 : Int) < 2 ∧ (-1 : Int) < 0)) ∧
      ∀ p, Plane.new ModelParameters.sample 2 (-1) = some p →
        p.seatCount = (2 : Int).toNat * (-1 : Int).toNat ∧
        (p.seatCount = 0 ↔ ((2 : Int) ≤ 0 ∨ (-1 : Int) = 0)) :=
  Plane_new_fails_iff ModelParameters.sample 2 (-1)

theorem rowMajor_length {α : Type} (f : Nat → Nat → α) (m : Nat) (n : Nat) :
    ((List.range n).flatMap fun i => (List.range m).map fun j => f i j).length = n * m := by
  induction n with
  | zero => simp
  | succ n ih =>
    rw [List.range_succ, List.flatMap_append, List.length_append, ih]
    simp [Nat.succ_mul]

theorem rowMajor_getElem? {α : Type} (f : Nat → Nat → α) (m : Nat) (n k : Nat)
    (hk : k < n * m) :
    ((List.range n).flatMap fun i => (List.range m).map fun j => f i j)[k]? =
      some (f (k / m) (k % m)) := by
  induction n with
  | zero => simp at hk
  | succ n ih =>
    rw [List.range_succ, List.flatMap_append, List.getElem?_append, rowMajor_length]
    by_cases hlt : k < n * m
    · rw [if_pos hlt]
      exact ih hlt
    · rw [if_neg hlt]
      have hm : 0 < m := by
        rcases Nat.eq_zero_or_pos m with h | h
        · subst h; simp at hk
        · exact h
      have hlt' : k - n * m < m := by
        have : (n + 1) * m = n * m + m := Nat.succ_mul n m
        omega
      have hk' : k = m * n + (k - n * m) := by
        rw [Nat.mul_comm m n]; omega
      have hdiv : k / m = n := by
        rw [hk', Nat.mul_add_div hm, Nat.div_eq_of_lt hlt', Nat.add_zero]
      have hmod : k % m = k - n * m := by
        rw [hk', Nat.mul_add_mod, Nat.mod_eq_of_lt hlt']
        omega
      simp only [List.flatMap_cons, List.flatMap_nil, List.append_nil, List.getElem?_map]
      rw [List.getElem?_range hlt', hdiv, hmod]
      rfl

/-- C18. For `seatsPerRow ≥ 1` and any `rows` (`rows ≥ 1` among them) the constructor returns
a plane whose grid is `rows` rows of `seatsPerRow` unoccupied seats and whose passengers number
`rows * seatsPerRow`; the `k`-th passenger has row `k / seatsPerRow` and seat
`k mod seatsPerRow`, points at that grid cell and has not boarded; and the seats the
passengers point at are, one each, the cells of the grid. -/
theorem Plane_new_row_major (params : ModelParameters) (rows seatsPerRow : Int)
    (hs : 1 ≤ seatsPerRow) :
    ∃ p, Plane.new params rows seatsPerRow = some p ∧
      p.seats = List.replicate rows.toNat (List.replicate seatsPerRow.toNat Seat.new) ∧
      Seat.new.isOccupied = false ∧
      p.passengers.length = rows.toNat * seatsPerRow.toNat ∧
      (∀ k, k < rows.toNat * seatsPerRow.toNat →
        ∃ q, p.passengers[k]? = some q ∧
          q.row = ((k / seatsPerRow.toNat : Nat) : Int) ∧
          q.seat = ((k % seatsPerRow.toNat : Nat) : Int) ∧
          q.myseat = (k / seatsPerRow.toNat, k % seatsPerRow.toNat) ∧
          q.state = some PassengerState.NotBoarded ∧ q.isSeated = false) ∧
      (p.passengers.map (fun q => q.myseat)).Nodup ∧
      ∀ cell, p.seats.InGrid cell ↔ cell ∈ p.passengers.map (fun q => q.myseat) := by
  have hne : ¬ (0 < rows ∧ seatsPerRow < 0) := by omega
  refine ⟨_, by rw [Plane.new, if_neg hne], rfl, rfl, ?_, ?_, ?_, ?_⟩
  · exact rowMajor_length _ _ _
  · intro k hk
    exact ⟨_, rowMajor_getElem? _ _ _ k hk, rfl, rfl, rfl, rfl, rfl⟩
  · have hmap : ∀ k, k < rows.toNat * seatsPerRow.toNat →
        (List.map (fun q : Passenger => q.myseat)
          ((List.range rows.toNat).flatMap fun (i : Nat) =>
            (List.range seatsPerRow.toNat).map fun (j : Nat) =>
              Passenger.new (i : Int) (j : Int)
                (params.GetPassengerSpeed (i * seatsPerRow.toNat + j))
                (params.GetWaitDuration (i * seatsPerRow.toNat + j)) (i, j)))[k]? =
          some (k / seatsPerRow.toNat, k % seatsPerRow.toNat) := by
      intro k hk
      rw [List.getElem?_map, rowMajor_getElem? _ _ _ k hk]
      rfl
    rw [List.nodup_iff_getElem?_ne_getElem?]
    intro i j hij hj
    simp only [List.length_map, rowMajor_length] at hj
    rw [hmap i (by omega), hmap j hj]
    intro heq
    simp only [Option.some.injEq, Prod.mk.injEq] at heq
    have h1 := Nat.div_add_mod i seatsPerRow.toNat
    have h2 := Nat.div_add_mod j seatsPerRow.toNat
    rw [heq.1, heq.2] at h1
    omega
  · intro cell
    simp only [SeatGrid.InGrid, List.mem_map, List.mem_flatMap, List.mem_range,
      List.getElem?_replicate]
    constructor
    · rintro ⟨rs, hrs, hc⟩
      by_cases h1 : cell.1 < rows.toNat
      · rw [if_pos h1] at hrs
        cases hrs
        rw [List.length_replicate] at hc
        exact ⟨_, ⟨cell.1, h1, cell.2, hc, rfl⟩, rfl⟩
      · rw [if_neg h1] at hrs
        exact absurd hrs (by simp)
    · rintro ⟨q, ⟨i, hi, j, hj, rfl⟩, rfl⟩
      have hi' : (Passenger.new (i : Int) (j : Int)
          (params.GetPassengerSpeed (i * seatsPerRow.toNat + j))
          (params.GetWaitDuration (i * seatsPerRow.toNat + j)) (i, j)).myseat.1 <
          rows.toNat := hi
      refine ⟨List.replicate seatsPerRow.toNat Seat.new, by rw [if_pos hi'], ?_⟩
      rw [List.length_replicate]
      exact hj

/-- C18, witness: two rows of two seats; the passenger of index 3 is that of cell (1, 1). -/
theorem Plane_new_row_major_witness :
    (Plane.start.passengers.map (fun q => (q.row, q.seat, q.myseat))) =
        [(0, 0, (0, 0)), (0, 1, (0, 1)), (1, 0, (1, 0)), (1, 1, (1, 1))] ∧
      ∃ p, Plane.new ModelParameters.sample 2 2 = some p ∧
        p.seats = List.replicate (2 : Int).toNat (List.replicate (2 : Int).toNat Seat.new) ∧
        Seat.new.isOccupied = false ∧
        p.passengers.length = (2 : Int).toNat * (2 : Int).toNat ∧
        (∀ k, k < (2 : Int).toNat * (2 : Int).toNat →
          ∃ q, p.passengers[k]? = some q ∧
            q.row = ((k / (2 : Int).toNat : Nat) : Int) ∧
            q.seat = ((k % (2 : Int).toNat : Nat) : Int) ∧
            q.myseat = (k / (2 : Int).toNat, k % (2 : Int).toNat) ∧
            q.state = some PassengerState.NotBoarded ∧ q.isSeated = false) ∧
        (p.passengers.map (fun q => q.myseat)).Nodup ∧
        ∀ cell, p.seats.InGrid cell ↔ cell ∈ p.passengers.map (fun q => q.myseat) :=
  ⟨by decide!, Plane_new_row_major ModelParameters.sample 2 2 (by decide)⟩

/-! ### The divisions of `SortBySection` -/

/-- C20, as stated, fails at `numSections = 1`, `numRows = 0`: `numSections > numRows ≥ 0`
holds, yet `SortBySection` returns before any division and the range of two is left as
it was. -/
theorem SortBySection_one_section_no_division :
    (1 : Int) > 0 ∧ (0 : Int) ≥ 0 ∧
      SortBySection reversingSort 0 1 [Passenger.sample 0 0, Passenger.sample 1 0] =
        .ok [Passenger.sample 0 0, Passenger.sample 1 0] ∧
      SortBySection reversingSort 0 1 [Passenger.sample 0 0, Passenger.sample 1 0] ≠
        .error .divisionByZero := by
  decide!

/-- C20, amended. For `2 ≤ numSections ≤ numRows`, `sectionSize = numRows / numSections` is
at least 1, the comparator is a strict weak ordering and `SortBySection` runs without a
fault. For `numSections = 0`, or `numSections > numRows ≥ 0` with `numSections` other
than 1, sorting a range of two or more passengers divides by zero. -/
theorem SortBySection_division_guard
    (stdSort : (Passenger → Passenger → Bool) → List Passenger → List Passenger)
    (numRows numSections : Int) (range : List Passenger) :
    (2 ≤ numSections → numSections ≤ numRows →
      ∃ sectionSize, intDiv numRows numSections = .ok sectionSize ∧ 1 ≤ sectionSize ∧
        StrictWeakOrdering (sectionComp sectionSize) ∧
        SortBySection stdSort numRows numSections range =
          .ok (stdSort (sectionComp sectionSize) range)) ∧
      (numSections ≠ 1 → (numSections = 0 ∨ (0 ≤ numRows ∧ numRows < numSections)) →
        2 ≤ range.length →
        SortBySection stdSort numRows numSections range = .error .divisionByZero) := by
  constructor
  · intro h2 hle
    have hdiv : intDiv numRows numSections = .ok (Int.tdiv numRows numSections) := by
      unfold intDiv
      rw [if_neg (by omega), if_neg (by omega)]
    have hsz : 1 ≤ Int.tdiv numRows numSections := by
      rw [Int.tdiv_eq_ediv (by omega) (by omega)]
      exact Int.le_ediv_of_mul_le (by omega) (by omega)
    exact ⟨_, hdiv, hsz, sectionComp_strictWeak _,
      SortBySection_ok stdSort numRows numSections _ range (by omega) hdiv hsz⟩
  · intro h1 hcase hlen
    unfold SortBySection
    rw [if_neg h1]
    rcases hcase with h0 | ⟨hr, hlt⟩
    · have : intDiv numRows numSections = .error .divisionByZero := by
        unfold intDiv; rw [if_pos h0]
      rw [this]
    · by_cases h0 : numSections = 0
      · have : intDiv numRows numSections = .error .divisionByZero := by
          unfold intDiv; rw [if_pos h0]
        rw [this]
      · have : intDiv numRows numSections = .ok 0 := by
          unfold intDiv
          rw [if_neg h0, if_neg (by omega), Int.tdiv_eq_zero_of_lt hr hlt]
        rw [this]
        simp only []
        rw [if_pos ⟨hlen, trivial⟩]

/-- C20, amended, witness: 20 rows in 8 sections give `sectionSize = 2`; 3 rows in 8 sections
give `sectionSize = 0` and a division by zero on a range of two. -/
theorem SortBySection_division_guard_witness :
    (∃ sectionSize, intDiv 20 8 = .ok sectionSize ∧ 1 ≤ sectionSize ∧
        StrictWeakOrdering (sectionComp sectionSize) ∧
        SortBySection reversingSort 20 8 [Passenger.sample 0 0, Passenger.sample 1 0] =
          .ok (reversingSort (sectionComp sectionSize)
            [Passenger.sample 0 0, Passenger.sample 1 0])) ∧
      SortBySection reversingSort 3 8 [Passenger.sample 0 0, Passenger.sample 1 0] =
        .error .divisionByZero :=
  ⟨(SortBySection_division_guard reversingSort 20 8
      [Passenger.sample 0 0, Passenger.sample 1 0]).1 (by decide) (by decide),
    (SortBySection_division_guard reversingSort 3 8
      [Passenger.sample 0 0, Passenger.sample 1 0]).2 (by decide)
      (Or.inr ⟨by decide, by decide⟩) (by decide)⟩

/-! ### The order policies only reorder -/

theorem set_perm_cons_eraseIdx (l : List Passenger) (i : Nat) (hi : i < l.length)
    (b : Passenger) : (l.set i b).Perm (b :: l.eraseIdx i) := by
  induction l generalizing i with
  | nil => simp at hi
  | cons a rest ih =>
    cases i with
    | zero => simp
    | succ i =>
      simp only [List.set_cons_succ, List.eraseIdx_cons_succ]
      exact ((ih i (by simpa using hi)).cons a).trans (List.Perm.swap b a _)

theorem perm_getElem_cons_eraseIdx (l : List Passenger) (i : Nat) (hi : i < l.length) :
    l.Perm (l[i] :: l.eraseIdx i) := by
  induction l generalizing i with
  | nil => simp at hi
  | cons a rest ih =>
    cases i with
    | zero => simp
    | succ i =>
      simp only [List.getElem_cons_succ, List.eraseIdx_cons_succ]
      exact ((ih i (by simpa using hi)).cons a).trans (List.Perm.swap _ a _)

theorem swapAt_perm (l : List Passenger) (i j : Nat) : (swapAt l i j).Perm l := by
  unfold swapAt
  cases hi : l[i]? with
  | none => exact List.Perm.refl _
  | some a =>
    cases hj : l[j]? with
    | none => exact List.Perm.refl _
    | some b =>
      obtain ⟨hil, hia⟩ := List.getElem?_eq_some.1 hi
      obtain ⟨hjl, hjb⟩ := List.getElem?_eq_some.1 hj
      simp only []
      have hjl' : j < (l.set i b).length := by simpa using hjl
      have h1 : ((l.set i b).set j a).Perm (a :: (l.set i b).eraseIdx j) :=
        set_perm_cons_eraseIdx _ j hjl' a
      have h2 : (l.set i b).Perm ((l.set i b)[j] :: (l.set i b).eraseIdx j) :=
        perm_getElem_cons_eraseIdx _ j hjl'
      have h3 : (l.set i b).Perm (b :: l.eraseIdx i) := set_perm_cons_eraseIdx l i hil b
      have h4 : l.Perm (a :: l.eraseIdx i) := by
        have := perm_getElem_cons_eraseIdx l i hil
        rw [hia] at this
        exact this
      have h5 : (l.set i b)[j] = b := by
        rw [List.getElem_set]
        split_ifs
        · rfl
        · exact hjb
      rw [h5] at h2
      have h6 : ((l.set i b).eraseIdx j).Perm (l.eraseIdx i) :=
        (List.perm_cons b).1 (h2.symm.trans h3)
      exact h1.trans ((h6.cons a).trans h4.symm)

theorem exchangeShuffleLoop_perm (count : Nat) :
    ∀ (i rng : Nat) (l : List Passenger), (exchangeShuffleLoop count i rng l).1.Perm l := by
  induction count with
  | zero => intro i rng l; exact List.Perm.refl _
  | succ count ih =>
    intro i rng l
    unfold exchangeShuffleLoop
    exact (ih _ _ _).trans (swapAt_perm _ _ _)

theorem exchangeShuffle_contract : StdShuffleContract exchangeShuffle :=
  fun rng list => exchangeShuffleLoop_perm _ _ rng list

theorem batchedSortBySection_perm
    (stdSort : (Passenger → Passenger → Bool) → List Passenger → List Passenger)
    (hsort : StdSortContract stdSort)
    (numRows numSections peoplePerSection : Int) (fuel : Nat) :
    ∀ (begin : Nat) (list out : List Passenger),
      batchedSortBySection stdSort numRows numSections peoplePerSection fuel begin list =
        .ok out → out.Perm list := by
  induction fuel with
  | zero => intro begin list out h; simp [batchedSortBySection] at h
  | succ fuel ih =>
    intro begin list out h
    unfold batchedSortBySection at h
    simp only [] at h
    generalize hend :
      (if (begin : Int) + peoplePerSection * numSections > (list.length : Int)
        then (list.length : Int) else (begin : Int) + peoplePerSection * numSections) =
        end1 at h
    by_cases hinv : end1 < (begin : Int)
    · rw [if_pos hinv] at h
      exact absurd h (by simp)
    · rw [if_neg hinv] at h
      have hbs : begin ≤ end1.toNat := by omega
      generalize end1.toNat = stop at h hbs
      cases hs : SortBySection stdSort numRows numSections
          ((list.drop begin).take (stop - begin)) with
      | error f => rw [hs] at h; simp at h
      | ok sorted =>
        rw [hs] at h
        simp only [] at h
        have hperm := SortBySection_perm stdSort hsort numRows numSections _ _ hs
        have hlist : (list.take begin ++ sorted ++ list.drop stop).Perm list := by
          have hd : list.drop stop = (list.drop begin).drop (stop - begin) := by
            rw [List.drop_drop]
            congr 1
            omega
          have : list = list.take begin ++
              ((list.drop begin).take (stop - begin) ++
                (list.drop begin).drop (stop - begin)) := by
            rw [List.take_append_drop, List.take_append_drop]
          conv_rhs => rw [this]
          rw [hd, List.append_assoc]
          exact List.Perm.append_left _ (List.Perm.append_right _ hperm)
        split_ifs at h
        · simp only [Except.ok.injEq] at h
          rw [← h]
          exact hlist
        · exact (ih _ _ _ h).trans hlist

/-- C11. Permutation preservation: `RandomizePassengerList`, `SortBySection` and the batched
sort each return the passengers they were given, every one with all its fields as before, in
some order; so the multiset of `(row, column)` pairs is that of the input. This holds for
every state of the random engine. -/
theorem order_policies_permute
    (stdShuffle : Nat → List Passenger → List Passenger × Nat)
    (hshuffle : StdShuffleContract stdShuffle)
    (stdSort : (Passenger → Passenger → Bool) → List Passenger → List Passenger)
    (hsort : StdSortContract stdSort)
    (rng : Nat) (numRows numSections peoplePerSection : Int) (fuel : Nat)
    (list : List Passenger) :
    ((RandomizePassengerList stdShuffle rng list).1.Perm list ∧
      ((RandomizePassengerList stdShuffle rng list).1.map Passenger.key).Perm
        (list.map Passenger.key)) ∧
    (∀ out, SortBySection stdSort numRows numSections list = .ok out →
      out.Perm list ∧ (out.map Passenger.key).Perm (list.map Passenger.key)) ∧
    (∀ out,
      batchedSortBySection stdSort numRows numSections peoplePerSection fuel 0 list = .ok out →
      out.Perm list ∧ (out.map Passenger.key).Perm (list.map Passenger.key)) := by
  refine ⟨⟨hshuffle rng list, (hshuffle rng list).map _⟩, ?_, ?_⟩
  · intro out h
    have := SortBySection_perm stdSort hsort numRows numSections list out h
    exact ⟨this, this.map _⟩
  · intro out h
    have := batchedSortBySection_perm stdSort hsort numRows numSections peoplePerSection fuel
      0 list out h
    exact ⟨this, this.map _⟩

/-- C11, witness: the exchange shuffle from engine state 1, the section sort and the batched
sort of five passengers of rows 0 to 4. -/
theorem order_policies_permute_witness :
    ((RandomizePassengerList exchangeShuffle 1 windowSampleList).1.map Passenger.row =
        [0, 3, 1, 4, 2] ∧
      (SortBySection reversingSort 20 8 windowSampleList).toOption.map
        (List.map Passenger.row) = some [4, 3, 2, 1, 0]) ∧
    (((RandomizePassengerList exchangeShuffle 1 windowSampleList).1.Perm windowSampleList ∧
      ((RandomizePassengerList exchangeShuffle 1 windowSampleList).1.map Passenger.key).Perm
        (windowSampleList.map Passenger.key)) ∧
    (∀ out, SortBySection reversingSort 20 8 windowSampleList = .ok out →
      out.Perm windowSampleList ∧
        (out.map Passenger.key).Perm (windowSampleList.map Passenger.key)) ∧
    (∀ out,
      batchedSortBySection reversingSort 20 8 3 6 0 windowSampleList = .ok out →
      out.Perm windowSampleList ∧
        (out.map Passenger.key).Perm (windowSampleList.map Passenger.key))) :=
  ⟨⟨by decide!, by decide!⟩,
    order_policies_permute exchangeShuffle exchangeShuffle_contract reversingSort
      reversingSort_contract 1 20 8 3 6 windowSampleList⟩

/-! ### The steps of `Passenger::Draw` -/

theorem gapsAheadOrLevel_cons (self : Passenger) (idx j0 : Nat) (p : Passenger)
    (rest : List Passenger) :
    self.gapsAheadOrLevel idx j0 (p :: rest) =
      if j0 ≠ idx ∧ p.InIsle = true ∧ self.position.y ≤ p.position.y then
        self.gapTo p :: self.gapsAheadOrLevel idx (j0 + 1) rest
      else self.gapsAheadOrLevel idx (j0 + 1) rest := by
  unfold Passenger.gapsAheadOrLevel
  simp only [List.enumFrom_cons, List.filter_cons, Bool.and_eq_true, decide_eq_true_eq,
    and_assoc]
  split_ifs <;> rfl

theorem gapsStrictlyAhead_cons (self : Passenger) (idx j0 : Nat) (p : Passenger)
    (rest : List Passenger) :
    self.gapsStrictlyAhead idx j0 (p :: rest) =
      if j0 ≠ idx ∧ p.InIsle = true ∧ self.position.y < p.position.y then
        self.gapTo p :: self.gapsStrictlyAhead idx (j0 + 1) rest
      else self.gapsStrictlyAhead idx (j0 + 1) rest := by
  unfold Passenger.gapsStrictlyAhead
  simp only [List.enumFrom_cons, List.filter_cons, Bool.and_eq_true, decide_eq_true_eq,
    and_assoc]
  split_ifs <;> rfl

theorem capYToMove_eq_minWith (self : Passenger) (idx : Nat) (l : List Passenger) :
    ∀ (j0 : Nat) (y : ℚ),
      self.capYToMove idx j0 l y = minWith y (self.gapsAheadOrLevel idx j0 l) := by
  induction l with
  | nil => intro j0 y; rfl
  | cons p rest ih =>
    intro j0 y
    unfold Passenger.capYToMove
    rw [gapsAheadOrLevel_cons]
    by_cases h1 : j0 = idx
    · rw [if_pos h1, if_neg (fun h => h.1 h1)]
      exact ih _ _
    · rw [if_neg h1]
      by_cases h2 : p.InIsle = true
      · have h2' : ¬ ((!p.InIsle) = true) := by simp [h2]
        rw [if_neg h2']
        simp only []
        by_cases h3 : p.position.y - self.position.y < 0
        · rw [if_pos h3, if_neg (fun h => by linarith [h.2.2])]
          exact ih _ _
        · have hc : j0 ≠ idx ∧ p.InIsle = true ∧ self.position.y ≤ p.position.y :=
            ⟨h1, h2, by linarith⟩
          rw [if_neg h3, if_pos hc]
          show _ = List.foldl min (min y (self.gapTo p)) _
          by_cases h4 : p.position.y - self.position.y - self.radius * 2 - 1 < y
          · rw [if_pos h4, ih]
            unfold minWith Passenger.gapTo
            rw [min_eq_right (le_of_lt h4)]
          · rw [if_neg h4, ih]
            unfold minWith Passenger.gapTo
            rw [min_eq_left (not_lt.1 h4)]
      · have h2' : (!p.InIsle) = true := by simpa using h2
        rw [if_pos h2', if_neg (fun h => h2 h.2.1)]
        exact ih _ _

theorem gapsStrictlyAhead_eq (self : Passenger) (idx : Nat) (l : List Passenger) :
    ∀ (j0 : Nat),
      (∀ jq ∈ l.enumFrom j0, jq.1 ≠ idx → jq.2.InIsle = true →
        jq.2.position.y ≠ self.position.y) →
      self.gapsStrictlyAhead idx j0 l = self.gapsAheadOrLevel idx j0 l := by
  induction l with
  | nil => intro j0 _; rfl
  | cons p rest ih =>
    intro j0 h
    rw [gapsStrictlyAhead_cons, gapsAheadOrLevel_cons,
      ih (j0 + 1) (fun jq hjq => h jq (by rw [List.enumFrom_cons]; exact List.mem_cons_of_mem _ hjq))]
    have hp := h (j0, p) (by rw [List.enumFrom_cons]; exact List.mem_cons_self _ _)
    by_cases hc : j0 ≠ idx ∧ p.InIsle = true
    · have hne := hp hc.1 hc.2
      have hiff : (self.position.y < p.position.y) ↔ (self.position.y ≤ p.position.y) :=
        ⟨le_of_lt, fun hle => lt_of_le_of_ne hle (Ne.symm hne)⟩
      simp only [hiff]
    · rw [if_neg (fun hh => hc ⟨hh.1, hh.2.1⟩), if_neg (fun hh => hc ⟨hh.1, hh.2.1⟩)]

/-- C16, as stated, fails: an aisle-resident passenger at an equal position does take part.
Of two passengers both at height 60, the first, due to move by 5, is moved by -11. -/
theorem yToMove_level_passenger_counts :
    (levelPair.map (fun q => (q.InIsle, q.isMoving, q.hasMovedOnce, q.position.y))) =
        [(true, true, true, 60), (true, true, true, 60)] ∧
      (Passenger.sample 2 0).yVelocity * (1 / 20) = 5 ∧
      minWith 5 ((levelPair.getD 0 (Passenger.sample 0 0)).gapsStrictlyAhead 0 0 levelPair)
        = 5 ∧
      (levelPair.getD 0 (Passenger.sample 0 0)).yToMove (1 / 20) 0 levelPair = -11 := by
  decide!

/-- C16, amended. The delta `yToMove` of a moving passenger that has moved before is the
minimum of `elapsedSeconds * velocity` and the gaps `theirPosition - myPosition - 2 * radius
- 1` to the other aisle-resident passengers whose position is greater than or equal to its
own; where no other aisle-resident passenger is at its own position, these are the
passengers whose position is strictly greater. -/
theorem yToMove_eq_min (self : Passenger) (now : ℚ) (idx : Nat) (passengers : List Passenger) :
    self.yToMove now idx passengers =
        minWith ((now - self.lastMove) * self.yVelocity)
          (self.gapsAheadOrLevel idx 0 passengers) ∧
      ((∀ jq ∈ passengers.enumFrom 0, jq.1 ≠ idx → jq.2.InIsle = true →
          jq.2.position.y ≠ self.position.y) →
        self.yToMove now idx passengers =
          minWith ((now - self.lastMove) * self.yVelocity)
            (self.gapsStrictlyAhead idx 0 passengers)) := by
  refine ⟨capYToMove_eq_minWith self idx passengers 0 _, fun h => ?_⟩
  rw [gapsStrictlyAhead_eq self idx passengers 0 h]
  exact capYToMove_eq_minWith self idx passengers 0 _

/-- C16, amended, witness: in the sample run at time 2 the passenger of cell (1, 1), at
height 50, is 20 behind the one of cell (1, 0), at height 70: its delta is the gap 9. -/
theorem yToMove_eq_min_witness :
    (Plane.afterRun.passengers.getD 3 (Passenger.sample 0 0)).gapsStrictlyAhead 3 0
        Plane.afterRun.passengers = [9] ∧
      ((Plane.afterRun.passengers.getD 3 (Passenger.sample 0 0)).yToMove 3 3
          Plane.afterRun.passengers =
        minWith ((3 - (Plane.afterRun.passengers.getD 3 (Passenger.sample 0 0)).lastMove) *
            (Plane.afterRun.passengers.getD 3 (Passenger.sample 0 0)).yVelocity)
          ((Plane.afterRun.passengers.getD 3 (Passenger.sample 0 0)).gapsStrictlyAhead 3 0
            Plane.afterRun.passengers)) :=
  ⟨by decide!,
    (yToMove_eq_min (Plane.afterRun.passengers.getD 3 (Passenger.sample 0 0)) 3 3
      Plane.afterRun.passengers).2 (by decide!)⟩

/-- C17, as stated, fails where the new position reaches the seat row exactly: the test of
line 160 is strict. In the sample run the passenger of cell (1, 0), of velocity 200, is
drawn 1/10 second after its first `Draw`: it stands at height 70, the height of its seat
row, and is still moving, not waiting. -/
theorem Draw_reaching_row_keeps_moving :
    ((Plane.gateRun (1 / 10)).seats.deref (1, 0)).position.y = 70 ∧
      ((Plane.gateRun (1 / 10)).passengers.getD 2 (Passenger.sample 0 0)).myseat = (1, 0) ∧
      ((Plane.gateRun (1 / 10)).passengers.getD 2 (Passenger.sample 0 0)).position.y = 70 ∧
      ((Plane.gateRun (1 / 10)).passengers.getD 2 (Passenger.sample 0 0)).isMoving = true ∧
      ((Plane.gateRun (1 / 10)).passengers.getD 2 (Passenger.sample 0 0)).state =
        some PassengerState.InAisle ∧
      ((Plane.gateRun (1 / 10)).passengers.getD 2 (Passenger.sample 0 0)).state ≠
        some PassengerState.Waiting := by
  decide!

/-- C17, amended. For a moving aisle passenger that has moved before, with `newPosition` its
position after the clamped delta: if `newPosition` is strictly beyond the seat row, then
after `Draw` the passenger is at the seat row exactly, waiting, its wait started at the
current time; otherwise (also when it reaches the row exactly) it is still moving, at
`newPosition`. -/
theorem Draw_seat_row_arrival (self : Passenger) (now : ℚ) (isleOrigin : Vector2f)
    (seats : SeatGrid) (idx : Nat) (passengers : List Passenger)
    (hin : self.InIsle = true) (hmov : self.isMoving = true)
    (hmo : self.hasMovedOnce = true) :
    (isleOrigin.y + (self.isleY + self.yToMove now idx passengers) >
        (seats.deref self.myseat).position.y →
      (self.Draw now isleOrigin seats idx passengers).1.position.y =
          (seats.deref self.myseat).position.y ∧
        (self.Draw now isleOrigin seats idx passengers).1.isMoving = false ∧
        (self.Draw now isleOrigin seats idx passengers).1.state =
          some PassengerState.Waiting ∧
        (self.Draw now isleOrigin seats idx passengers).1.waitStart = now) ∧
    (isleOrigin.y + (self.isleY + self.yToMove now idx passengers) ≤
        (seats.deref self.myseat).position.y →
      (self.Draw now isleOrigin seats idx passengers).1.position.y =
          isleOrigin.y + (self.isleY + self.yToMove now idx passengers) ∧
        (self.Draw now isleOrigin seats idx passengers).1.isMoving = true ∧
        (self.Draw now isleOrigin seats idx passengers).1.state =
          some PassengerState.InAisle) := by
  have hin' : ¬ ((!self.InIsle) = true) := by simp [hin]
  have hflags : self.isBoarded = true ∧ self.isSeated = false := by
    unfold Passenger.InIsle at hin
    simpa using hin
  constructor
  · intro hgt
    unfold Passenger.yToMove at hgt
    unfold Passenger.Draw
    dsimp only
    rw [if_neg hin', if_pos hmov, if_pos hmo, if_pos hgt]
    refine ⟨?_, rfl, ?_, rfl⟩
    · show isleOrigin.y + ((seats.deref self.myseat).position.y - isleOrigin.y) = _
      ring
    · simp [Passenger.state, hflags.1, hflags.2]
  · intro hle
    unfold Passenger.yToMove at hle ⊢
    unfold Passenger.Draw
    dsimp only
    rw [if_neg hin', if_pos hmov, if_pos hmo, if_neg (not_lt.2 hle)]
    refine ⟨rfl, hmov, ?_⟩
    simp [Passenger.state, hflags.1, hflags.2, hmov]

/-- C17, amended, witness: drawn 1/10 second after its first `Draw` the passenger of cell
(1, 0) reaches height 70 and is still moving; drawn a full second after, it is put at its
row, waiting. -/
theorem Draw_seat_row_arrival_witness :
    (((Plane.run3.passengers.getD 2 (Passenger.sample 0 0)).Draw (1 + 1 / 10)
        Plane.run3.isleOrigin Plane.run3.seats 2 Plane.run3.passengers).1.position.y =
      Plane.run3.isleOrigin.y +
        ((Plane.run3.passengers.getD 2 (Passenger.sample 0 0)).isleY +
          (Plane.run3.passengers.getD 2 (Passenger.sample 0 0)).yToMove (1 + 1 / 10) 2
            Plane.run3.passengers) ∧
      ((Plane.run3.passengers.getD 2 (Passenger.sample 0 0)).Draw (1 + 1 / 10)
        Plane.run3.isleOrigin Plane.run3.seats 2 Plane.run3.passengers).1.isMoving = true ∧
      ((Plane.run3.passengers.getD 2 (Passenger.sample 0 0)).Draw (1 + 1 / 10)
        Plane.run3.isleOrigin Plane.run3.seats 2 Plane.run3.passengers).1.state =
          some PassengerState.InAisle) ∧
    (((Plane.run3.passengers.getD 2 (Passenger.sample 0 0)).Draw 2
        Plane.run3.isleOrigin Plane.run3.seats 2 Plane.run3.passengers).1.position.y =
      (Plane.run3.seats.deref (Plane.run3.passengers.getD 2 (Passenger.sample 0 0)).myseat
        ).position.y ∧
      ((Plane.run3.passengers.getD 2 (Passenger.sample 0 0)).Draw 2
        Plane.run3.isleOrigin Plane.run3.seats 2 Plane.run3.passengers).1.isMoving = false ∧
      ((Plane.run3.passengers.getD 2 (Passenger.sample 0 0)).Draw 2
        Plane.run3.isleOrigin Plane.run3.seats 2 Plane.run3.passengers).1.state =
          some PassengerState.Waiting ∧
      ((Plane.run3.passengers.getD 2 (Passenger.sample 0 0)).Draw 2
        Plane.run3.isleOrigin Plane.run3.seats 2 Plane.run3.passengers).1.waitStart = 2) :=
  ⟨(Draw_seat_row_arrival (Plane.run3.passengers.getD 2 (Passenger.sample 0 0)) (1 + 1 / 10)
      Plane.run3.isleOrigin Plane.run3.seats 2 Plane.run3.passengers
      (by decide!) (by decide!) (by decide!)).2 (by decide!),
    (Draw_seat_row_arrival (Plane.run3.passengers.getD 2 (Passenger.sample 0 0)) 2
      Plane.run3.isleOrigin Plane.run3.seats 2 Plane.run3.passengers
      (by decide!) (by decide!) (by decide!)).1 (by decide!)⟩

/-! ### The aisle origin -/

theorem drawRowSeats_past (row size : Nat) (seatY : ℚ) (l : List Seat) :
    ∀ (seatNo : Nat) (seatX : ℚ) (o : Vector2f),
      (size / 2 + 2 ^ 64 - 1) % 2 ^ 64 < seatNo →
      (Plane.drawRowSeats row size seatY seatNo l seatX o).2 = o := by
  induction l with
  | nil => intro seatNo seatX o _; rfl
  | cons a rest ih =>
    intro seatNo seatX o h
    unfold Plane.drawRowSeats
    simp only []
    rw [if_neg (by omega)]
    exact ih _ _ _ (by omega)

theorem drawRowSeats_short (row size : Nat) (seatY : ℚ) (l : List Seat) :
    ∀ (seatNo : Nat) (seatX : ℚ) (o : Vector2f),
      seatNo + l.length ≤ (size / 2 + 2 ^ 64 - 1) % 2 ^ 64 →
      (Plane.drawRowSeats row size seatY seatNo l seatX o).2 = o := by
  induction l with
  | nil => intro seatNo seatX o _; rfl
  | cons a rest ih =>
    intro seatNo seatX o h
    simp only [List.length_cons] at h
    unfold Plane.drawRowSeats
    simp only []
    rw [if_neg (by omega)]
    exact ih _ _ _ (by omega)

theorem drawRowSeats_reach (size : Nat) (seatY : ℚ) (l : List Seat) :
    ∀ (seatNo : Nat) (seatX : ℚ) (o : Vector2f),
      seatNo ≤ (size / 2 + 2 ^ 64 - 1) % 2 ^ 64 →
      (size / 2 + 2 ^ 64 - 1) % 2 ^ 64 < seatNo + l.length →
      (Plane.drawRowSeats 0 size seatY seatNo l seatX o).2 =
        ⟨seatX + (((size / 2 + 2 ^ 64 - 1) % 2 ^ 64 - seatNo : Nat) : ℚ) *
          (Seat.GetSeatWidth + Plane.SEAT_SPACING) + Seat.GetSeatWidth, seatY⟩ := by
  induction l with
  | nil => intro seatNo seatX o h1 h2; simp at h2; omega
  | cons a rest ih =>
    intro seatNo seatX o h1 h2
    simp only [List.length_cons] at h2
    unfold Plane.drawRowSeats
    simp only []
    by_cases heq : seatNo = (size / 2 + 2 ^ 64 - 1) % 2 ^ 64
    · rw [if_pos heq, drawRowSeats_past 0 size seatY rest _ _ _ (by omega)]
      have hz : (size / 2 + 2 ^ 64 - 1) % 2 ^ 64 - seatNo = 0 := by omega
      rw [hz]
      simp only [Nat.cast_zero, zero_mul, add_zero, true_and]
      split_ifs with hc
      · rfl
      · simp only [not_or, not_not] at hc
        cases o
        simp only at hc
        rw [hc.1, hc.2]
    · rw [if_neg heq, ih _ _ _ (by omega) (by omega)]
      have hs : (size / 2 + 2 ^ 64 - 1) % 2 ^ 64 - seatNo =
          ((size / 2 + 2 ^ 64 - 1) % 2 ^ 64 - (seatNo + 1)) + 1 := by omega
      rw [hs]
      push_cast
      congr 1
      ring

theorem drawSeats_first_row (row0 : List Seat) (rest : SeatGrid) (o : Vector2f) :
    (Plane.drawSeats 0 (row0 :: rest) Plane.START_Y o).2 =
      (Plane.drawRowSeats 0 row0.length Plane.START_Y 0 row0 300 o).2 := by
  unfold Plane.drawSeats
  simp only []
  rcases drawSeats_origin rest (0 + 1) (Plane.START_Y + (Plane.ROW_SPACING + Seat.GetSeatHeight))
    (Plane.drawRowSeats 0 row0.length Plane.START_Y 0 row0 300 o).2 with h | h
  · exact h
  · exact absurd h.1 (by simp)

theorem drawSeats_origin_established (seats : SeatGrid) (o : Vector2f) (rows s : Nat)
    (hshape : seats.map List.length = List.replicate rows s)
    (hrows : 1 ≤ rows) (hs : 2 ≤ s) (hmax : s < 2 ^ 64) :
    (Plane.drawSeats 0 seats Plane.START_Y o).2 = Plane.originFor s := by
  cases seats with
  | nil =>
    simp only [List.map_nil] at hshape
    have := congrArg List.length hshape
    simp at this
    omega
  | cons row0 rest =>
    have hlen : row0.length = s := by
      cases rows with
      | zero => omega
      | succ n =>
        rw [List.replicate_succ, List.map_cons] at hshape
        exact (List.cons.inj hshape).1
    rw [drawSeats_first_row, hlen]
    have htgt : (s / 2 + 2 ^ 64 - 1) % 2 ^ 64 = s / 2 - 1 := by omega
    rw [drawRowSeats_reach s Plane.START_Y row0 0 300 o (by omega) (by rw [htgt, hlen]; omega),
      htgt]
    unfold Plane.originFor Seat.GetSeatWidth Plane.SEAT_SPACING
    have hh : ((s / 2 - 1 - 0 : Nat) : ℚ) = ((s / 2 : Nat) : ℚ) - 1 := by
      have : 1 ≤ s / 2 := by omega
      rw [Nat.sub_zero, Nat.cast_sub this]
      simp
    rw [hh]
    refine congrArg (fun x => Vector2f.mk x Plane.START_Y) ?_
    ring

theorem drawSeats_origin_never (seats : SeatGrid) :
    ∀ (row : Nat) (seatY : ℚ) (o : Vector2f),
      (∀ rs ∈ seats, rs.length ≤ 1) →
      (Plane.drawSeats row seats seatY o).2 = o := by
  induction seats with
  | nil => intro row seatY o _; rfl
  | cons a rest ih =>
    intro row seatY o h
    unfold Plane.drawSeats
    simp only []
    have ha : a.length ≤ 1 := h a (List.mem_cons_self _ _)
    rw [ih _ _ _ (fun rs hrs => h rs (List.mem_cons_of_mem _ hrs)),
      drawRowSeats_short row a.length seatY a 0 300 o (by omega)]

theorem drawSeats_shape (seats : SeatGrid) :
    ∀ (row : Nat) (seatY : ℚ) (o : Vector2f),
      (Plane.drawSeats row seats seatY o).1.map List.length = seats.map List.length := by
  induction seats with
  | nil => intro row seatY o; rfl
  | cons a rest ih =>
    intro row seatY o
    unfold Plane.drawSeats
    simp only [List.map_cons]
    rw [ih, (drawRowSeats_fst row a.length seatY a 0 300 o).1]

theorem SetOccupied_shape (seats : SeatGrid) (cell : Nat × Nat) :
    (seats.SetOccupied cell).map List.length = seats.map List.length := by
  apply List.ext_getElem?
  intro k
  rw [List.getElem?_map, List.getElem?_map, SetOccupied_getElem?]
  cases seats[k]? with
  | none => rfl
  | some rs =>
    simp only [Option.map_some']
    split_ifs
    · rw [List.length_modify]
    · rfl

theorem Passenger.Draw_seats (self : Passenger) (now : ℚ) (o : Vector2f) (seats : SeatGrid)
    (idx : Nat) (ps : List Passenger) :
    (self.Draw now o seats idx ps).2 = seats ∨
      (self.Draw now o seats idx ps).2 = seats.SetOccupied self.myseat := by
  unfold Passenger.Draw
  dsimp only
  split_ifs
  all_goals first
    | exact Or.inl rfl
    | exact Or.inr rfl

theorem foldl_drawPassenger_keeps (clock : Nat → ℚ) (o : Vector2f)
    (Q : List Passenger × SeatGrid → Prop)
    (hstep : ∀ st i, Q st → Q (Plane.drawPassenger clock o st i)) (l : List Nat) :
    ∀ st, Q st → Q (l.foldl (Plane.drawPassenger clock o) st) := by
  induction l with
  | nil => intro st h; exact h
  | cons i rest ih => intro st h; exact ih _ (hstep st i h)

theorem drawPassenger_shape (clock : Nat → ℚ) (o : Vector2f) (st : List Passenger × SeatGrid)
    (i : Nat) :
    (Plane.drawPassenger clock o st i).2.map List.length = st.2.map List.length := by
  unfold Plane.drawPassenger
  cases st.1[i]? with
  | none => rfl
  | some q =>
    simp only []
    rcases Passenger.Draw_seats q (clock i) o st.2 i st.1 with h | h
    · rw [h]
    · rw [h, SetOccupied_shape]

theorem Plane.Draw_shape (p : Plane) (clock : Nat → ℚ) :
    (p.Draw clock).seats.map List.length = p.seats.map List.length := by
  unfold Plane.Draw
  simp only []
  have := foldl_drawPassenger_keeps clock
    (Plane.drawSeats 0 p.seats Plane.START_Y p.isleOrigin).2
    (fun st => st.2.map List.length = p.seats.map List.length)
    (fun st i h => (drawPassenger_shape clock _ st i).trans h)
    (List.range p.passengers.length)
    (p.passengers, (Plane.drawSeats 0 p.seats Plane.START_Y p.isleOrigin).1)
    (drawSeats_shape _ _ _ _)
  exact this

theorem Plane.Board_fields (p : Plane) (i : Nat) :
    (p.Board i).2.seats = p.seats ∧ (p.Board i).2.isleOrigin = p.isleOrigin ∧
      (p.Board i).2.noRows = p.noRows ∧ (p.Board i).2.noSeats = p.noSeats := by
  unfold Plane.Board
  split_ifs <;> exact ⟨rfl, rfl, rfl, rfl⟩

theorem Reachable.shape {p : Plane} {t : ℚ} {established : Bool}
    (h : Reachable p t established) :
    p.seats.map List.length = List.replicate p.noRows.toNat p.noSeats.toNat := by
  induction h with
  | init params noRows noSeats p order t hnew hperm =>
    unfold Plane.new at hnew
    split_ifs at hnew
    simp only [Option.some.injEq] at hnew
    subst hnew
    simp
  | draw p t established clock _ ht hmono ih =>
    rw [Plane.Draw_shape]
    exact ih
  | board p t established i hi _ hnb ih =>
    rw [(Plane.Board_fields p i).1, (Plane.Board_fields p i).2.2.1,
      (Plane.Board_fields p i).2.2.2]
    exact ih

/-- C19. In a reachable state of a plane of at least one row and at least two seats per row,
`Draw` leaves the aisle origin at `(300 + 16 * h - 6, 50)`, `h = seatsPerRow / 2`, whose `y`
is `START_Y`: the first `Draw` sets it there from `(0, 0)`, and once a `Draw` has set it
every later `Draw` finds and leaves it there. `Board` never changes the origin. With one seat
per row no `Draw` sets the origin, which stays `(0, 0)`, and `CanBoard` is false. -/
theorem origin_set_once (p : Plane) (t : ℚ) (established : Bool)
    (h : Reachable p t established) (clock : Nat → ℚ) (i : Nat) :
    (1 ≤ p.noRows → 2 ≤ p.noSeats → p.noSeats ≤ INT_MAX →
      (p.Draw clock).isleOrigin = Plane.originFor p.noSeats.toNat ∧
      (Plane.originFor p.noSeats.toNat).y = Plane.START_Y ∧
      (established = false → p.isleOrigin = ⟨0, 0⟩) ∧
      (established = true → p.isleOrigin = Plane.originFor p.noSeats.toNat ∧
        (p.Draw clock).isleOrigin = p.isleOrigin)) ∧
    (p.Board i).2.isleOrigin = p.isleOrigin ∧
    (p.noSeats = 1 →
      established = false ∧ p.isleOrigin = ⟨0, 0⟩ ∧ (p.Draw clock).isleOrigin = ⟨0, 0⟩ ∧
        p.CanBoard = false) := by
  have hdraw : ∀ (q : Plane) (c : Nat → ℚ),
      q.seats.map List.length = List.replicate q.noRows.toNat q.noSeats.toNat →
      1 ≤ q.noRows → 2 ≤ q.noSeats → q.noSeats ≤ INT_MAX →
      (q.Draw c).isleOrigin = Plane.originFor q.noSeats.toNat := by
    intro q c hshape h1 h2 h3
    unfold INT_MAX at h3
    exact drawSeats_origin_established q.seats q.isleOrigin q.noRows.toNat q.noSeats.toNat
      hshape (by omega) (by omega) (by omega)
  have hnever : ∀ (q : Plane) (c : Nat → ℚ),
      q.seats.map List.length = List.replicate q.noRows.toNat q.noSeats.toNat →
      q.noSeats = 1 → (q.Draw c).isleOrigin = q.isleOrigin := by
    intro q c hshape h1
    refine drawSeats_origin_never q.seats 0 Plane.START_Y q.isleOrigin ?_
    intro rs hrs
    have : rs.length ∈ q.seats.map List.length := List.mem_map_of_mem _ hrs
    rw [hshape, h1] at this
    rw [(List.mem_replicate.1 this).2]
    decide
  have hinv : (1 ≤ p.noRows → 2 ≤ p.noSeats → p.noSeats ≤ INT_MAX → established = true →
      p.isleOrigin = Plane.originFor p.noSeats.toNat) ∧
      (p.noSeats = 1 → established = false) := by
    induction h with
    | init params noRows noSeats p order t hnew hperm =>
      exact ⟨fun _ _ _ he => absurd he (by simp), fun _ => rfl⟩
    | draw p t established c hreach ht hmono ih =>
      refine ⟨fun h1 h2 h3 _ => hdraw p c hreach.shape h1 h2 h3, fun h1 => ?_⟩
      have hsame := hnever p c hreach.shape h1
      simp only [Bool.or_eq_false_iff, decide_eq_false_iff_not, ne_eq, not_not]
      exact ⟨ih.2 h1, hsame⟩
    | board p t established j hj hreach hnb ih =>
      obtain ⟨-, ho, hr, hs⟩ := Plane.Board_fields p j
      rw [ho, hr, hs]
      exact ih
  obtain ⟨-, h0, -⟩ := h.inv
  refine ⟨fun h1 h2 h3 => ⟨hdraw p clock h.shape h1 h2 h3, rfl, h0, fun he => ?_⟩,
    (Plane.Board_fields p i).2.1, fun h1 => ?_⟩
  · have := hinv.1 h1 h2 h3 he
    exact ⟨this, by rw [hdraw p clock h.shape h1 h2 h3, this]⟩
  · have he := hinv.2 h1
    have ho := h0 he
    refine ⟨he, ho, by rw [hnever p clock h.shape h1, ho], ?_⟩
    unfold Plane.CanBoard
    rw [if_pos (by rw [ho]; exact ⟨rfl, rfl⟩)]

/-- C19, witness: the plane of two rows of two seats has its origin at `(310, 50)` after the
first `Draw` and after the later ones. -/
theorem origin_set_once_witness :
    Plane.originFor 2 = ⟨310, 50⟩ ∧ Plane.start.isleOrigin = ⟨0, 0⟩ ∧
      Plane.run1.isleOrigin = ⟨310, 50⟩ ∧
      ((Plane.run3.Draw (fun _ => 2)).isleOrigin = Plane.originFor Plane.run3.noSeats.toNat ∧
        (Plane.originFor Plane.run3.noSeats.toNat).y = Plane.START_Y ∧
        ((true : Bool) = false → Plane.run3.isleOrigin = ⟨0, 0⟩) ∧
        ((true : Bool) = true →
          Plane.run3.isleOrigin = Plane.originFor Plane.run3.noSeats.toNat ∧
          (Plane.run3.Draw (fun _ => 2)).isleOrigin = Plane.run3.isleOrigin)) :=
  ⟨by decide!, by decide!, by decide!,
    (origin_set_once Plane.run3 1 true run3_reachable (fun _ => 2) 0).1
      (by decide!) (by decide!) (by decide!)⟩

/-! ### Each passenger through one `Plane::Draw` -/

theorem Plane.drawSeats_inv (p : Plane) (t : ℚ)
    (h : SimInv p.isleOrigin t (p.passengers, p.seats)) :
    SimInv (Plane.drawSeats 0 p.seats Plane.START_Y p.isleOrigin).2 t
      (p.passengers, (Plane.drawSeats 0 p.seats Plane.START_Y p.isleOrigin).1) := by
  have hd := drawSeats_drawn p.seats p.isleOrigin
  have ho := drawSeats_origin p.seats 0 Plane.START_Y p.isleOrigin
  refine ⟨?_, ?_, h.gap⟩
  · rcases ho with heq | ⟨-, hy⟩
    · rcases h.origin with ⟨h0, hall⟩ | ⟨hy, -⟩
      · exact Or.inl ⟨heq.trans h0, hall⟩
      · exact Or.inr ⟨by rw [heq]; exact hy, hd⟩
    · exact Or.inr ⟨hy, hd⟩
  · intro q hq
    refine ((h.each q hq).weaken (le_refl t)
      (fun hg => (drawSeats_inGrid p.seats p.isleOrigin _).2 hg)).change_origin ?_
    intro hin
    rcases ho with heq | ⟨-, hy⟩
    · rw [heq]
    · rcases h.origin with ⟨-, hall⟩ | ⟨hy', -⟩
      · rw [not_InIsle_of_not_boarded (hall q hq)] at hin
        exact absurd hin (by simp)
      · rw [hy, hy']

theorem drawPassenger_length (clock : Nat → ℚ) (o : Vector2f)
    (st : List Passenger × SeatGrid) (i : Nat) :
    (Plane.drawPassenger clock o st i).1.length = st.1.length := by
  unfold Plane.drawPassenger
  cases st.1[i]? with
  | none => rfl
  | some q => simp

theorem drawPassengers_trace (clock : Nat → ℚ) (hmono : Monotone clock) (o : Vector2f)
    (P : Nat → Passenger → Passenger → Prop)
    (hstep : ∀ (st : List Passenger × SeatGrid) (T : ℚ) (i : Nat) (hi : i < st.1.length),
      SimInv o T st → T ≤ clock i →
      P i st.1[i] (st.1[i].Draw (clock i) o st.2 i st.1).1)
    (st : List Passenger × SeatGrid) (T : ℚ) (h : SimInv o T st) (hT : T ≤ clock 0)
    (n : Nat) :
    ((List.range n).foldl (Plane.drawPassenger clock o) st).1.length = st.1.length ∧
    (∀ (i : Nat) (q q' : Passenger), st.1[i]? = some q →
      ((List.range n).foldl (Plane.drawPassenger clock o) st).1[i]? = some q' →
      (i < n → P i q q') ∧ (n ≤ i → q' = q)) := by
  induction n with
  | zero =>
    refine ⟨rfl, fun i q q' hq hq' => ⟨fun hlt => absurd hlt (by omega), fun _ => ?_⟩⟩
    simp only [List.range_zero, List.foldl_nil] at hq'
    rw [hq] at hq'
    exact (Option.some.inj hq').symm
  | succ n ih =>
    rw [List.range_succ, List.foldl_append, List.foldl_cons, List.foldl_nil]
    have hinv := drawPassengers_inv clock hmono o st T h hT n
    generalize (List.range n).foldl (Plane.drawPassenger clock o) st = mid at ih hinv
    obtain ⟨hlen, hall⟩ := ih
    refine ⟨by rw [drawPassenger_length, hlen], ?_⟩
    intro i q q' hq hq'
    unfold Plane.drawPassenger at hq'
    cases hmid : mid.1[n]? with
    | none =>
      rw [hmid] at hq'
      simp only [] at hq'
      obtain ⟨h1, h2⟩ := hall i q q' hq hq'
      have hn : mid.1.length ≤ n := by
        by_contra hc
        rw [List.getElem?_eq_getElem (by omega)] at hmid
        exact absurd hmid (by simp)
      have hi : i < st.1.length := (List.getElem?_eq_some.1 hq).1
      refine ⟨fun hlt => h1 (by omega), fun hle => h2 (by omega)⟩
    | some m =>
      rw [hmid] at hq'
      simp only [] at hq'
      obtain ⟨hn, hm⟩ := List.getElem?_eq_some.1 hmid
      by_cases hin : i = n
      · subst hin
        rw [List.getElem?_set, if_pos rfl, if_pos hn] at hq'
        have hq'' := (Option.some.inj hq').symm
        have hmq : m = q := ((hall i q m hq hmid).2 (le_refl _))
        refine ⟨fun _ => ?_, fun hle => absurd hle (by omega)⟩
        have := hstep mid (clock i) i hn hinv (le_refl _)
        rw [hm, hmq] at this
        rw [hq'', hmq]
        exact this
      · rw [List.getElem?_set, if_neg (Ne.symm hin)] at hq'
        obtain ⟨h1, h2⟩ := hall i q q' hq hq'
        exact ⟨fun hlt => h1 (by omega), fun hle => h2 (by omega)⟩

theorem Plane.Draw_trace (p : Plane) (t : ℚ) (clock : Nat → ℚ)
    (h : SimInv p.isleOrigin t (p.passengers, p.seats)) (ht : t ≤ clock 0)
    (hmono : Monotone clock)
    (P : Nat → Passenger → Passenger → Prop)
    (hstep : ∀ (o : Vector2f) (st : List Passenger × SeatGrid) (T : ℚ) (i : Nat)
      (hi : i < st.1.length), SimInv o T st → T ≤ clock i →
      P i st.1[i] (st.1[i].Draw (clock i) o st.2 i st.1).1) :
    (p.Draw clock).passengers.length = p.passengers.length ∧
    ∀ (i : Nat) (q q' : Passenger), p.passengers[i]? = some q →
      (p.Draw clock).passengers[i]? = some q' → P i q q' := by
  have key := drawPassengers_trace clock hmono
    (Plane.drawSeats 0 p.seats Plane.START_Y p.isleOrigin).2 P
    (hstep _) (p.passengers, (Plane.drawSeats 0 p.seats Plane.START_Y p.isleOrigin).1) t
    (Plane.drawSeats_inv p t h) ht p.passengers.length
  refine ⟨key.1, fun i q q' hq hq' => ?_⟩
  exact (key.2 i q q' hq hq').1 (List.getElem?_eq_some.1 hq).1

theorem Passenger.Draw_waiting_position (self : Passenger) (now : ℚ) (o : Vector2f)
    (seats : SeatGrid) (idx : Nat) (ps : List Passenger) (hm : self.isMoving = false) :
    (self.Draw now o seats idx ps).1.position = self.position := by
  unfold Passenger.Draw
  dsimp only
  split_ifs <;> first | rfl | simp_all

theorem Passenger.Draw_moving_seated (self : Passenger) (now : ℚ) (o : Vector2f)
    (seats : SeatGrid) (idx : Nat) (ps : List Passenger) (hm : self.isMoving = true) :
    (self.Draw now o seats idx ps).1.isSeated = self.isSeated ∧
      (self.Draw now o seats idx ps).1.isBoarded = self.isBoarded := by
  unfold Passenger.Draw
  dsimp only
  split_ifs <;> exact ⟨rfl, rfl⟩

theorem Passenger.Draw_position_ge (o : Vector2f) (st : List Passenger × SeatGrid) (T : ℚ)
    (now : ℚ) (i : Nat) (hi : i < st.1.length) (h : SimInv o T st) (hT : T ≤ now)
    (hin : st.1[i].InIsle = true) :
    st.1[i].position.y ≤ (st.1[i].Draw now o st.2 i st.1).1.position.y := by
  cases hm : st.1[i].isMoving with
  | false => rw [Passenger.Draw_waiting_position _ _ _ _ _ _ hm]
  | true =>
    have hest : st.1[i].InIsle = true → o.y = Plane.START_Y ∧ st.2.Drawn := by
      intro _
      rcases h.origin with ⟨-, hall⟩ | hd
      · rw [not_InIsle_of_not_boarded (hall _ (List.getElem_mem hi))] at hin
        exact absurd hin (by simp)
      · exact hd
    obtain ⟨-, -, f3, -⟩ := Passenger.Draw_facts st.1 i hi o T now st.2
      (h.each _ (List.getElem_mem hi)) hest h.gap hT
    obtain ⟨hs, hb⟩ := Passenger.Draw_moving_seated st.1[i] now o st.2 i st.1 hm
    have hin' : (st.1[i].Draw now o st.2 i st.1).1.InIsle = true := by
      unfold Passenger.InIsle at hin ⊢
      rw [hs, hb]
      exact hin
    exact (f3 hin').2.1

/-- C13. Position monotonicity: in every reachable state, at every `Draw` whose clock does
not run backwards (velocities are positive by construction), the position of each
aisle-resident passenger after the `Draw` is at least its position before, the `Draw` that
puts it at its seat row included. -/
theorem position_monotone (p : Plane) (t : ℚ) (established : Bool)
    (h : Reachable p t established) (clock : Nat → ℚ) (ht : t ≤ clock 0)
    (hmono : Monotone clock) (i : Nat) (q q' : Passenger)
    (hq : p.passengers[i]? = some q) (hq' : (p.Draw clock).passengers[i]? = some q')
    (hin : q.InIsle = true) :
    q.position.y ≤ q'.position.y := by
  have key := (Plane.Draw_trace p t clock h.inv.1 ht hmono
    (fun _ a b => a.InIsle = true → a.position.y ≤ b.position.y)
    (fun o st T j hj hinv hT hjin =>
      Passenger.Draw_position_ge o st T (clock j) j hj hinv hT hjin)).2 i q q' hq hq'
  exact key hin

/-- C13, witness: in the sample run the passenger of cell (1, 0) goes from height 50 to
height 70, its seat row, in the `Draw` at time 2. -/
theorem position_monotone_witness :
    (Plane.run3.passengers.getD 2 (Passenger.sample 0 0)).position.y = 50 ∧
      (Plane.run4.passengers.getD 2 (Passenger.sample 0 0)).position.y = 70 ∧
      (Plane.run3.passengers.getD 2 (Passenger.sample 0 0)).position.y ≤
        (Plane.run4.passengers.getD 2 (Passenger.sample 0 0)).position.y :=
  ⟨by decide!, by decide!,
    position_monotone Plane.run3 1 true run3_reachable (fun _ => 2) (by norm_num)
      monotone_const 2 (Plane.run3.passengers.getD 2 (Passenger.sample 0 0))
      (Plane.run4.passengers.getD 2 (Passenger.sample 0 0)) (by decide!) (by decide!)
      (by decide!)⟩

/-! ### Seats and their passengers -/

theorem inGrid_iff_shape (seats : SeatGrid) (cell : Nat × Nat) :
    seats.InGrid cell ↔ ∃ n, (seats.map List.length)[cell.1]? = some n ∧ cell.2 < n := by
  unfold SeatGrid.InGrid
  rw [List.getElem?_map]
  cases seats[cell.1]? with
  | none => simp
  | some rs => simp

theorem inGrid_of_shape_eq {seats seats' : SeatGrid}
    (h : seats'.map List.length = seats.map List.length) (cell : Nat × Nat) :
    seats'.InGrid cell ↔ seats.InGrid cell := by
  rw [inGrid_iff_shape, inGrid_iff_shape, h]

theorem Plane.new_cells (params : ModelParameters) (rows seatsPerRow : Int) (p : Plane)
    (hnew : Plane.new params rows seatsPerRow = some p) :
    (p.passengers.map (fun q => q.myseat)).Nodup ∧
      ∀ cell, p.seats.InGrid cell ↔ cell ∈ p.passengers.map (fun q => q.myseat) := by
  unfold Plane.new at hnew
  split_ifs at hnew
  simp only [Option.some.injEq] at hnew
  subst hnew
  constructor
  · have hmap : ∀ k, k < rows.toNat * seatsPerRow.toNat →
        (List.map (fun q : Passenger => q.myseat)
          ((List.range rows.toNat).flatMap fun (i : Nat) =>
            (List.range seatsPerRow.toNat).map fun (j : Nat) =>
              Passenger.new (i : Int) (j : Int)
                (params.GetPassengerSpeed (i * seatsPerRow.toNat + j))
                (params.GetWaitDuration (i * seatsPerRow.toNat + j)) (i, j)))[k]? =
          some (k / seatsPerRow.toNat, k % seatsPerRow.toNat) := by
      intro k hk
      rw [List.getElem?_map, rowMajor_getElem? _ _ _ k hk]
      rfl
    rw [List.nodup_iff_getElem?_ne_getElem?]
    intro i j hij hj
    simp only [List.length_map, rowMajor_length] at hj
    rw [hmap i (by omega), hmap j hj]
    intro heq
    simp only [Option.some.injEq, Prod.mk.injEq] at heq
    have h1 := Nat.div_add_mod i seatsPerRow.toNat
    have h2 := Nat.div_add_mod j seatsPerRow.toNat
    rw [heq.1, heq.2] at h1
    omega
  · intro cell
    simp only [SeatGrid.InGrid, List.mem_map, List.mem_flatMap, List.mem_range,
      List.getElem?_replicate]
    constructor
    · rintro ⟨rs, hrs, hc⟩
      by_cases h1 : cell.1 < rows.toNat
      · rw [if_pos h1] at hrs
        cases hrs
        rw [List.length_replicate] at hc
        exact ⟨_, ⟨cell.1, h1, cell.2, hc, rfl⟩, rfl⟩
      · rw [if_neg h1] at hrs
        exact absurd hrs (by simp)
    · rintro ⟨q, ⟨i, hi, j, hj, rfl⟩, rfl⟩
      have hi' : (Passenger.new (i : Int) (j : Int)
          (params.GetPassengerSpeed (i * seatsPerRow.toNat + j))
          (params.GetWaitDuration (i * seatsPerRow.toNat + j)) (i, j)).myseat.1 <
          rows.toNat := hi
      refine ⟨List.replicate seatsPerRow.toNat Seat.new, by rw [if_pos hi'], ?_⟩
      rw [List.length_replicate]
      exact hj

theorem Passenger.Draw_seating (self : Passenger) (now : ℚ) (o : Vector2f) (seats : SeatGrid)
    (idx : Nat) (ps : List Passenger) :
    (self.Draw now o seats idx ps).1.myseat = self.myseat ∧
    (self.isSeated = true → (self.Draw now o seats idx ps).1.isSeated = true) ∧
    (((self.Draw now o seats idx ps).1.isSeated = self.isSeated ∧
        (self.Draw now o seats idx ps).2 = seats) ∨
      (self.isSeated = false ∧ (self.Draw now o seats idx ps).1.isSeated = true ∧
        (self.Draw now o seats idx ps).2 = seats.SetOccupied self.myseat ∧
        self.isBoarded = true ∧ self.isMoving = false ∧
        now - self.waitStart ≥ self.waitDuration)) := by
  unfold Passenger.Draw
  dsimp only
  split_ifs with h1 h2 h3 h4 h5
  · exact ⟨rfl, fun h => h, Or.inl ⟨rfl, rfl⟩⟩
  · exact ⟨rfl, fun h => h, Or.inl ⟨rfl, rfl⟩⟩
  · exact ⟨rfl, fun h => h, Or.inl ⟨rfl, rfl⟩⟩
  · exact ⟨rfl, fun h => h, Or.inl ⟨rfl, rfl⟩⟩
  · have hin : self.InIsle = true := by simpa using h1
    unfold Passenger.InIsle at hin
    simp only [Bool.and_eq_true, Bool.not_eq_true'] at hin
    exact ⟨rfl, fun _ => rfl, Or.inr ⟨hin.2, rfl, rfl, hin.1, by simpa using h2, h5⟩⟩
  · exact ⟨rfl, fun h => h, Or.inl ⟨rfl, rfl⟩⟩

theorem set_getElem_same {α : Type} (l : List α) (i : Nat) (hi : i < l.length) (a : α)
    (h : l[i] = a) : l.set i a = l := by
  apply List.ext_getElem?
  intro k
  rw [List.getElem?_set]
  split_ifs with h1
  · subst h1; rw [List.getElem?_eq_getElem hi, h]
  · rfl

theorem drawPassenger_myseats (clock : Nat → ℚ) (o : Vector2f)
    (st : List Passenger × SeatGrid) (i : Nat) :
    (Plane.drawPassenger clock o st i).1.map (fun q => q.myseat) =
      st.1.map (fun q => q.myseat) := by
  unfold Plane.drawPassenger
  cases hget : st.1[i]? with
  | none => rfl
  | some q =>
    obtain ⟨hi, hq⟩ := List.getElem?_eq_some.1 hget
    simp only [List.map_set]
    apply set_getElem_same _ _ (by simpa using hi)
    rw [List.getElem_map, hq, (Passenger.Draw_seating q (clock i) o st.2 i st.1).1]

theorem Plane.Draw_myseats (p : Plane) (clock : Nat → ℚ) :
    (p.Draw clock).passengers.map (fun q => q.myseat) = p.passengers.map (fun q => q.myseat) :=
  foldl_drawPassenger_keeps clock
    (Plane.drawSeats 0 p.seats Plane.START_Y p.isleOrigin).2
    (fun st => st.1.map (fun q => q.myseat) = p.passengers.map (fun q => q.myseat))
    (fun st i h => (drawPassenger_myseats clock _ st i).trans h)
    (List.range p.passengers.length)
    (p.passengers, (Plane.drawSeats 0 p.seats Plane.START_Y p.isleOrigin).1) rfl

theorem Plane.Board_myseats (p : Plane) (i : Nat) :
    (p.Board i).2.passengers.map (fun q => q.myseat) = p.passengers.map (fun q => q.myseat) ∧
      (p.Board i).2.passengers.map (fun q => q.isSeated) =
        p.passengers.map (fun q => q.isSeated) := by
  unfold Plane.Board
  split_ifs
  · exact ⟨rfl, rfl⟩
  · constructor <;>
    · apply List.ext_getElem?
      intro k
      simp only [List.getElem?_map, List.getElem?_modify]
      cases p.passengers[k]? with
      | none => rfl
      | some q =>
        simp only [Option.map_some', Option.some.injEq]
        split_ifs <;> rfl

theorem Reachable.cells {p : Plane} {t : ℚ} {established : Bool}
    (h : Reachable p t established) :
    (p.passengers.map (fun q => q.myseat)).Nodup ∧
      ∀ cell, p.seats.InGrid cell ↔ cell ∈ p.passengers.map (fun q => q.myseat) := by
  induction h with
  | init params noRows noSeats p order t hnew hperm =>
    obtain ⟨h1, h2⟩ := Plane.new_cells params noRows noSeats p hnew
    have hp : (order.map (fun q => q.myseat)).Perm (p.passengers.map (fun q => q.myseat)) :=
      hperm.map _
    exact ⟨hp.nodup_iff.2 h1, fun cell => (h2 cell).trans hp.mem_iff.symm⟩
  | draw p t established clock _ ht hmono ih =>
    rw [Plane.Draw_myseats]
    exact ⟨ih.1, fun cell => (inGrid_of_shape_eq (Plane.Draw_shape p clock) cell).trans
      (ih.2 cell)⟩
  | board p t established i hi _ hnb ih =>
    rw [(Plane.Board_myseats p i).1, (Plane.Board_fields p i).1]
    exact ih

/-! ### Occupancy flags -/

theorem drawRowSeats_occ (row size : Nat) (seatY : ℚ) (l : List Seat) :
    ∀ (seatNo : Nat) (seatX : ℚ) (o : Vector2f),
      (Plane.drawRowSeats row size seatY seatNo l seatX o).1.map Seat.isOccupied =
        l.map Seat.isOccupied := by
  induction l with
  | nil => intro seatNo seatX o; rfl
  | cons a rest ih =>
    intro seatNo seatX o
    unfold Plane.drawRowSeats
    simp only []
    split_ifs <;> simp only [List.map_cons, ih] <;> rfl

theorem drawSeats_occ (seats : SeatGrid) :
    ∀ (row : Nat) (seatY : ℚ) (o : Vector2f),
      (Plane.drawSeats row seats seatY o).1.map (List.map Seat.isOccupied) =
        seats.map (List.map Seat.isOccupied) := by
  induction seats with
  | nil => intro row seatY o; rfl
  | cons a rest ih =>
    intro row seatY o
    unfold Plane.drawSeats
    simp only [List.map_cons]
    rw [ih, drawRowSeats_occ]

theorem deref_isOccupied (seats : SeatGrid) (cell : Nat × Nat) :
    (seats.deref cell).isOccupied =
      ((seats.map (List.map Seat.isOccupied)).getD cell.1 []).getD cell.2 false := by
  unfold SeatGrid.deref
  simp only [List.getD_eq_getElem?_getD, List.getElem?_map]
  cases seats[cell.1]? with
  | none => rfl
  | some rs =>
    simp only [Option.getD_some, Option.map_some', List.getElem?_map]
    cases rs[cell.2]? with
    | none => rfl
    | some s => rfl

theorem drawSeats_deref_isOccupied (seats : SeatGrid) (row : Nat) (seatY : ℚ) (o : Vector2f)
    (cell : Nat × Nat) :
    ((Plane.drawSeats row seats seatY o).1.deref cell).isOccupied =
      (seats.deref cell).isOccupied := by
  rw [deref_isOccupied, deref_isOccupied, drawSeats_occ]

theorem SetOccupied_deref_ne (seats : SeatGrid) (cell c : Nat × Nat) (hne : cell ≠ c) :
    (seats.SetOccupied cell).deref c = seats.deref c := by
  unfold SeatGrid.deref
  simp only [List.getD_eq_getElem?_getD, SetOccupied_getElem?]
  cases seats[c.1]? with
  | none => rfl
  | some rs =>
    simp only [Option.map_some', Option.getD_some]
    by_cases h1 : cell.1 = c.1
    · rw [if_pos h1, List.getElem?_modify]
      have h2 : cell.2 ≠ c.2 := fun h2 => hne (Prod.ext h1 h2)
      cases rs[c.2]? with
      | none => rfl
      | some s => simp [h2]
    · rw [if_neg h1]

theorem SetOccupied_deref_self (seats : SeatGrid) (c : Nat × Nat) (hg : seats.InGrid c) :
    ((seats.SetOccupied c).deref c).isOccupied = true := by
  obtain ⟨rs, hrs, hc⟩ := hg
  unfold SeatGrid.deref
  simp only [List.getD_eq_getElem?_getD, SetOccupied_getElem?, hrs, Option.map_some',
    if_true, Option.getD_some, List.getElem?_modify, List.getElem?_eq_getElem hc]
  rfl

theorem SetOccupied_deref_mono (seats : SeatGrid) (cell c : Nat × Nat)
    (h : (seats.deref c).isOccupied = true) :
    ((seats.SetOccupied cell).deref c).isOccupied = true := by
  by_cases hne : cell = c
  · subst hne
    by_cases hg : seats.InGrid cell
    · exact SetOccupied_deref_self seats cell hg
    · exfalso
      have : (seats.deref cell).isOccupied = false := by
        unfold SeatGrid.deref
        simp only [List.getD_eq_getElem?_getD]
        cases hrs : seats[cell.1]? with
        | none => rfl
        | some rs =>
          simp only [Option.getD_some]
          cases hs : rs[cell.2]? with
          | none => rfl
          | some s =>
            exact absurd ⟨rs, hrs, (List.getElem?_eq_some.1 hs).1⟩ hg
      rw [this] at h
      exact Bool.noConfusion h
  · rw [SetOccupied_deref_ne seats cell c hne]
    exact h

theorem occupancy_iff (st : List Passenger × SeatGrid) :
    Occupancy st ↔
      (st.1.map (fun q => q.myseat)).map (fun c => (st.2.deref c).isOccupied) =
        st.1.map (fun q => q.isSeated) := by
  unfold Occupancy
  rw [List.map_map]
  constructor
  · intro h
    apply List.ext_getElem (by simp)
    intro k h1 h2
    simp only [List.getElem_map, Function.comp]
    exact h k (by simpa using h1)
  · intro h i hi
    have := congrArg (fun l => l[i]?) h
    simp only [List.getElem?_map, List.getElem?_eq_getElem hi, Option.map_some',
      Function.comp, Option.some.injEq] at this
    exact this

theorem drawPassenger_occ (clock : Nat → ℚ) (o : Vector2f) (T : ℚ)
    (st : List Passenger × SeatGrid) (i : Nat) (h : SimInv o T st)
    (hnd : (st.1.map (fun q => q.myseat)).Nodup) (hocc : Occupancy st) :
    Occupancy (Plane.drawPassenger clock o st i) := by
  unfold Plane.drawPassenger
  cases hget : st.1[i]? with
  | none => exact hocc
  | some q =>
    obtain ⟨hi, hq⟩ := List.getElem?_eq_some.1 hget
    obtain ⟨hm, -, hcase⟩ := Passenger.Draw_seating q (clock i) o st.2 i st.1
    have hoi := hocc i hi
    simp only [List.get_eq_getElem] at hoi
    rw [hq] at hoi
    intro k hk
    simp only [List.get_eq_getElem, List.getElem_set]
    have hk' : k < st.1.length := by simpa using hk
    rcases hcase with ⟨hs, hseats⟩ | ⟨hs0, hs1, hseats, -, -, -⟩
    · rw [hseats]
      split_ifs with hik
      · rw [hm, hs]; exact hoi
      · have := hocc k hk'
        simpa only [List.get_eq_getElem] using this
    · rw [hseats]
      split_ifs with hik
      · rw [hm, hs1]
        have hg := (h.each _ (List.getElem_mem hi)).grid
        rw [hq] at hg
        exact SetOccupied_deref_self _ _ hg
      · have hne : q.myseat ≠ st.1[k].myseat := by
          intro heq
          have hi2 : i < (st.1.map (fun q => q.myseat)).length := by simpa using hi
          have hk2 : k < (st.1.map (fun q => q.myseat)).length := by simpa using hk'
          have h1 : (st.1.map (fun q => q.myseat))[i] = (st.1.map (fun q => q.myseat))[k] := by
            rw [List.getElem_map, List.getElem_map, hq]
            exact heq
          exact hik ((hnd.getElem_inj_iff).1 h1)
        rw [SetOccupied_deref_ne _ _ _ hne]
        have := hocc k hk'
        simpa only [List.get_eq_getElem] using this

theorem drawPassengers_occ (clock : Nat → ℚ) (hmono : Monotone clock) (o : Vector2f)
    (st : List Passenger × SeatGrid) (T : ℚ) (h : SimInv o T st) (hT : T ≤ clock 0)
    (hnd : (st.1.map (fun q => q.myseat)).Nodup) (hocc : Occupancy st) (n : Nat) :
    Occupancy ((List.range n).foldl (Plane.drawPassenger clock o) st) ∧
      ((List.range n).foldl (Plane.drawPassenger clock o) st).1.map (fun q => q.myseat) =
        st.1.map (fun q => q.myseat) := by
  induction n with
  | zero => exact ⟨hocc, rfl⟩
  | succ n ih =>
    rw [List.range_succ, List.foldl_append, List.foldl_cons, List.foldl_nil]
    have hinv := drawPassengers_inv clock hmono o st T h hT n
    refine ⟨drawPassenger_occ clock o (clock n) _ n hinv (by rw [ih.2]; exact hnd) ih.1, ?_⟩
    rw [drawPassenger_myseats, ih.2]

theorem Plane.Draw_occ (p : Plane) (t : ℚ) (clock : Nat → ℚ)
    (h : SimInv p.isleOrigin t (p.passengers, p.seats)) (ht : t ≤ clock 0)
    (hmono : Monotone clock) (hnd : (p.passengers.map (fun q => q.myseat)).Nodup)
    (hocc : Occupancy (p.passengers, p.seats)) :
    Occupancy ((p.Draw clock).passengers, (p.Draw clock).seats) := by
  have h1 : Occupancy
      (p.passengers, (Plane.drawSeats 0 p.seats Plane.START_Y p.isleOrigin).1) := by
    intro k hk
    have := hocc k hk
    simp only [drawSeats_deref_isOccupied]
    exact this
  exact (drawPassengers_occ clock hmono _ _ t (Plane.drawSeats_inv p t h) ht hnd h1
    p.passengers.length).1

theorem Plane.Board_occ (p : Plane) (i : Nat) (hocc : Occupancy (p.passengers, p.seats)) :
    Occupancy ((p.Board i).2.passengers, (p.Board i).2.seats) := by
  rw [occupancy_iff] at hocc ⊢
  simp only []
  rw [(Plane.Board_myseats p i).1, (Plane.Board_myseats p i).2, (Plane.Board_fields p i).1]
  exact hocc

theorem Plane.new_occ (params : ModelParameters) (rows seatsPerRow : Int) (p : Plane)
    (order : List Passenger) (hnew : Plane.new params rows seatsPerRow = some p)
    (hperm : order.Perm p.passengers) : Occupancy (order, p.seats) := by
  unfold Plane.new at hnew
  split_ifs at hnew
  simp only [Option.some.injEq] at hnew
  subst hnew
  intro k hk
  have hmem : order.get ⟨k, hk⟩ ∈ order := List.get_mem _ _ _
  have := hperm.mem_iff.1 hmem
  simp only [List.mem_flatMap, List.mem_range, List.mem_map] at this
  obtain ⟨r, hr, c, hc, hq⟩ := this
  simp only []
  rw [← hq, deref_isOccupied]
  simp only [List.map_replicate, List.getD_eq_getElem?_getD, List.getElem?_replicate,
    Passenger.new]
  split_ifs
  simp [Seat.new]

theorem Reachable.occupancy {p : Plane} {t : ℚ} {established : Bool}
    (h : Reachable p t established) : Occupancy (p.passengers, p.seats) := by
  induction h with
  | init params noRows noSeats p order t hnew hperm =>
    exact Plane.new_occ params noRows noSeats p order hnew hperm
  | draw p t established clock hreach ht hmono ih =>
    exact Plane.Draw_occ p t clock hreach.inv.1 ht hmono hreach.cells.1 ih
  | board p t established i hi _ hnb ih =>
    exact Plane.Board_occ p i ih

theorem Plane.Draw_occupied_mono (p : Plane) (clock : Nat → ℚ) (cell : Nat × Nat)
    (h : (p.seats.deref cell).isOccupied = true) :
    ((p.Draw clock).seats.deref cell).isOccupied = true := by
  refine foldl_drawPassenger_keeps clock
    (Plane.drawSeats 0 p.seats Plane.START_Y p.isleOrigin).2
    (fun st => (st.2.deref cell).isOccupied = true) ?_
    (List.range p.passengers.length)
    (p.passengers, (Plane.drawSeats 0 p.seats Plane.START_Y p.isleOrigin).1)
    (by simp only [drawSeats_deref_isOccupied]; exact h)
  intro st i hst
  unfold Plane.drawPassenger
  cases st.1[i]? with
  | none => exact hst
  | some q =>
    simp only []
    rcases Passenger.Draw_seats q (clock i) _ st.2 i st.1 with e | e
    · rw [e]; exact hst
    · rw [e]; exact SetOccupied_deref_mono _ _ _ hst

theorem mem_of_getElem?_eq_some {α : Type} {xs : List α} {i : Nat} {a : α}
    (h : xs[i]? = some a) : a ∈ xs := by
  obtain ⟨hi, rfl⟩ := List.getElem?_eq_some.1 h
  exact List.getElem_mem hi

theorem occupancy_mem {ps : List Passenger} {seats : SeatGrid} (h : Occupancy (ps, seats))
    (q : Passenger) (hq : q ∈ ps) : (seats.deref q.myseat).isOccupied = q.isSeated := by
  obtain ⟨i, hi, rfl⟩ := List.mem_iff_getElem.1 hq
  exact h i hi

/-- C12. Single-occupancy invariant: in every reachable state a seat's flag is set exactly
when its passenger is seated; through every `Draw` the flag is set in the very call in which
the passenger becomes seated, its wait having elapsed; a set flag is never cleared; so
`SetOccupied` is called at most once on a seat. -/
theorem single_occupancy (p : Plane) (t : ℚ) (established : Bool)
    (h : Reachable p t established) (clock : Nat → ℚ) (ht : t ≤ clock 0)
    (hmono : Monotone clock) (j : Nat) :
    SingleOccupancy p clock j := by
  have hocc := h.occupancy
  have hocc' := (Reachable.draw p t established clock h ht hmono).occupancy
  have htrace := (Plane.Draw_trace p t clock h.inv.1 ht hmono
    (fun i a b => b.myseat = a.myseat ∧ (a.isSeated = true → b.isSeated = true) ∧
      (a.isSeated = false → b.isSeated = true →
        a.isBoarded = true ∧ a.isMoving = false ∧ clock i - a.waitStart ≥ a.waitDuration))
    (fun o st T i hi _ _ => by
      obtain ⟨f1, f2, f3⟩ := Passenger.Draw_seating st.1[i] (clock i) o st.2 i st.1
      refine ⟨f1, f2, fun h0 h1 => ?_⟩
      rcases f3 with ⟨hs, -⟩ | ⟨-, -, -, hb, hm, hw⟩
      · rw [hs, h0] at h1
        exact absurd h1 (by simp)
      · exact ⟨hb, hm, hw⟩)).2
  refine ⟨fun q hq => occupancy_mem hocc q hq, h.cells.1, h.cells.2,
    fun cell hc => Plane.Draw_occupied_mono p clock cell hc, (Plane.Board_fields p j).1, ?_⟩
  intro i q q' hq hq'
  obtain ⟨f1, f2, f3⟩ := htrace i q q' hq hq'
  have hflag := occupancy_mem hocc q (mem_of_getElem?_eq_some hq)
  have hflag' := occupancy_mem hocc' q' (mem_of_getElem?_eq_some hq')
  rw [f1] at hflag'
  refine ⟨f1, f2, by rw [hflag, hflag'], fun h0 h1 => ?_⟩
  obtain ⟨hb, hm, hw⟩ := f3 h0 h1
  exact ⟨by simp [Passenger.state, hb, h0, hm], hw⟩

/-- C12, witness: in the sample run the passenger of cell (1, 0), waiting since time 2, sits
down in the `Draw` at time 3, and the flag of its seat is set in that `Draw`. -/
theorem single_occupancy_witness :
    (Plane.run4.seats.deref (1, 0)).isOccupied = false ∧
      (Plane.run5.seats.deref (1, 0)).isOccupied = true ∧
      (Plane.run4.passengers.map (fun q => q.isSeated)) = [false, false, false, false] ∧
      (Plane.run5.passengers.map (fun q => q.isSeated)) = [false, false, true, false] ∧
      SingleOccupancy Plane.run4 (fun _ => 3) 0 :=
  ⟨by decide!, by decide!, by decide!, by decide!,
    single_occupancy Plane.run4 2 true run4_reachable (fun _ => 3) (by norm_num)
      monotone_const 0⟩

/-! ### The host loop -/

theorem drawPassenger_idle (clock : Nat → ℚ) (o : Vector2f) (st : List Passenger × SeatGrid)
    (i : Nat) (h : ∀ q ∈ st.1, q.InIsle = false) :
    Plane.drawPassenger clock o st i = st := by
  unfold Plane.drawPassenger
  cases hget : st.1[i]? with
  | none => rfl
  | some q =>
    obtain ⟨hi, hq⟩ := List.getElem?_eq_some.1 hget
    have hin := h q (mem_of_getElem?_eq_some hget)
    have hd : q.Draw (clock i) o st.2 i st.1 = (q, st.2) := by
      unfold Passenger.Draw
      rw [if_pos (by simp [hin])]
    simp only [hd]
    rw [set_getElem_same _ _ hi _ hq]

theorem Plane.Draw_idle (p : Plane) (clock : Nat → ℚ) (h : ∀ q ∈ p.passengers, q.InIsle = false) :
    (p.Draw clock).passengers = p.passengers := by
  have key := foldl_drawPassenger_keeps clock
    (Plane.drawSeats 0 p.seats Plane.START_Y p.isleOrigin).2
    (fun st => st.1 = p.passengers)
    (fun st i hst => by
      rw [drawPassenger_idle clock _ st i (by rw [hst]; exact h)]
      exact hst)
    (List.range p.passengers.length)
    (p.passengers, (Plane.drawSeats 0 p.seats Plane.START_Y p.isleOrigin).1) rfl
  exact key

theorem Host.step_single (h : Host) (clock : Nat → ℚ) (b : Bool)
    (ho : h.plane.isleOrigin = ⟨0, 0⟩) (hs : ∀ rs ∈ h.plane.seats, rs.length ≤ 1)
    (hp : ∀ q ∈ h.plane.passengers, q.isBoarded = false) :
    (h.step clock b).plane.isleOrigin = ⟨0, 0⟩ ∧
      (∀ rs ∈ (h.step clock b).plane.seats, rs.length ≤ 1) ∧
      (h.step clock b).plane.passengers = h.plane.passengers := by
  have hidle : ∀ q ∈ h.plane.passengers, q.InIsle = false :=
    fun q hq => not_InIsle_of_not_boarded (hp q hq)
  have hps := Plane.Draw_idle h.plane clock hidle
  have hor : (h.plane.Draw clock).isleOrigin = ⟨0, 0⟩ := by
    have := drawSeats_origin_never h.plane.seats 0 Plane.START_Y h.plane.isleOrigin hs
    exact this.trans ho
  have hsh : ∀ rs ∈ (h.plane.Draw clock).seats, rs.length ≤ 1 := by
    intro rs hrs
    have h1 : rs.length ∈ (h.plane.Draw clock).seats.map List.length :=
      List.mem_map_of_mem _ hrs
    rw [Plane.Draw_shape] at h1
    obtain ⟨rs', hrs', he⟩ := List.mem_map.1 h1
    rw [← he]
    exact hs rs' hrs'
  have hcan : (h.plane.Draw clock).CanBoard = false := by
    unfold Plane.CanBoard
    rw [if_pos (by rw [hor]; exact ⟨rfl, rfl⟩)]
  have hb : ∀ i, (h.plane.Draw clock).Board i = (some false, h.plane.Draw clock) := by
    intro i
    unfold Plane.Board
    rw [if_pos (by simp [hcan])]
  unfold Host.step
  simp only [hb]
  split_ifs <;> exact ⟨hor, hsh, hps⟩

theorem Passenger.Draw_early (self : Passenger) (now : ℚ) (o : Vector2f) (seats : SeatGrid)
    (idx : Nat) (ps : List Passenger) (h0 : 0 ≤ now) (h1 : now < 1 / 20)
    (h : self.isSeated = false ∧ 0 ≤ self.waitStart ∧ 1 / 20 ≤ self.waitDuration) :
    (self.Draw now o seats idx ps).1.isSeated = false ∧
      0 ≤ (self.Draw now o seats idx ps).1.waitStart ∧
      1 / 20 ≤ (self.Draw now o seats idx ps).1.waitDuration := by
  obtain ⟨hs, hw, hd⟩ := h
  unfold Passenger.Draw
  dsimp only
  split_ifs with c1 c2 c3 c4 c5
  · exact ⟨hs, hw, hd⟩
  · exact ⟨hs, h0, hd⟩
  · exact ⟨hs, hw, hd⟩
  · exact ⟨hs, hw, hd⟩
  · exfalso
    have : self.waitDuration ≤ now - self.waitStart := c5
    linarith
  · exact ⟨hs, hw, hd⟩

theorem mem_modify {α : Type} (f : α → α) (l : List α) (i : Nat) (a : α)
    (h : a ∈ l.modify f i) : a ∈ l ∨ ∃ b ∈ l, a = f b := by
  obtain ⟨k, hk, rfl⟩ := List.mem_iff_getElem.1 h
  have hk' : k < l.length := by simpa using hk
  rw [List.getElem_modify]
  split_ifs
  · exact Or.inr ⟨l[k], List.getElem_mem hk', rfl⟩
  · exact Or.inl (List.getElem_mem hk')

theorem Host.step_early (h : Host) (clock : Nat → ℚ) (b : Bool)
    (h0 : ∀ i, 0 ≤ clock i) (h1 : ∀ i, clock i < 1 / 20)
    (hp : ∀ q ∈ h.plane.passengers,
      q.isSeated = false ∧ 0 ≤ q.waitStart ∧ 1 / 20 ≤ q.waitDuration) :
    (h.step clock b).plane.passengers.length = h.plane.passengers.length ∧
      ∀ q ∈ (h.step clock b).plane.passengers,
        q.isSeated = false ∧ 0 ≤ q.waitStart ∧ 1 / 20 ≤ q.waitDuration := by
  have hdraw : (h.plane.Draw clock).passengers.length = h.plane.passengers.length ∧
      ∀ q ∈ (h.plane.Draw clock).passengers,
        q.isSeated = false ∧ 0 ≤ q.waitStart ∧ 1 / 20 ≤ q.waitDuration := by
    have key := foldl_drawPassenger_keeps clock
      (Plane.drawSeats 0 h.plane.seats Plane.START_Y h.plane.isleOrigin).2
      (fun st => st.1.length = h.plane.passengers.length ∧ ∀ q ∈ st.1,
        q.isSeated = false ∧ 0 ≤ q.waitStart ∧ 1 / 20 ≤ q.waitDuration)
      (fun st i hst => by
        refine ⟨by rw [drawPassenger_length]; exact hst.1, ?_⟩
        unfold Plane.drawPassenger
        cases hget : st.1[i]? with
        | none => exact hst.2
        | some q =>
          intro a ha
          rcases List.mem_or_eq_of_mem_set ha with ha | ha
          · exact hst.2 a ha
          · rw [ha]
            exact Passenger.Draw_early q (clock i) _ st.2 i st.1 (h0 i) (h1 i)
              (hst.2 q (mem_of_getElem?_eq_some hget)))
      (List.range h.plane.passengers.length)
      (h.plane.passengers, (Plane.drawSeats 0 h.plane.seats Plane.START_Y h.plane.isleOrigin).1)
      ⟨rfl, hp⟩
    exact key
  have hboard : ∀ i, ((h.plane.Draw clock).Board i).2.passengers.length =
        h.plane.passengers.length ∧
      ∀ q ∈ ((h.plane.Draw clock).Board i).2.passengers,
        q.isSeated = false ∧ 0 ≤ q.waitStart ∧ 1 / 20 ≤ q.waitDuration := by
    intro i
    unfold Plane.Board
    split_ifs
    · exact hdraw
    · refine ⟨by simp only [List.length_modify]; exact hdraw.1, fun q hq => ?_⟩
      rcases mem_modify _ _ _ _ hq with hq | ⟨a, ha, rfl⟩
      · exact hdraw.2 q hq
      · exact hdraw.2 a ha
  unfold Host.step
  dsimp only
  split_ifs
  · exact hboard _
  · exact hboard _
  · exact hdraw

/-- C15, counterexample. (1) The plane of one row of one seat, whatever the clock: no `Draw`
sets the aisle origin, `CanBoard` stays false, nobody boards, and after no number of
iterations of the host loop is every passenger seated. (2) The plane of two rows of two
seats under a clock whose readings increase strictly from iteration to iteration and stay
below 1/20, the least wait duration: after no number of iterations is every passenger
seated. -/
theorem host_loop_never_all_seated :
    (∀ (clock : Nat → Nat → ℚ) (reads : Nat → Bool) (n : Nat),
      ((Host.start Plane.single).run clock reads n).plane.allSeated = false) ∧
    ((∀ n i j, zenoClock n i < zenoClock (n + 1) j) ∧ (∀ n, Monotone (zenoClock n)) ∧
      ∀ (reads : Nat → Bool) (n : Nat),
        ((Host.start Plane.start).run zenoClock reads n).plane.allSeated = false) := by
  refine ⟨fun clock reads n => ?_, ?_, fun n => monotone_const, fun reads n => ?_⟩
  · have inv : ((Host.start Plane.single).run clock reads n).plane.isleOrigin = ⟨0, 0⟩ ∧
        (∀ rs ∈ ((Host.start Plane.single).run clock reads n).plane.seats, rs.length ≤ 1) ∧
        ((Host.start Plane.single).run clock reads n).plane.passengers =
          Plane.single.passengers := by
      induction n with
      | zero =>
        have hs : ∀ rs ∈ Plane.single.seats, rs.length ≤ 1 := by decide
        exact ⟨rfl, hs, rfl⟩
      | succ n ih =>
        obtain ⟨i1, i2, i3⟩ := ih
        have := Host.step_single _ (clock n) (reads n) i1 i2 (by rw [i3]; decide)
        exact ⟨this.1, this.2.1, this.2.2.trans i3⟩
    unfold Plane.allSeated
    rw [inv.2.2]
    rfl
  · intro n i j
    unfold zenoClock
    have h1 : (0 : ℚ) < 20 * ((n : ℚ) + 1) := by positivity
    have h2 : (0 : ℚ) < 20 * (((n + 1 : Nat) : ℚ) + 1) := by positivity
    have h3 : 1 / (20 * (((n + 1 : Nat) : ℚ) + 1)) < 1 / (20 * ((n : ℚ) + 1)) := by
      apply one_div_lt_one_div_of_lt h1
      push_cast
      linarith
    linarith
  · have inv : ((Host.start Plane.start).run zenoClock reads n).plane.passengers.length =
          Plane.start.passengers.length ∧
        ∀ q ∈ ((Host.start Plane.start).run zenoClock reads n).plane.passengers,
          q.isSeated = false ∧ 0 ≤ q.waitStart ∧ 1 / 20 ≤ q.waitDuration := by
      induction n with
      | zero =>
        have hs : ∀ q ∈ Plane.start.passengers,
            q.isSeated = false ∧ 0 ≤ q.waitStart ∧ 1 / 20 ≤ q.waitDuration := by decide!
        exact ⟨rfl, hs⟩
      | succ n ih =>
        have h0 : ∀ i, 0 ≤ zenoClock n i := by
          intro i
          unfold zenoClock
          have h1 : (0 : ℚ) < 20 * ((n : ℚ) + 1) := by positivity
          have : 1 / (20 * ((n : ℚ) + 1)) ≤ 1 / 20 := by
            apply one_div_le_one_div_of_le (by norm_num)
            have : (0 : ℚ) ≤ n := Nat.cast_nonneg n
            linarith
          linarith
        have h1 : ∀ i, zenoClock n i < 1 / 20 := by
          intro i
          unfold zenoClock
          have h1 : (0 : ℚ) < 1 / (20 * ((n : ℚ) + 1)) := by positivity
          linarith
        have := Host.step_early _ (zenoClock n) (reads n) h0 h1 ih.2
        exact ⟨this.1.trans ih.1, this.2⟩
    unfold Plane.allSeated
    rw [Bool.eq_false_iff]
    intro hall
    rw [List.all_eq_true] at hall
    have hlen : 0 < ((Host.start Plane.start).run zenoClock reads n).plane.passengers.length := by
      rw [inv.1]; decide
    have hmem := List.getElem_mem hlen
    have h1 := hall _ hmem
    have h2 := (inv.2 _ hmem).1
    rw [h2] at h1
    exact absurd h1 (by simp)

/-! ### The boarding queue -/

theorem Passenger.Draw_cases (self : Passenger) (now : ℚ) (o : Vector2f) (seats : SeatGrid)
    (idx : Nat) (ps : List Passenger) (r : Passenger)
    (hr : (self.Draw now o seats idx ps).1 = r) :
    r.myseat = self.myseat ∧ r.yVelocity = self.yVelocity ∧
    r.waitDuration = self.waitDuration ∧ r.isBoarded = self.isBoarded ∧
    (self.isSeated = true → r.isSeated = true) ∧
    (r.isSeated = true → self.isSeated = true ∨ self.isBoarded = true) ∧
    (self.isMoving = false → r.isMoving = false ∧ r.waitStart = self.waitStart) ∧
    (r.isMoving = false → self.isMoving = false ∨ r.waitStart = now) ∧
    (self.InIsle = true → self.isMoving = true →
      r.InIsle = true ∧ r.hasMovedOnce = true ∧
      (self.hasMovedOnce = false → r.isMoving = true) ∧
      (self.hasMovedOnce = true → r.isMoving = false ∨
        (r.isMoving = true ∧ r.isleY = self.isleY +
          self.capYToMove idx 0 ps ((now - self.lastMove) * self.yVelocity)))) ∧
    (self.InIsle = true → self.isMoving = false →
      (self.waitStart + self.waitDuration ≤ now → r.isSeated = true) ∧
      (r.isSeated = true ∨ r.InIsle = true)) := by
  subst hr
  unfold Passenger.Draw
  dsimp only
  split_ifs with c1 c2 c3 c4 c5
  · have hin : self.InIsle = false := by simpa using c1
    refine ⟨rfl, rfl, rfl, rfl, id, Or.inl, fun h => ⟨h, rfl⟩, Or.inl, ?_, ?_⟩
    · intro h; rw [hin] at h; exact absurd h (by simp)
    · intro h; rw [hin] at h; exact absurd h (by simp)
  · have hin : self.InIsle = true := by simpa using c1
    refine ⟨rfl, rfl, rfl, rfl, id, Or.inl, ?_, fun _ => Or.inr rfl, ?_, ?_⟩
    · intro h; rw [c2] at h; exact absurd h (by simp)
    · intro _ _
      refine ⟨hin, rfl, fun h => ?_, fun _ => Or.inl rfl⟩
      rw [c3] at h; exact absurd h (by simp)
    · intro _ h; rw [c2] at h; exact absurd h (by simp)
  · have hin : self.InIsle = true := by simpa using c1
    refine ⟨rfl, rfl, rfl, rfl, id, Or.inl, ?_, ?_, ?_, ?_⟩
    · intro h; rw [c2] at h; exact absurd h (by simp)
    · intro h
      have : self.isMoving = false := h
      rw [c2] at this; exact absurd this (by simp)
    · intro _ _
      refine ⟨hin, rfl, fun h => ?_, fun _ => Or.inr ⟨c2, rfl⟩⟩
      rw [c3] at h; exact absurd h (by simp)
    · intro _ h; rw [c2] at h; exact absurd h (by simp)
  · have hin : self.InIsle = true := by simpa using c1
    refine ⟨rfl, rfl, rfl, rfl, id, Or.inl, ?_, ?_, ?_, ?_⟩
    · intro h; rw [c2] at h; exact absurd h (by simp)
    · intro h
      have : self.isMoving = false := h
      rw [c2] at this; exact absurd this (by simp)
    · intro _ _
      exact ⟨hin, rfl, fun _ => c2, fun h => absurd h c3⟩
    · intro _ h; rw [c2] at h; exact absurd h (by simp)
  · have hin : self.InIsle = true := by simpa using c1
    have hm : self.isMoving = false := by simpa using c2
    have hb : self.isBoarded = true := by
      unfold Passenger.InIsle at hin; simp at hin; exact hin.1
    refine ⟨rfl, rfl, rfl, rfl, fun _ => rfl, fun _ => Or.inr hb, fun h => ⟨h, rfl⟩,
      fun _ => Or.inl hm, ?_, ?_⟩
    · intro _ h; rw [hm] at h; exact absurd h (by simp)
    · intro _ _
      exact ⟨fun _ => rfl, Or.inl rfl⟩
  · have hin : self.InIsle = true := by simpa using c1
    have hm : self.isMoving = false := by simpa using c2
    refine ⟨rfl, rfl, rfl, rfl, id, Or.inl, fun h => ⟨h, rfl⟩, Or.inl, ?_, ?_⟩
    · intro _ h; rw [hm] at h; exact absurd h (by simp)
    · intro _ _
      refine ⟨fun h => ?_, Or.inr hin⟩
      exfalso
      apply c5
      show self.waitDuration ≤ now - self.waitStart
      linarith

theorem Queue.advance_time {next : Nat} {T T' : ℚ} {ps : List Passenger} (h : Queue next T ps)
    (hT : T ≤ T') : Queue next T' ps :=
  { boarded := h.boarded, ordered := h.ordered, vel := h.vel, seated := h.seated,
    wait := fun q hq hm => le_trans (h.wait q hq hm) hT }

theorem drawPassenger_queue (clock : Nat → ℚ) (o : Vector2f) (T : ℚ)
    (st : List Passenger × SeatGrid) (i : Nat) (next : Nat) (h : SimInv o T st)
    (hq : Queue next T st.1) (hT : T ≤ clock i) :
    Queue next (clock i) (Plane.drawPassenger clock o st i).1 := by
  unfold Plane.drawPassenger
  cases hget : st.1[i]? with
  | none => exact hq.advance_time hT
  | some self =>
    obtain ⟨hi, hself⟩ := List.getElem?_eq_some.1 hget
    subst hself
    have hest : st.1[i].InIsle = true → o.y = Plane.START_Y ∧ st.2.Drawn := by
      intro hin
      rcases h.origin with ⟨-, hall⟩ | hd
      · rw [not_InIsle_of_not_boarded (hall _ (List.getElem_mem hi))] at hin
        exact absurd hin (by simp)
      · exact hd
    obtain ⟨-, -, f3, -⟩ := Passenger.Draw_facts st.1 i hi o T (clock i) st.2
      (h.each _ (List.getElem_mem hi)) hest h.gap hT
    obtain ⟨-, c2, -, c4, -, c6, c7, c8, -, -⟩ :=
      Passenger.Draw_cases st.1[i] (clock i) o st.2 i st.1 _ rfl
    have hr : (0 : ℚ) ≤ 2 * Passenger.GetRadius + 1 := by norm_num [Passenger.GetRadius]
    show Queue next (clock i) (st.1.set i (st.1[i].Draw (clock i) o st.2 i st.1).1)
    generalize (st.1[i].Draw (clock i) o st.2 i st.1).1 = r at f3 c2 c4 c6 c7 c8 ⊢
    refine ⟨?_, ?_, ?_, ?_, ?_⟩
    · intro a ha
      have ha' : a < st.1.length := by simpa using ha
      rw [List.getElem_set]
      split_ifs with e
      · subst e; rw [c4]; exact hq.boarded i hi
      · exact hq.boarded a ha'
    · intro a b ha hb hab hina hinb
      have ha' : a < st.1.length := by simpa using ha
      have hb' : b < st.1.length := by simpa using hb
      rw [List.getElem_set] at hina hinb ⊢
      rw [List.getElem_set]
      by_cases hai : i = a
      · subst hai
        have hbi : ¬ i = b := by omega
        simp only [↓reduceIte, hbi] at hina hinb ⊢
        obtain ⟨g1, g2, -⟩ := f3 hina
        exact le_trans (hq.ordered i b hi hb' hab g1 hinb) g2
      · by_cases hbi : i = b
        · subst hbi
          simp only [↓reduceIte, hai] at hina hinb ⊢
          obtain ⟨g1, -, g3⟩ := f3 hinb
          have := g3 a ha' (Ne.symm hai) hina (hq.ordered a i ha' hi hab hina g1)
          linarith
        · simp only [hai, hbi, ↓reduceIte] at hina hinb ⊢
          exact hq.ordered a b ha' hb' hab hina hinb
    · intro q hmem
      rcases List.mem_or_eq_of_mem_set hmem with hmem | hmem
      · exact hq.vel q hmem
      · rw [hmem, c2]; exact hq.vel _ (List.getElem_mem hi)
    · intro q hmem hs
      rcases List.mem_or_eq_of_mem_set hmem with hmem | hmem
      · exact hq.seated q hmem hs
      · subst hmem
        rw [c4]
        rcases c6 hs with g | g
        · exact hq.seated _ (List.getElem_mem hi) g
        · exact g
    · intro q hmem hm
      rcases List.mem_or_eq_of_mem_set hmem with hmem | hmem
      · exact le_trans (hq.wait q hmem hm) hT
      · subst hmem
        rcases c8 hm with g | g
        · rw [(c7 g).2]
          exact le_trans (hq.wait _ (List.getElem_mem hi) g) hT
        · rw [g]

theorem drawPassenger_front (clock : Nat → ℚ) (o : Vector2f) (st : List Passenger × SeatGrid)
    (i k : Nat) (h : Front k st.1) : Front k (Plane.drawPassenger clock o st i).1 := by
  unfold Plane.drawPassenger
  cases hget : st.1[i]? with
  | none => exact h
  | some self =>
    obtain ⟨hi, hself⟩ := List.getElem?_eq_some.1 hget
    subst hself
    intro j hj hjk
    have hj' : j < st.1.length := by simpa using hj
    show (st.1.set i _)[j].isSeated = true
    rw [List.getElem_set]
    split_ifs with e
    · subst e
      exact (Passenger.Draw_seating st.1[i] (clock i) o st.2 i st.1).2.1 (h i hi hjk)
    · exact h j hj' hjk

theorem capYToMove_front (ps : List Passenger) (k : Nat) (hk : k < ps.length) (next : Nat)
    (T : ℚ) (hgap : Gap ps) (hq : Queue next T ps) (hfront : Front k ps)
    (hin : ps[k].InIsle = true) (y : ℚ) :
    ps[k].capYToMove k 0 ps y = y := by
  obtain ⟨h1, -, h3⟩ := capYToMove_spec ps[k] k ps 0 y
  refine le_antisymm h1 (h3 y (le_refl _) ?_)
  intro j hj hne hjin hle
  exfalso
  simp only [Nat.zero_add] at hne
  have hr : (0 : ℚ) < 2 * Passenger.GetRadius + 1 := by norm_num [Passenger.GetRadius]
  rcases Nat.lt_or_gt_of_ne hne with hlt | hgt
  · have hs := hfront j hj hlt
    unfold Passenger.InIsle at hjin
    rw [hs] at hjin
    simp at hjin
  · have h1 := hq.ordered k j hk hj hgt hin hjin
    have h2 := hgap j k hj hk hne hjin hin h1
    linarith

theorem Live.advance_clock {o : Vector2f} {next k : Nat} {T T' : ℚ} {st : List Passenger × SeatGrid}
    (h : Live o next k T st) (hT : T ≤ T') : Live o next k T' st :=
  ⟨h.1.later hT, h.2.1.advance_time hT, h.2.2⟩

theorem drawPassenger_live (clock : Nat → ℚ) (o : Vector2f) (next k : Nat) (T : ℚ)
    (st : List Passenger × SeatGrid) (i : Nat) (h : Live o next k T st) (hT : T ≤ clock i) :
    Live o next k (clock i) (Plane.drawPassenger clock o st i) :=
  ⟨drawPassenger_inv clock o T st i h.1 hT, drawPassenger_queue clock o T st i next h.1 h.2.1 hT,
    drawPassenger_front clock o st i k h.2.2⟩

theorem Passenger.Draw_advance (clock : Nat → ℚ) (o : Vector2f) (next k : Nat) (T : ℚ)
    (st : List Passenger × SeatGrid) (i : Nat) (hi : i < st.1.length)
    (h : Live o next k T st) :
    Passenger.Advance (clock i) (i = k) st.1[i] (st.1[i].Draw (clock i) o st.2 i st.1).1 := by
  obtain ⟨c1, c2, c3, c4, c5, -, c7, -, c9, c10⟩ :=
    Passenger.Draw_cases st.1[i] (clock i) o st.2 i st.1 _ rfl
  refine ⟨c1, c2, c3, c4, c5, ?_, ?_⟩
  · intro hin hm
    obtain ⟨g1, g2, g3, g4⟩ := c9 hin hm
    refine ⟨g1, g2, g3, fun hik hmo => ?_⟩
    subst hik
    rw [capYToMove_front st.1 i hi next T h.1.gap h.2.1 h.2.2 hin] at g4
    exact g4 hmo
  · intro hin hm
    obtain ⟨g1, g2⟩ := c10 hin hm
    refine ⟨g1, ?_⟩
    rcases g2 with g | g
    · exact Or.inl g
    · exact Or.inr ⟨g, (c7 hm).1, (c7 hm).2⟩

theorem drawPassengers_live (clock : Nat → ℚ) (hmono : Monotone clock) (o : Vector2f)
    (next k : Nat) (st : List Passenger × SeatGrid) (T : ℚ) (h : Live o next k T st)
    (hT : T ≤ clock 0) (n : Nat) :
    Live o next k (clock n) ((List.range n).foldl (Plane.drawPassenger clock o) st) ∧
    ((List.range n).foldl (Plane.drawPassenger clock o) st).1.length = st.1.length ∧
    (∀ (i : Nat) (q q' : Passenger), st.1[i]? = some q →
      ((List.range n).foldl (Plane.drawPassenger clock o) st).1[i]? = some q' →
      (i < n → Passenger.Advance (clock i) (i = k) q q') ∧ (n ≤ i → q' = q)) := by
  induction n with
  | zero =>
    refine ⟨h.advance_clock hT, rfl, fun i q q' hq hq' => ⟨fun hlt => absurd hlt (by omega), fun _ => ?_⟩⟩
    simp only [List.range_zero, List.foldl_nil] at hq'
    rw [hq] at hq'
    exact (Option.some.inj hq').symm
  | succ n ih =>
    rw [List.range_succ, List.foldl_append, List.foldl_cons, List.foldl_nil]
    generalize (List.range n).foldl (Plane.drawPassenger clock o) st = mid at ih
    obtain ⟨hlive, hlen, hall⟩ := ih
    refine ⟨(drawPassenger_live clock o next k (clock n) mid n hlive (le_refl _)).advance_clock
      (hmono (Nat.le_succ n)), by rw [drawPassenger_length, hlen], ?_⟩
    intro i q q' hq hq'
    unfold Plane.drawPassenger at hq'
    cases hmid : mid.1[n]? with
    | none =>
      rw [hmid] at hq'
      simp only [] at hq'
      obtain ⟨h1, h2⟩ := hall i q q' hq hq'
      have hn : mid.1.length ≤ n := by
        by_contra hc
        rw [List.getElem?_eq_getElem (by omega)] at hmid
        exact absurd hmid (by simp)
      have hi : i < st.1.length := (List.getElem?_eq_some.1 hq).1
      refine ⟨fun hlt => h1 (by omega), fun hle => h2 (by omega)⟩
    | some m =>
      rw [hmid] at hq'
      simp only [] at hq'
      obtain ⟨hn, hm⟩ := List.getElem?_eq_some.1 hmid
      by_cases hin : i = n
      · subst hin
        rw [List.getElem?_set, if_pos rfl, if_pos hn] at hq'
        have hq'' := (Option.some.inj hq').symm
        have hmq : m = q := ((hall i q m hq hmid).2 (le_refl _))
        refine ⟨fun _ => ?_, fun hle => absurd hle (by omega)⟩
        have := Passenger.Draw_advance clock o next k (clock i) mid i hn hlive
        rw [hm, hmq] at this
        rw [hq'', hmq]
        exact this
      · rw [List.getElem?_set, if_neg (Ne.symm hin)] at hq'
        obtain ⟨h1, h2⟩ := hall i q q' hq hq'
        exact ⟨fun hlt => h1 (by omega), fun hle => h2 (by omega)⟩

theorem Plane.Draw_live (p : Plane) (t : ℚ) (clock : Nat → ℚ) (next k : Nat)
    (h : Live p.isleOrigin next k t (p.passengers, p.seats)) (ht : t ≤ clock 0)
    (hmono : Monotone clock) :
    Live (p.Draw clock).isleOrigin next k (clock p.passengers.length)
      ((p.Draw clock).passengers, (p.Draw clock).seats) ∧
    (p.Draw clock).passengers.length = p.passengers.length ∧
    ∀ (i : Nat) (q q' : Passenger), p.passengers[i]? = some q →
      (p.Draw clock).passengers[i]? = some q' → Passenger.Advance (clock i) (i = k) q q' := by
  have key := drawPassengers_live clock hmono
    (Plane.drawSeats 0 p.seats Plane.START_Y p.isleOrigin).2 next k
    (p.passengers, (Plane.drawSeats 0 p.seats Plane.START_Y p.isleOrigin).1) t
    ⟨Plane.drawSeats_inv p t h.1, h.2.1, h.2.2⟩ ht p.passengers.length
  refine ⟨key.1, key.2.1, fun i q q' hq hq' => ?_⟩
  exact (key.2.2 i q q' hq hq').1 (List.getElem?_eq_some.1 hq).1

theorem Plane.Board_live (p : Plane) (t : ℚ) (k : Nat) (i : Nat) (hi : i < p.passengers.length)
    (h : Live p.isleOrigin i k t (p.passengers, p.seats)) :
    (p.CanBoard = false → p.Board i = (some false, p)) ∧
    (p.CanBoard = true →
      (p.Board i).1 = none ∧
      Live (p.Board i).2.isleOrigin (i + 1) k t
        ((p.Board i).2.passengers, (p.Board i).2.seats) ∧
      (p.Board i).2.passengers =
        p.passengers.set i
          (p.passengers[i].SetBoarded.setPosition ⟨p.isleOrigin.x, p.isleOrigin.y⟩)) := by
  have hnb : p.passengers[i].isBoarded = false := by
    have := (h.2.1.boarded i hi).not
    simpa using this
  refine ⟨fun hc => ?_, fun hc => ?_⟩
  · unfold Plane.Board
    rw [if_pos (by simp [hc])]
  · have hsim := Plane.Board_inv p t i hi h.1 hnb
    obtain ⟨h0, hfar⟩ := (CanBoard_iff p).1 hc
    have hest : p.isleOrigin.y = Plane.START_Y := by
      rcases h.1.origin with ⟨ho, -⟩ | hd
      · exact absurd (by rw [ho]; exact ⟨rfl, rfl⟩) h0
      · exact hd.1
    have hB : p.Board i = (none, Plane.mk p.params p.seats p.noRows p.noSeats
        (p.passengers.set i
          (p.passengers[i].SetBoarded.setPosition ⟨p.isleOrigin.x, p.isleOrigin.y⟩))
        p.isleOrigin) := by
      unfold Plane.Board
      rw [if_neg (by simp [hc]), List.modify_eq_set_get _ hi]
      rfl
    rw [hB] at hsim ⊢
    refine ⟨rfl, ⟨hsim, ?_, ?_⟩, rfl⟩
    · show Queue (i + 1) t (p.passengers.set i _)
      have hq := h.2.1
      have hr : (0 : ℚ) ≤ 2 * Passenger.GetRadius + 1 := by norm_num [Passenger.GetRadius]
      refine ⟨?_, ?_, ?_, ?_, ?_⟩
      · intro a ha
        have ha' : a < p.passengers.length := by simpa using ha
        rw [List.getElem_set]
        split_ifs with e
        · subst e
          simp [Passenger.SetBoarded, Passenger.setPosition]
        · rw [hq.boarded a ha']
          omega
      · intro a b ha hb hab hina hinb
        have ha' : a < p.passengers.length := by simpa using ha
        have hb' : b < p.passengers.length := by simpa using hb
        rw [List.getElem_set] at hina hinb ⊢
        rw [List.getElem_set]
        by_cases hai : i = a
        · subst hai
          have hbi : ¬ i = b := by omega
          simp only [↓reduceIte, hbi] at hina hinb ⊢
          exfalso
          have : p.passengers[b].isBoarded = false := by
            have := (hq.boarded b hb').not
            simp only [Bool.not_eq_true] at this
            exact this.2 (by omega)
          rw [not_InIsle_of_not_boarded this] at hinb
          exact absurd hinb (by simp)
        · by_cases hbi : i = b
          · subst hbi
            simp only [↓reduceIte, hai] at hina hinb ⊢
            have h5 : p.isleOrigin.y ≤ p.passengers[a].position.y := by
              have := hfar _ (List.getElem_mem ha') hina
              rw [hest]
              linarith
            exact h5
          · simp only [hai, hbi, ↓reduceIte] at hina hinb ⊢
            exact hq.ordered a b ha' hb' hab hina hinb
      · intro q hmem
        rcases List.mem_or_eq_of_mem_set hmem with hmem | hmem
        · exact hq.vel q hmem
        · rw [hmem]; exact hq.vel p.passengers[i] (List.getElem_mem hi)
      · intro q hmem hs
        rcases List.mem_or_eq_of_mem_set hmem with hmem | hmem
        · exact hq.seated q hmem hs
        · rw [hmem]; rfl
      · intro q hmem hm
        rcases List.mem_or_eq_of_mem_set hmem with hmem | hmem
        · exact hq.wait q hmem hm
        · rw [hmem] at hm ⊢
          exact hq.wait p.passengers[i] (List.getElem_mem hi) hm
    · intro j hj hjk
      have hj' : j < p.passengers.length := by simpa using hj
      show (p.passengers.set i _)[j].isSeated = true
      rw [List.getElem_set]
      split_ifs with e
      · subst e
        exact h.2.2 i hi hjk
      · exact h.2.2 j hj' hjk

theorem Host.step_cases (h : Host) (clock : Nat → ℚ) :
    (¬ h.nextPassenger < (h.plane.Draw clock).passengers.length →
      h.step clock true = ⟨h.plane.Draw clock, h.nextPassenger⟩) ∧
    (h.nextPassenger < (h.plane.Draw clock).passengers.length →
      ((h.plane.Draw clock).Board h.nextPassenger).1 = some false →
      h.step clock true = ⟨((h.plane.Draw clock).Board h.nextPassenger).2, h.nextPassenger⟩) ∧
    (h.nextPassenger < (h.plane.Draw clock).passengers.length →
      ((h.plane.Draw clock).Board h.nextPassenger).1 = none →
      h.step clock true =
        ⟨((h.plane.Draw clock).Board h.nextPassenger).2, h.nextPassenger + 1⟩) := by
  refine ⟨fun h1 => ?_, fun h1 h2 => ?_, fun h1 h2 => ?_⟩
  · unfold Host.step
    dsimp only
    rw [if_neg h1]
  · unfold Host.step
    dsimp only
    rw [if_pos h1, h2]
    rfl
  · unfold Host.step
    dsimp only
    rw [if_pos h1, h2]
    rfl

theorem Host.step_inv (h : Host) (clock : Nat → ℚ) (rows s L k : Nat) (T : ℚ)
    (hinv : HostInv rows s L k T h) (hT : T ≤ clock 0) (hmono : Monotone clock)
    (hrows : 1 ≤ rows) (hs : 2 ≤ s) (hmax : s < 2 ^ 64) :
    HostInv rows s L k (clock L) (h.step clock true) ∧
    ∀ (i : Nat) (q q' : Passenger), h.plane.passengers[i]? = some q →
      (h.step clock true).plane.passengers[i]? = some q' →
      (q.isBoarded = true → Passenger.Advance (clock i) (i = k) q q') ∧
      (q.isBoarded = false → i = k → q'.InIsle = true) := by
  obtain ⟨hlive, hshape, hlen⟩ := hinv
  obtain ⟨dlive, dlen, dtrace⟩ :=
    Plane.Draw_live h.plane T clock h.nextPassenger k hlive hT hmono
  have dshape : (h.plane.Draw clock).seats.map List.length = List.replicate rows s := by
    rw [Plane.Draw_shape]; exact hshape
  have dorigin : (h.plane.Draw clock).isleOrigin = Plane.originFor s :=
    drawSeats_origin_established h.plane.seats h.plane.isleOrigin rows s hshape hrows hs hmax
  rw [hlen] at dlive
  obtain ⟨sc1, sc2, sc3⟩ := Host.step_cases h clock
  -- an un-boarded passenger at the front is the next one, and the gate is open for it
  have hfrontnext : ∀ (q : Passenger), h.plane.passengers[k]? = some q → q.isBoarded = false →
      k = h.nextPassenger ∧ (h.plane.Draw clock).CanBoard = true := by
    intro q hq hnb
    obtain ⟨hk, hqk⟩ := List.getElem?_eq_some.1 hq
    have h1 : ¬ k < h.nextPassenger := by
      intro hlt
      have := (hlive.2.1.boarded k hk).2 hlt
      rw [hqk, hnb] at this
      exact absurd this (by simp)
    have h2 : ¬ h.nextPassenger < k := by
      intro hlt
      have hn : h.nextPassenger < h.plane.passengers.length := by omega
      have hseat := hlive.2.2 h.nextPassenger hn hlt
      have hb := hlive.2.1.seated _ (List.getElem_mem hn) hseat
      have := (hlive.2.1.boarded _ hn).1 hb
      omega
    refine ⟨by omega, (CanBoard_iff _).2 ⟨?_, ?_⟩⟩
    · rw [dorigin]
      intro hc
      have : (Plane.originFor s).y = 50 := rfl
      rw [this] at hc
      exact absurd hc.2 (by norm_num)
    · intro a ha hina
      exfalso
      obtain ⟨j, hj, rfl⟩ := List.mem_iff_getElem.1 ha
      by_cases hjk : j < k
      · have := dlive.2.2 j hj hjk
        unfold Passenger.InIsle at hina
        rw [this] at hina
        simp at hina
      · have hnbj : (h.plane.Draw clock).passengers[j].isBoarded = false := by
          have := (dlive.2.1.boarded j hj).not
          simp only [Bool.not_eq_true] at this
          exact this.2 (by omega)
        rw [not_InIsle_of_not_boarded hnbj] at hina
        exact absurd hina (by simp)
  by_cases hlt : h.nextPassenger < (h.plane.Draw clock).passengers.length
  · obtain ⟨bf, bt⟩ := Plane.Board_live (h.plane.Draw clock) (clock L) k h.nextPassenger hlt dlive
    cases hcan : (h.plane.Draw clock).CanBoard with
    | false =>
      have hB := bf hcan
      have hstep := sc2 hlt (by rw [hB])
      rw [hB] at hstep
      rw [hstep]
      refine ⟨⟨dlive, dshape, dlen.trans hlen⟩, fun i q q' hq hq' => ⟨fun _ => dtrace i q q' hq hq', ?_⟩⟩
      intro hnb hik
      subst hik
      have := (hfrontnext q hq hnb).2
      rw [hcan] at this
      exact absurd this (by simp)
    | true =>
      obtain ⟨b1, b2, b3⟩ := bt hcan
      have hstep := sc3 hlt b1
      rw [hstep]
      refine ⟨⟨b2, ?_, ?_⟩, fun i q q' hq hq' => ?_⟩
      · show ((h.plane.Draw clock).Board h.nextPassenger).2.seats.map List.length = _
        rw [(Plane.Board_fields _ _).1]
        exact dshape
      · show ((h.plane.Draw clock).Board h.nextPassenger).2.passengers.length = L
        rw [b3, List.length_set]
        exact dlen.trans hlen
      · have hq'2 : ((h.plane.Draw clock).Board h.nextPassenger).2.passengers[i]? = some q' := hq'
        rw [b3, List.getElem?_set] at hq'2
        obtain ⟨hi, hqi⟩ := List.getElem?_eq_some.1 hq
        have hi1 : i < (h.plane.Draw clock).passengers.length := by omega
        have hadv := dtrace i q _ hq (List.getElem?_eq_getElem hi1)
        by_cases hin : h.nextPassenger = i
        · subst hin
          rw [if_pos rfl, if_pos hlt] at hq'2
          have hnb : q.isBoarded = false := by
            have := (hlive.2.1.boarded _ hi).not
            rw [hqi] at this
            simpa using this
          refine ⟨fun hb => ?_, fun _ _ => ?_⟩
          · rw [hnb] at hb; exact absurd hb (by simp)
          · have hq'3 := (Option.some.inj hq'2).symm
            have hnb1 : (h.plane.Draw clock).passengers[h.nextPassenger].isBoarded = false := by
              rw [hadv.2.2.2.1]; exact hnb
            have hns1 : (h.plane.Draw clock).passengers[h.nextPassenger].isSeated = false := by
              cases hs1 : (h.plane.Draw clock).passengers[h.nextPassenger].isSeated with
              | false => rfl
              | true =>
                have := dlive.2.1.seated _ (List.getElem_mem hi1) hs1
                rw [hnb1] at this
                exact absurd this (by simp)
            rw [hq'3]
            simp [Passenger.InIsle, Passenger.SetBoarded, Passenger.setPosition, hns1]
        · rw [if_neg hin] at hq'2
          rw [List.getElem?_eq_getElem hi1] at hq'2
          have hq'3 := (Option.some.inj hq'2).symm
          rw [hq'3]
          refine ⟨fun _ => hadv, fun hnb hik => ?_⟩
          subst hik
          exact absurd (hfrontnext q hq hnb).1.symm hin
  · have hstep := sc1 hlt
    rw [hstep]
    refine ⟨⟨dlive, dshape, dlen.trans hlen⟩, fun i q q' hq hq' => ⟨fun _ => dtrace i q q' hq hq', ?_⟩⟩
    intro hnb hik
    exfalso
    obtain ⟨hi, hqi⟩ := List.getElem?_eq_some.1 hq
    have := (hlive.2.1.boarded i hi).2 (by omega)
    rw [hqi, hnb] at this
    exact absurd this (by simp)

/-! ### The run of the host loop -/

theorem tickStart_add_le {clock : Nat → Nat → ℚ} {δ : ℚ} (hc : TickClock clock δ) (L n i : Nat) :
    tickStart clock δ L n + δ ≤ clock n i := by
  cases n with
  | zero =>
    show clock 0 0 - δ + δ ≤ clock 0 i
    have := hc.mono 0 (Nat.zero_le i)
    linarith
  | succ n => exact hc.tick n L i

theorem tickStart_le {clock : Nat → Nat → ℚ} {δ : ℚ} (hc : TickClock clock δ) (L n i : Nat) :
    tickStart clock δ L n ≤ clock n i := by
  have := tickStart_add_le hc L n i
  have := hc.pos
  linarith

theorem HostInv.with_front {rows s L k : Nat} {T : ℚ} {h : Host} (hinv : HostInv rows s L 0 T h)
    (hf : Front k h.plane.passengers) : HostInv rows s L k T h :=
  ⟨⟨hinv.live.1, hinv.live.2.1, hf⟩, hinv.shape, hinv.len⟩

theorem HostInv.without_front {rows s L k : Nat} {T : ℚ} {h : Host} (hinv : HostInv rows s L k T h) :
    HostInv rows s L 0 T h :=
  ⟨⟨hinv.live.1, hinv.live.2.1, fun j _ hj => absurd hj (by omega)⟩, hinv.shape, hinv.len⟩

theorem Host.run_inv {start : Host} {clock : Nat → Nat → ℚ} {δ : ℚ} {rows s L : Nat}
    (B : Boarding start clock δ rows s L) (n : Nat) :
    HostInv rows s L 0 (tickStart clock δ L n) (start.run clock (fun _ => true) n) := by
  induction n with
  | zero => exact B.init
  | succ n ih =>
    exact (Host.step_inv _ (clock n) rows s L 0 _ ih (tickStart_le B.ticks L n 0)
      (B.ticks.mono n) B.rowsPos B.seatsTwo B.seatsMax).1

theorem Host.run_step {start : Host} {clock : Nat → Nat → ℚ} {δ : ℚ} {rows s L : Nat}
    (B : Boarding start clock δ rows s L) (n k : Nat)
    (hf : Front k (start.run clock (fun _ => true) n).plane.passengers) :
    Front k (start.run clock (fun _ => true) (n + 1)).plane.passengers ∧
    ∀ (i : Nat) (q q' : Passenger),
      (start.run clock (fun _ => true) n).plane.passengers[i]? = some q →
      (start.run clock (fun _ => true) (n + 1)).plane.passengers[i]? = some q' →
      (q.isBoarded = true → Passenger.Advance (clock n i) (i = k) q q') ∧
      (q.isBoarded = false → i = k → q'.InIsle = true) := by
  have key := Host.step_inv _ (clock n) rows s L k _ ((Host.run_inv B n).with_front hf)
    (tickStart_le B.ticks L n 0) (B.ticks.mono n) B.rowsPos B.seatsTwo B.seatsMax
  exact ⟨key.1.live.2.2, key.2⟩

theorem Host.run_get {start : Host} {clock : Nat → Nat → ℚ} {δ : ℚ} {rows s L : Nat}
    (B : Boarding start clock δ rows s L) (n k : Nat) (hk : k < L) :
    ∃ q, (start.run clock (fun _ => true) n).plane.passengers[k]? = some q :=
  ⟨_, List.getElem?_eq_getElem (by rw [(Host.run_inv B n).len]; exact hk)⟩

theorem SeatedAt.next_iteration {start : Host} {clock : Nat → Nat → ℚ} {δ : ℚ} {rows s L : Nat}
    (B : Boarding start clock δ rows s L) {n k : Nat} (h : SeatedAt start clock n k) :
    SeatedAt start clock (n + 1) k := by
  obtain ⟨q, hq, hs⟩ := h
  have hk : k < L := by
    rw [← (Host.run_inv B n).len]
    exact (List.getElem?_eq_some.1 hq).1
  obtain ⟨q', hq'⟩ := Host.run_get B (n + 1) k hk
  have hb := (Host.run_inv B n).live.2.1.seated q (mem_of_getElem?_eq_some hq) hs
  have hadv := ((Host.run_step B n 0 (fun j _ hj => absurd hj (by omega))).2 k q q' hq hq').1 hb
  exact ⟨q', hq', hadv.2.2.2.2.1 hs⟩

theorem SeatedAt.from_then_on {start : Host} {clock : Nat → Nat → ℚ} {δ : ℚ} {rows s L : Nat}
    (B : Boarding start clock δ rows s L) {n k : Nat} (h : SeatedAt start clock n k) (m : Nat) :
    SeatedAt start clock (n + m) k := by
  induction m with
  | zero => exact h
  | succ m ih => exact SeatedAt.next_iteration B ih

theorem Front.persists {start : Host} {clock : Nat → Nat → ℚ} {δ : ℚ} {rows s L : Nat}
    (B : Boarding start clock δ rows s L) {n k : Nat}
    (hf : Front k (start.run clock (fun _ => true) n).plane.passengers) (m : Nat) :
    Front k (start.run clock (fun _ => true) (n + m)).plane.passengers := by
  induction m with
  | zero => exact hf
  | succ m ih => exact (Host.run_step B (n + m) k ih).1

theorem InIsle_isBoarded {q : Passenger} (h : q.InIsle = true) :
    q.isBoarded = true ∧ q.isSeated = false := by
  unfold Passenger.InIsle at h
  simpa using h

theorem Host.run_advance {start : Host} {clock : Nat → Nat → ℚ} {δ : ℚ} {rows s L : Nat}
    (B : Boarding start clock δ rows s L) (n f k : Nat)
    (hf : Front f (start.run clock (fun _ => true) n).plane.passengers) (q : Passenger)
    (hq : (start.run clock (fun _ => true) n).plane.passengers[k]? = some q)
    (hb : q.isBoarded = true) :
    ∃ q', (start.run clock (fun _ => true) (n + 1)).plane.passengers[k]? = some q' ∧
      Passenger.Advance (clock n k) (k = f) q q' := by
  have hk : k < L := by
    rw [← (Host.run_inv B n).len]
    exact (List.getElem?_eq_some.1 hq).1
  obtain ⟨q', hq'⟩ := Host.run_get B (n + 1) k hk
  exact ⟨q', hq', ((Host.run_step B n f hf).2 k q q' hq hq').1 hb⟩

theorem Front.zero (ps : List Passenger) : Front 0 ps :=
  fun j _ hj => absurd hj (by omega)

theorem waiting_progress {start : Host} {clock : Nat → Nat → ℚ} {δ : ℚ} {rows s L : Nat}
    (B : Boarding start clock δ rows s L) (k : Nat) :
    ∀ (d n : Nat) (q : Passenger),
      (start.run clock (fun _ => true) n).plane.passengers[k]? = some q →
      q.InIsle = true → q.isMoving = false →
      q.waitStart + q.waitDuration ≤ tickStart clock δ L n + δ * ((d : ℚ) + 1) →
      ∃ m, SeatedAt start clock (n + m) k := by
  intro d
  induction d with
  | zero =>
    intro n q hq hin hm hbound
    obtain ⟨q', hq', hadv⟩ :=
      Host.run_advance B n 0 k (Front.zero _) q hq (InIsle_isBoarded hin).1
    obtain ⟨-, -, -, -, -, -, a7⟩ := hadv
    have h1 := tickStart_add_le B.ticks L n k
    simp only [Nat.cast_zero, zero_add, mul_one] at hbound
    exact ⟨1, q', hq', (a7 hin hm).1 (le_trans hbound h1)⟩
  | succ d ih =>
    intro n q hq hin hm hbound
    obtain ⟨q', hq', hadv⟩ :=
      Host.run_advance B n 0 k (Front.zero _) q hq (InIsle_isBoarded hin).1
    obtain ⟨-, -, a3, -, -, -, a7⟩ := hadv
    rcases (a7 hin hm).2 with hs | ⟨hin', hm', hws⟩
    · exact ⟨1, q', hq', hs⟩
    · have h1 : tickStart clock δ L n + δ ≤ tickStart clock δ L (n + 1) :=
        tickStart_add_le B.ticks L n L
      have hb' : q'.waitStart + q'.waitDuration ≤
          tickStart clock δ L (n + 1) + δ * ((d : ℚ) + 1) := by
        rw [hws, a3]
        push_cast at hbound
        linarith
      obtain ⟨m, hmm⟩ := ih (n + 1) q' hq' hin' hm' hb'
      refine ⟨m + 1, ?_⟩
      have e : n + (m + 1) = n + 1 + m := by omega
      rw [e]
      exact hmm

theorem moving_progress {start : Host} {clock : Nat → Nat → ℚ} {δ : ℚ} {rows s L : Nat}
    (B : Boarding start clock δ rows s L) (k : Nat) :
    ∀ (d n : Nat) (q : Passenger),
      Front k (start.run clock (fun _ => true) n).plane.passengers →
      (start.run clock (fun _ => true) n).plane.passengers[k]? = some q →
      q.InIsle = true → q.isMoving = true → q.hasMovedOnce = true →
      (q.myseat.1 : ℚ) * (Plane.ROW_SPACING + Seat.GetSeatHeight) - q.isleY <
        δ * q.yVelocity * (d : ℚ) →
      ∃ m q', (start.run clock (fun _ => true) (n + m)).plane.passengers[k]? = some q' ∧
        q'.InIsle = true ∧ q'.isMoving = false := by
  intro d
  induction d with
  | zero =>
    intro n q hf hq hin hm hmo hbound
    exfalso
    have hinv := Host.run_inv B n
    have hmem := mem_of_getElem?_eq_some hq
    have hP := hinv.live.1.each q hmem
    have hoy : (start.run clock (fun _ => true) n).plane.isleOrigin.y = Plane.START_Y := by
      rcases hinv.live.1.origin with ⟨-, hall⟩ | hd
      · have := hall q hmem
        rw [(InIsle_isBoarded hin).1] at this
        exact absurd this (by simp)
      · exact hd.1
    have hseat := hP.seat hin hm
    rw [hoy] at hseat
    simp only [Nat.cast_zero, mul_zero] at hbound
    linarith
  | succ d ih =>
    intro n q hf hq hin hm hmo hbound
    obtain ⟨q', hq', hadv⟩ := Host.run_advance B n k k hf q hq (InIsle_isBoarded hin).1
    obtain ⟨a1, a2, -, -, -, a6, -⟩ := hadv
    obtain ⟨g1, g2, -, g4⟩ := a6 hin hm
    rcases g4 rfl hmo with hw | ⟨hm', hy⟩
    · exact ⟨1, q', hq', g1, hw⟩
    · have hinv := Host.run_inv B n
      have hmem := mem_of_getElem?_eq_some hq
      have hP := hinv.live.1.each q hmem
      have hvel := hinv.live.2.1.vel q hmem
      have hlast := hP.time hmo
      have hnow := tickStart_add_le B.ticks L n k
      have hstep : δ * q.yVelocity ≤ (clock n k - q.lastMove) * q.yVelocity :=
        mul_le_mul_of_nonneg_right (by linarith) (le_of_lt hvel)
      have hb' : (q'.myseat.1 : ℚ) * (Plane.ROW_SPACING + Seat.GetSeatHeight) - q'.isleY <
          δ * q'.yVelocity * (d : ℚ) := by
        rw [a1, a2, hy]
        push_cast at hbound
        linarith
      obtain ⟨m, q'', hq'', hr⟩ := ih (n + 1) q' (Host.run_step B n k hf).1 hq' g1 hm' g2 hb'
      refine ⟨m + 1, q'', ?_, hr⟩
      have e : n + (m + 1) = n + 1 + m := by omega
      rw [e]
      exact hq''

theorem waiting_done {start : Host} {clock : Nat → Nat → ℚ} {δ : ℚ} {rows s L : Nat}
    (B : Boarding start clock δ rows s L) (k n : Nat) (q : Passenger)
    (hq : (start.run clock (fun _ => true) n).plane.passengers[k]? = some q)
    (hin : q.InIsle = true) (hm : q.isMoving = false) :
    ∃ m, SeatedAt start clock (n + m) k := by
  have hδ := B.ticks.pos
  obtain ⟨d, hd⟩ := exists_nat_gt ((q.waitStart + q.waitDuration - tickStart clock δ L n) / δ)
  rw [div_lt_iff₀ hδ] at hd
  refine waiting_progress B k d n q hq hin hm ?_
  have : (d : ℚ) * δ ≤ δ * ((d : ℚ) + 1) := by linarith
  linarith

theorem moving_done {start : Host} {clock : Nat → Nat → ℚ} {δ : ℚ} {rows s L : Nat}
    (B : Boarding start clock δ rows s L) (k n : Nat) (q : Passenger)
    (hf : Front k (start.run clock (fun _ => true) n).plane.passengers)
    (hq : (start.run clock (fun _ => true) n).plane.passengers[k]? = some q)
    (hin : q.InIsle = true) (hm : q.isMoving = true) (hmo : q.hasMovedOnce = true) :
    ∃ m q', (start.run clock (fun _ => true) (n + m)).plane.passengers[k]? = some q' ∧
      q'.InIsle = true ∧ q'.isMoving = false := by
  have hδ := B.ticks.pos
  have hvel := (Host.run_inv B n).live.2.1.vel q (mem_of_getElem?_eq_some hq)
  have hc : 0 < δ * q.yVelocity := mul_pos hδ hvel
  obtain ⟨d, hd⟩ := exists_nat_gt
    (((q.myseat.1 : ℚ) * (Plane.ROW_SPACING + Seat.GetSeatHeight) - q.isleY) / (δ * q.yVelocity))
  rw [div_lt_iff₀ hc] at hd
  refine moving_progress B k d n q hf hq hin hm hmo ?_
  linarith

theorem aisle_progress {start : Host} {clock : Nat → Nat → ℚ} {δ : ℚ} {rows s L : Nat}
    (B : Boarding start clock δ rows s L) (k n : Nat) (q : Passenger)
    (hf : Front k (start.run clock (fun _ => true) n).plane.passengers)
    (hq : (start.run clock (fun _ => true) n).plane.passengers[k]? = some q)
    (hin : q.InIsle = true) :
    ∃ m, SeatedAt start clock (n + m) k := by
  have hmoved : ∀ (n1 : Nat) (q1 : Passenger),
      Front k (start.run clock (fun _ => true) n1).plane.passengers →
      (start.run clock (fun _ => true) n1).plane.passengers[k]? = some q1 →
      q1.InIsle = true → q1.isMoving = true → q1.hasMovedOnce = true →
      ∃ m, SeatedAt start clock (n1 + m) k := by
    intro n1 q1 hf1 hq1 hin1 hm1 hmo1
    obtain ⟨m, q2, hq2, hin2, hm2⟩ := moving_done B k n1 q1 hf1 hq1 hin1 hm1 hmo1
    obtain ⟨m', hs⟩ := waiting_done B k (n1 + m) q2 hq2 hin2 hm2
    refine ⟨m + m', ?_⟩
    have e : n1 + (m + m') = n1 + m + m' := by omega
    rw [e]
    exact hs
  cases hm : q.isMoving with
  | false => exact waiting_done B k n q hq hin hm
  | true =>
    cases hmo : q.hasMovedOnce with
    | true => exact hmoved n q hf hq hin hm hmo
    | false =>
      obtain ⟨q', hq', hadv⟩ := Host.run_advance B n k k hf q hq (InIsle_isBoarded hin).1
      obtain ⟨-, -, -, -, -, a6, -⟩ := hadv
      obtain ⟨g1, g2, g3, -⟩ := a6 hin hm
      obtain ⟨m, hs⟩ := hmoved (n + 1) q' (Host.run_step B n k hf).1 hq' g1 (g3 hmo) g2
      refine ⟨m + 1, ?_⟩
      have e : n + (m + 1) = n + 1 + m := by omega
      rw [e]
      exact hs

theorem front_progress {start : Host} {clock : Nat → Nat → ℚ} {δ : ℚ} {rows s L : Nat}
    (B : Boarding start clock δ rows s L) (k n : Nat) (hk : k < L)
    (hf : Front k (start.run clock (fun _ => true) n).plane.passengers) :
    ∃ m, SeatedAt start clock (n + m) k := by
  obtain ⟨q, hq⟩ := Host.run_get B n k hk
  cases hs : q.isSeated with
  | true => exact ⟨0, q, hq, hs⟩
  | false =>
    cases hb : q.isBoarded with
    | true =>
      exact aisle_progress B k n q hf hq (by simp [Passenger.InIsle, hs, hb])
    | false =>
      obtain ⟨q', hq'⟩ := Host.run_get B (n + 1) k hk
      have hin := ((Host.run_step B n k hf).2 k q q' hq hq').2 hb rfl
      obtain ⟨m, hsm⟩ := aisle_progress B k (n + 1) q' (Host.run_step B n k hf).1 hq' hin
      refine ⟨m + 1, ?_⟩
      have e : n + (m + 1) = n + 1 + m := by omega
      rw [e]
      exact hsm

theorem front_eventually {start : Host} {clock : Nat → Nat → ℚ} {δ : ℚ} {rows s L : Nat}
    (B : Boarding start clock δ rows s L) :
    ∀ k, k ≤ L → ∃ N, Front k (start.run clock (fun _ => true) N).plane.passengers := by
  intro k
  induction k with
  | zero => exact fun _ => ⟨0, Front.zero _⟩
  | succ k ih =>
    intro hk
    obtain ⟨N, hN⟩ := ih (by omega)
    obtain ⟨m, q, hq, hs⟩ := front_progress B k N (by omega) hN
    refine ⟨N + m, fun j hj hjk => ?_⟩
    by_cases hjk' : j < k
    · exact Front.persists B hN m j hj hjk'
    · have hjeq : j = k := by omega
      subst hjeq
      rw [List.getElem?_eq_getElem hj] at hq
      rw [Option.some.inj hq]
      exact hs

theorem Boarding.all_seated {start : Host} {clock : Nat → Nat → ℚ} {δ : ℚ} {rows s L : Nat}
    (B : Boarding start clock δ rows s L) :
    ∃ N, ∀ n, N ≤ n → (start.run clock (fun _ => true) n).plane.allSeated = true := by
  obtain ⟨N, hN⟩ := front_eventually B L (le_refl _)
  refine ⟨N, fun n hn => ?_⟩
  obtain ⟨m, rfl⟩ := Nat.exists_eq_add_of_le hn
  have hf := Front.persists B hN m
  unfold Plane.allSeated
  rw [List.all_eq_true]
  intro q hq
  obtain ⟨j, hj, rfl⟩ := List.mem_iff_getElem.1 hq
  exact hf j hj (by rw [← (Host.run_inv B (N + m)).len]; exact hj)

theorem Plane.new_fresh (params : ModelParameters) (rows seatsPerRow : Int) (p : Plane)
    (hnew : Plane.new params rows seatsPerRow = some p) :
    p.seats.map List.length = List.replicate rows.toNat seatsPerRow.toNat ∧
    ∀ q ∈ p.passengers,
      q.isBoarded = false ∧ q.isSeated = false ∧ q.isMoving = true ∧ 0 < q.yVelocity := by
  unfold Plane.new at hnew
  split_ifs at hnew
  simp only [Option.some.injEq] at hnew
  subst hnew
  refine ⟨by simp, fun q hq => ?_⟩
  simp only [List.mem_flatMap, List.mem_range, List.mem_map] at hq
  obtain ⟨r, -, c, -, rfl⟩ := hq
  refine ⟨rfl, rfl, rfl, ?_⟩
  show 0 < max 5 _ * ModelParameters.GetScaleFactor
  have : (5 : ℚ) ≤ max 5 (params.passengerSpeedDistribution (r * seatsPerRow.toNat + c)) :=
    le_max_left _ _
  unfold ModelParameters.GetScaleFactor
  linarith

theorem Boarding.of_new (params : ModelParameters) (rows seatsPerRow : Int) (p : Plane)
    (order : List Passenger) (clock : Nat → Nat → ℚ) (δ : ℚ)
    (hnew : Plane.new params rows seatsPerRow = some p) (hrows : 1 ≤ rows)
    (hseats : 2 ≤ seatsPerRow) (hmax : seatsPerRow ≤ INT_MAX)
    (horder : order.Perm p.passengers) (hclock : TickClock clock δ) :
    Boarding (Host.start { p with passengers := order }) clock δ rows.toNat seatsPerRow.toNat
      order.length := by
  obtain ⟨hshape, hfresh⟩ := Plane.new_fresh params rows seatsPerRow p hnew
  have hmem : ∀ q ∈ order,
      q.isBoarded = false ∧ q.isSeated = false ∧ q.isMoving = true ∧ 0 < q.yVelocity :=
    fun q hq => hfresh q (horder.mem_iff.1 hq)
  unfold INT_MAX at hmax
  have hQ : Queue 0 (tickStart clock δ order.length 0) order := by
    refine ⟨?_, ?_, ?_, ?_, ?_⟩
    · intro i hi
      have := (hmem _ (List.getElem_mem hi)).1
      constructor
      · intro hb
        rw [this] at hb
        exact absurd hb (by simp)
      · intro hlt
        exact absurd hlt (Nat.not_lt_zero i)
    · intro i j hi hj _ hin
      exfalso
      have := (hmem _ (List.getElem_mem hi)).1
      rw [not_InIsle_of_not_boarded this] at hin
      exact absurd hin (by simp)
    · exact fun q hq => (hmem q hq).2.2.2
    · intro q hq hs
      rw [(hmem q hq).2.1] at hs
      exact absurd hs (by simp)
    · intro q hq hm
      rw [(hmem q hq).2.2.1] at hm
      exact absurd hm (by simp)
  exact ⟨hclock,
    ⟨⟨Plane.new_inv params rows seatsPerRow p order _ hnew horder, hQ, Front.zero _⟩,
      hshape, rfl⟩, by omega, by omega, by omega⟩

/-- C15, amended. Termination: for a plane of at least one row and at least two seats per
row, its passengers in any boarding order, and a clock whose readings of one iteration are at
least some `δ > 0` after those of the iteration before, the host loop (`Draw`, then `Board`
on the next passenger not boarded, an admitting `Board` counting as such) reaches after
finitely many iterations a state in which every passenger is seated, and stays there. -/
theorem host_loop_terminates (params : ModelParameters) (rows seatsPerRow : Int) (p : Plane)
    (order : List Passenger) (clock : Nat → Nat → ℚ) (δ : ℚ)
    (hnew : Plane.new params rows seatsPerRow = some p) (hrows : 1 ≤ rows)
    (hseats : 2 ≤ seatsPerRow) (hmax : seatsPerRow ≤ INT_MAX)
    (horder : order.Perm p.passengers) (hclock : TickClock clock δ) :
    ∃ N, ∀ n, N ≤ n →
      ((Host.start { p with passengers := order }).run clock (fun _ => true) n).plane.allSeated
        = true :=
  (Boarding.of_new params rows seatsPerRow p order clock δ hnew hrows hseats hmax horder
    hclock).all_seated

/-- C15, witness: the plane of two rows of two seats, in its constructed order, under the
clock that reads `n` in iteration `n` (`δ = 1`): not every passenger is seated after 11
iterations, every passenger is after 12, and from some iteration on. -/
theorem host_loop_terminates_witness :
    ((Host.start Plane.start).run unitClock (fun _ => true) 11).plane.allSeated = false ∧
    ((Host.start Plane.start).run unitClock (fun _ => true) 12).plane.allSeated = true ∧
    ∃ N, ∀ n, N ≤ n →
      ((Host.start { Plane.start with passengers := Plane.start.passengers }).run unitClock
        (fun _ => true) n).plane.allSeated = true :=
  ⟨by decide!, by decide!,
    host_loop_terminates ModelParameters.sample 2 2 Plane.start Plane.start.passengers
      unitClock 1 rfl (by decide) (by decide) (by decide) (List.Perm.refl _)
      ⟨by norm_num, fun _ => monotone_const,
        fun n i j => by unfold unitClock; push_cast; exact le_refl _⟩⟩

end BoardingSimulator
